import Mathlib

/-!
# Harardin/rate-limit: configuration resolution

A shallow embedding of the configuration resolver of the repository
(`pkg/consul`, `pkg/vault`, `pkg/initialconfig`), of the address getters of
`internal/config`, of the rate limiter of `internal/server` and of `Encrypt`
of `pkg/cryptography`, and theorems about them.

Conventions of the embedding:

* a Go `string` is a Lean `String`; a `[]byte` is the list of its characters,
  and the conversion `string(b)` is `String.mk b`;
* a Go `error` is a value of `GoError`; a Go function returning `(T, error)`
  returns a pair `T × Option GoError`, where `none` is the `nil` error;
* a Go `interface{}` value is `Any = Option GoValue`, where `none` is `nil`;
* a Go `map` that is iterated is an association list with pairwise different
  keys; the order in which `range` visits it is an explicit argument;
* a Go `int` is an `Int` of 64 bits: sums and differences go through
  `utils.wrapInt`; a panic is an error of an `Except`;
* what a call finds outside the program (the random source, the clock) is an
  explicit argument.
-/

/-! ## Go values -/

/-- A Go `error`. `ErrKeyNotExist` is the sentinel of package `consul`;
`message` is any other error of a called library; `errorf` is the result of
`fmt.Errorf(format, cause)` with the verb `%v`, which does not wrap. -/
inductive GoError where
  | ErrKeyNotExist
  | message (text : String)
  | errorf (format : String) (cause : GoError)
  deriving DecidableEq, Repr

/-- The test `errors.Is(err, consul.ErrKeyNotExist)`: only the sentinel itself
matches (no error of the model wraps another one). -/
def GoError.isKeyNotExist : GoError → Bool
  | .ErrKeyNotExist => true
  | _ => false

/-- A byte slice `[]byte`. -/
abbrev Bytes := List Char

namespace consul

/-- Go: `GetServiceAddressResponseItem`, one network endpoint. -/
structure GetServiceAddressResponseItem where
  Address : String
  Port : Int
  deriving DecidableEq, Repr

/-- Go: `GetServiceAddressResponse`, a slice of endpoints. -/
abbrev GetServiceAddressResponse := List GetServiceAddressResponseItem

end consul

/-- The dynamic values an `interface{}` holds in this program. -/
inductive GoValue where
  | str (s : String)
  | int (n : Int)
  | int32 (n : Int)
  | bool (b : Bool)
  | addrs (l : consul.GetServiceAddressResponse)
  | strMap (m : List (String × String))
  deriving DecidableEq, Repr

/-- A Go `interface{}`; `none` is the `nil` interface. -/
abbrev Any := Option GoValue

/-! ## Package `consul` -/

namespace consul

/-- Go: `api.KVPair`, of which the client reads `Value` only. -/
structure KVPair where
  Value : Bytes
  deriving DecidableEq, Repr

/-- Go: `api.ServiceAddress`. -/
structure ServiceAddress where
  Address : String
  Port : Int
  deriving DecidableEq, Repr

/-- Go: `api.AgentService`; `TaggedAddresses` is a map from tag to address,
given here in the order in which `range` visits it. -/
structure AgentService where
  TaggedAddresses : List (String × ServiceAddress)
  deriving DecidableEq, Repr

/-- Go: `api.ServiceEntry`, of which the client reads `Service` only; the
pointer is not `nil` in the entries the health endpoint returns. -/
structure ServiceEntry where
  Service : AgentService
  deriving DecidableEq, Repr

/-- Go: the interface `Consul`. -/
structure Consul where
  GetValue : String → String → Bytes × Option GoError
  GetServiceAddress : String → GetServiceAddressResponse × Option GoError

/-- Go: the struct `service`. `kvGet` is `s.kv.Get(fullPath, nil)` (the pair is
`none` when the store has no such key) and `healthService` is
`s.health.Service(serviceName, "", true, nil)`; a call of the library returns
either its error or its result. -/
structure service where
  serviceName : String
  standName : String
  kvGet : String → Except GoError (Option KVPair)
  healthService : String → Except GoError (List ServiceEntry)

/-- The local variable `fullPath` of `service.GetValue`. -/
def service.fullPath (s : service) (path key : String) : String :=
  let path := if path = "local" then path ++ "/" ++ s.serviceName else path
  s.standName ++ "/" ++ path ++ "/" ++ key

/-- Go: `service.GetValue`. -/
def service.GetValue (s : service) (path key : String) : Bytes × Option GoError :=
  match s.kvGet (s.fullPath path key) with
  | .error err => ([], some err)
  | .ok none => ([], some GoError.ErrKeyNotExist)
  | .ok (some pair) => (pair.Value, none)

/-- The innermost loop of `service.GetServiceAddress`: is there an item of
`res` with the address and the port of `ta`? -/
def existIn (res : GetServiceAddressResponse) (ta : ServiceAddress) : Bool :=
  match res with
  | [] => false
  | existItem :: rest =>
    if existItem.Address = ta.Address ∧ existItem.Port = ta.Port then true
    else existIn rest ta

/-- The body of the loop over `item.Service.TaggedAddresses`. -/
def addTagged (res : GetServiceAddressResponse) (ta : ServiceAddress) :
    GetServiceAddressResponse :=
  if existIn res ta then res
  else res ++ [{ Address := ta.Address, Port := ta.Port }]

/-- The two nested loops of `service.GetServiceAddress` over the entries `r`,
starting from the response `res`. -/
def collect (res : GetServiceAddressResponse) (r : List ServiceEntry) :
    GetServiceAddressResponse :=
  r.foldl (fun acc item =>
    item.Service.TaggedAddresses.foldl (fun acc2 kv => addTagged acc2 kv.2) acc) res

/-- Go: `service.GetServiceAddress`. -/
def service.GetServiceAddress (s : service) (serviceName : String) :
    GetServiceAddressResponse × Option GoError :=
  match s.healthService serviceName with
  | .error err => ([], some err)
  | .ok r => (collect [] r, none)

/-- The value `&service{...}` seen through the interface `Consul`. -/
def service.toConsul (s : service) : Consul where
  GetValue := s.GetValue
  GetServiceAddress := s.GetServiceAddress

/-- All tagged addresses of the entries, in the order the loops visit them. -/
def taggedOf (r : List ServiceEntry) : List ServiceAddress :=
  r.flatMap (fun item => item.Service.TaggedAddresses.map (fun kv => kv.2))

/-- The (address, port) pair of a response item. -/
def GetServiceAddressResponseItem.pair (i : GetServiceAddressResponseItem) : String × Int :=
  (i.Address, i.Port)

/-- The (address, port) pair of a tagged address. -/
def ServiceAddress.pair (a : ServiceAddress) : String × Int :=
  (a.Address, a.Port)

end consul

/-! ## Package `vault` -/

namespace vault

/-- Go: `api.KVSecret`, of which the client reads the map `Data` only. -/
structure KVSecret where
  Data : List (String × Any)

/-- Go: the interface `Vault`, of which the resolver calls `GetSecret`. -/
structure Vault where
  GetSecret : String → Any × Option GoError

/-- Go: the struct `service`; `kvGet` is `s.kv.Get(ctx, path)`, which returns
either its error or a secret. -/
structure service where
  kvGet : String → Except GoError KVSecret

/-- The map read `m[key]` with the comma-ok form. -/
def mapGet (m : List (String × Any)) (key : String) : Option Any :=
  match m with
  | [] => none
  | kv :: rest => if kv.1 = key then some kv.2 else mapGet rest key

/-- Go: `service.GetSecret`. -/
def service.GetSecret (s : service) (path : String) : Any × Option GoError :=
  match s.kvGet path with
  | .error err => (none, some err)
  | .ok secret =>
    match mapGet secret.Data "value" with
    | none =>
      (none, some (GoError.message
        ("field \"value\" does not exist in vault path \"" ++ path ++ "\"")))
    | some value => (value, none)

/-- The value `&service{...}` seen through the interface `Vault`. -/
def service.toVault (s : service) : Vault where
  GetSecret := s.GetSecret

end vault

/-! ## Package `initialconfig`: the remote resolver -/

namespace initialconfig

/-- Modelled from the spec: the type `ConfigType` and its constants are declared
outside the available sources. The spec gives the classification of a field as
one of Global, Local and Discovery; the resolver names `ConfigTypeGlobal` and
`ConfigTypeDiscovery`. -/
inductive ConfigType where
  | ConfigTypeLocal
  | ConfigTypeGlobal
  | ConfigTypeDiscovery
  deriving DecidableEq, Repr

/-- Modelled from the spec: the element type of `Envs` is declared outside the
available sources. Its fields are the ones the resolver and `LoadConfig` read,
with the meaning the spec gives to a field descriptor: classification, secret
flag, structured flag, name of the linked endpoint-list field, resolved value
and value obtained from the secret store (both `nil` until resolved). -/
structure EnvParams where
  ConfigType : ConfigType
  IsSecret : Bool
  IsJson : Bool
  DiscoveryField : String
  Value : Any
  ExternalValue : Any
  deriving DecidableEq, Repr

/-- Modelled from the spec: the map type `Envs` (field name to descriptor) is
declared outside the available sources. -/
abbrev Envs := List (String × EnvParams)

/-- The map read `e[name]` with the comma-ok form. -/
def Envs.get? (e : Envs) (name : String) : Option EnvParams :=
  match e with
  | [] => none
  | kv :: rest => if kv.1 = name then some kv.2 else Envs.get? rest name

/-- The keys of the map. -/
def Envs.keys (e : Envs) : List String := e.map (fun kv => kv.1)

/-- Modelled from the spec: `Envs.SetValue` is declared outside the available
sources. It stores `value` into the `Value` of the descriptor registered under
`name`; the key set of the registry never changes after it is built, so a name
that is not registered is left out. -/
def Envs.SetValue (e : Envs) (name : String) (value : Any) : Envs :=
  e.map (fun kv => if kv.1 = name then (kv.1, { kv.2 with Value := value }) else kv)

/-- Modelled from the spec: `Envs.SetExternalValue` is declared outside the
available sources. It stores `value` into the `ExternalValue` of the descriptor
registered under `name`. -/
def Envs.SetExternalValue (e : Envs) (name : String) (value : Any) : Envs :=
  e.map (fun kv => if kv.1 = name then (kv.1, { kv.2 with ExternalValue := value }) else kv)

/-- A remote call or log line made by the resolver, with the name of the field
in whose loop iteration it is made. -/
inductive Call where
  | GetValue (envName path : String)
  | GetServiceAddress (envName serviceName : String)
  | GetSecret (envName path : String)
  | Errorf (envName : String)
  deriving DecidableEq, Repr

/-- The field in whose iteration the call is made. -/
def Call.envName : Call → String
  | .GetValue envName _ => envName
  | .GetServiceAddress envName _ => envName
  | .GetSecret envName _ => envName
  | .Errorf envName => envName

/-- Go: the struct `cfgService`, as far as the resolver reads it. `StandName`
is `s.mainConfig.StandName`; a client that is `nil` is `none`. -/
structure cfgService where
  StandName : String
  consulClient : Option consul.Consul
  vaultClient : Option vault.Vault

/-- The local variable `path` of the resolver loop. -/
def consulPath (params : EnvParams) : String :=
  if params.ConfigType = ConfigType.ConfigTypeGlobal then "global" else "local"

/-- The state of the resolver loop: the map `result` and the calls made. -/
abbrev LoopState := Envs × List Call

/-- The test `err != nil && !errors.Is(err, consul.ErrKeyNotExist)`: the error
that makes the resolver return, if there is one. -/
def hardError (err : Option GoError) : Option GoError :=
  match err with
  | none => none
  | some e => if e.isKeyNotExist then none else some e

/-- One iteration of the loop of `getDataFromConsulAndVault`, for the key
`envName` with the descriptor `params`, on the map `result`. An error is the
`return nil, err` of the iteration; otherwise the new map and the calls made
in this iteration are returned. -/
def resolveField (StandName : String) (c : consul.Consul) (v : vault.Vault)
    (envName : String) (params : EnvParams) (result : Envs) : Except GoError LoopState :=
  let path := consulPath params
  let t0 := [Call.GetValue envName path]
  match hardError (c.GetValue path envName).2 with
  | some err => .error (GoError.errorf "failed to get data from consul: %v" err)
  | none =>
    if params.IsJson then .ok (result, t0)
    else
      let consulValue := String.mk (c.GetValue path envName).1
      if consulValue = "" then .ok (result, t0)
      else if params.ConfigType = ConfigType.ConfigTypeDiscovery then
        .ok (result, t0 ++ [Call.Errorf envName])
      else
        let result1 := result.SetValue envName (some (GoValue.str consulValue))
        let disc : Except GoError LoopState :=
          if params.DiscoveryField ≠ "" then
            let t1 := t0 ++ [Call.GetServiceAddress envName consulValue]
            match (c.GetServiceAddress consulValue).2 with
            | some err => .error (GoError.errorf "failed to get data from consul: %v" err)
            | none =>
              let res := (c.GetServiceAddress consulValue).1
              let t2 := if StandName ≠ "local" ∧ res.length = 0
                then t1 ++ [Call.Errorf envName] else t1
              .ok (result1.SetValue params.DiscoveryField (some (GoValue.addrs res)), t2)
          else .ok (result1, t0)
        match disc with
        | .error err => .error err
        | .ok (result2, t2) =>
          if params.IsSecret then
            match (v.GetSecret consulValue).2 with
            | some err => .error (GoError.errorf "failed to get secret from vault: %v" err)
            | none =>
              .ok (result2.SetExternalValue envName (v.GetSecret consulValue).1,
                t2 ++ [Call.GetSecret envName consulValue])
          else .ok (result2, t2)

/-- The loop `for envName, params := range result` of the resolver. `order`
lists the keys in the order in which `range` visits them; `params` is the
entry the map holds for the key when it is visited. -/
def resolveLoop (StandName : String) (c : consul.Consul) (v : vault.Vault) :
    List String → LoopState → Except GoError LoopState
  | [], st => .ok st
  | envName :: rest, (result, calls) =>
    match result.get? envName with
    | none => resolveLoop StandName c v rest (result, calls)
    | some params =>
      match resolveField StandName c v envName params result with
      | .error e => .error e
      | .ok (result1, t) => resolveLoop StandName c v rest (result1, calls ++ t)

/-- The resolver with the calls it makes. `params` is the registry
`GetConfigParams(*s.mainConfig)` and `order` the order in which its keys are
visited. -/
def cfgService.resolve (s : cfgService) (params : Envs) (order : List String) :
    Except GoError LoopState :=
  match s.consulClient with
  | none => .error (GoError.message "empty consul client")
  | some c =>
    match s.vaultClient with
    | none => .error (GoError.message "empty vault client")
    | some v => resolveLoop s.StandName c v order (params, [])

/-- Go: `cfgService.getDataFromConsulAndVault`, returning `(Envs, error)`: the
snapshot is `nil` (`none`) when the error is not. -/
def cfgService.getDataFromConsulAndVault (s : cfgService) (params : Envs)
    (order : List String) : Option Envs × Option GoError :=
  match s.resolve params order with
  | .error e => (none, some e)
  | .ok (result, _) => (some result, none)

/-! ### Notions used to state the properties of the resolver -/

/-- The override of a field: the bytes `GetValue` returns for it, as a string
(the local variable `consulValue`). -/
def override (c : consul.Consul) (envName : String) (params : EnvParams) : String :=
  String.mk (c.GetValue (consulPath params) envName).1

/-- The field is set from its override: it is not structured, its override is
not empty and it is not Discovery-class. -/
def Settable (c : consul.Consul) (envName : String) (params : EnvParams) : Prop :=
  params.IsJson = false ∧ override c envName params ≠ "" ∧
    params.ConfigType ≠ ConfigType.ConfigTypeDiscovery

instance (c : consul.Consul) (envName : String) (params : EnvParams) :
    Decidable (Settable c envName params) :=
  inferInstanceAs (Decidable (_ ∧ _ ∧ _))

/-- The field `params` names `target` as its linked endpoint-list field. -/
def LinksTo (params : EnvParams) (target : String) : Prop :=
  params.DiscoveryField ≠ "" ∧ params.DiscoveryField = target

instance (params : EnvParams) (target : String) : Decidable (LinksTo params target) :=
  inferInstanceAs (Decidable (_ ∧ _))

/-- No field of the registry is resolved: `Value` and `ExternalValue` are
`nil`, as in a registry that was just built. -/
def Envs.Unresolved (e : Envs) : Prop :=
  ∀ kv ∈ e, kv.2.Value = none ∧ kv.2.ExternalValue = none

instance (e : Envs) : Decidable e.Unresolved :=
  inferInstanceAs (Decidable (∀ kv ∈ e, _))

/-- Discovery links lead to derived fields: the field named by the non-empty
`DiscoveryField` of a field that is not Discovery-class is Discovery-class. -/
def Envs.LinksDerived (e : Envs) : Prop :=
  ∀ kv ∈ e, kv.2.ConfigType ≠ ConfigType.ConfigTypeDiscovery → kv.2.DiscoveryField ≠ "" →
    ∀ t ∈ e, t.1 = kv.2.DiscoveryField → t.2.ConfigType = ConfigType.ConfigTypeDiscovery

instance (e : Envs) : Decidable e.LinksDerived :=
  inferInstanceAs (Decidable (∀ kv ∈ e, _))

/-- Each field is the linked field of at most one field: two fields that are
not Discovery-class and name the same non-empty `DiscoveryField` are the same
field. -/
def Envs.LinksUnique (e : Envs) : Prop :=
  ∀ kv1 ∈ e, ∀ kv2 ∈ e, kv1.2.ConfigType ≠ ConfigType.ConfigTypeDiscovery →
    kv2.2.ConfigType ≠ ConfigType.ConfigTypeDiscovery → kv1.2.DiscoveryField ≠ "" →
    kv1.2.DiscoveryField = kv2.2.DiscoveryField → kv1.1 = kv2.1

instance (e : Envs) : Decidable e.LinksUnique :=
  inferInstanceAs (Decidable (∀ kv1 ∈ e, ∀ kv2 ∈ e, _))

/-- The registry without the field `name`. -/
def Envs.without (e : Envs) (name : String) : Envs :=
  e.filter (fun kv => decide (kv.1 ≠ name))

/-- A store into the map `result`. -/
inductive Write where
  | Value (name : String) (value : Any)
  | ExternalValue (name : String) (value : Any)
  deriving DecidableEq, Repr

/-- Carry out one store. -/
def Envs.write (e : Envs) : Write → Envs
  | .Value name value => e.SetValue name value
  | .ExternalValue name value => e.SetExternalValue name value

/-- Carry out a list of stores, first to last. -/
def Envs.writes (e : Envs) (ws : List Write) : Envs := ws.foldl Envs.write e

/-- The iteration for the field returns an error: the fetch of the override
fails with an error other than key-not-found, or the field is set from its
override and its discovery lookup or its secret fetch fails. -/
def FieldFails (c : consul.Consul) (v : vault.Vault) (envName : String)
    (params : EnvParams) : Prop :=
  (hardError (c.GetValue (consulPath params) envName).2).isSome = true ∨
  (Settable c envName params ∧
    ((params.DiscoveryField ≠ "" ∧
        ((c.GetServiceAddress (override c envName params)).2).isSome = true) ∨
      (params.IsSecret = true ∧
        ((v.GetSecret (override c envName params)).2).isSome = true)))

instance (c : consul.Consul) (v : vault.Vault) (envName : String) (params : EnvParams) :
    Decidable (FieldFails c v envName params) :=
  inferInstanceAs (Decidable (_ ∨ _))

/-- The stores of the iteration for the field, when it returns no error. -/
def fieldWrites (c : consul.Consul) (v : vault.Vault) (envName : String)
    (params : EnvParams) : List Write :=
  if Settable c envName params then
    [Write.Value envName (some (GoValue.str (override c envName params)))] ++
    (if params.DiscoveryField ≠ "" then
      [Write.Value params.DiscoveryField
        (some (GoValue.addrs (c.GetServiceAddress (override c envName params)).1))]
     else []) ++
    (if params.IsSecret then
      [Write.ExternalValue envName (v.GetSecret (override c envName params)).1]
     else [])
  else []

/-- The calls of the iteration for the field, when it returns no error. -/
def fieldCalls (StandName : String) (c : consul.Consul) (envName : String)
    (params : EnvParams) : List Call :=
  [Call.GetValue envName (consulPath params)] ++
  (if Settable c envName params then
    (if params.DiscoveryField ≠ "" then
      [Call.GetServiceAddress envName (override c envName params)] ++
      (if StandName ≠ "local" ∧
          (c.GetServiceAddress (override c envName params)).1.length = 0
        then [Call.Errorf envName] else [])
     else []) ++
    (if params.IsSecret then [Call.GetSecret envName (override c envName params)] else [])
   else if params.IsJson = false ∧ override c envName params ≠ "" then [Call.Errorf envName]
   else [])

/-- The stores of a whole run over `order` on the registry `reg`. -/
def loopWrites (c : consul.Consul) (v : vault.Vault) (reg : Envs) : List String → List Write
  | [] => []
  | envName :: rest =>
    (match reg.get? envName with
      | none => []
      | some params => fieldWrites c v envName params) ++ loopWrites c v reg rest

/-- The calls of a whole run over `order` on the registry `reg`. -/
def loopCalls (StandName : String) (c : consul.Consul) (reg : Envs) : List String → List Call
  | [] => []
  | envName :: rest =>
    (match reg.get? envName with
      | none => []
      | some params => fieldCalls StandName c envName params) ++ loopCalls StandName c reg rest

/-- The descriptor without its resolved values. -/
def EnvParams.clear (p : EnvParams) : EnvParams :=
  { p with Value := none, ExternalValue := none }

/-- What one store does to the descriptor registered under `name`. -/
def Write.applyTo (name : String) (p : EnvParams) : Write → EnvParams
  | .Value m value => if name = m then { p with Value := value } else p
  | .ExternalValue m value => if name = m then { p with ExternalValue := value } else p

/-- Two maps hold the same descriptors up to the resolved values. -/
def SameStatic (r reg : Envs) : Prop :=
  ∀ name, (r.get? name).map EnvParams.clear = (reg.get? name).map EnvParams.clear

/-! ### A concrete stand, used to instantiate the theorems -/

/-- A key/value store of the stand `dev` for the service `rate-limit`. -/
def demoKV : List (String × Bytes) :=
  [("dev/local/rate-limit/SERVICE_NAME", "rate-limit".toList),
   ("dev/local/rate-limit/DISCOVERY_POSTGRES_SERVICE", "postgres".toList),
   ("dev/local/rate-limit/REDIS_PASS", "secret/redis".toList),
   ("dev/local/rate-limit/GPG_PUBLIC_SIGNATURES", "\x7b\x7d".toList),
   ("dev/local/rate-limit/RABBIT_ADDRS", "10.0.0.9:5672".toList),
   ("dev/global/LOG_LEVEL", "debug".toList)]

/-- The read of `demoKV` as the library call `kv.Get`. -/
def demoKVGet (kv : List (String × Bytes)) (key : String) :
    Except GoError (Option consul.KVPair) :=
  match kv with
  | [] => .ok none
  | e :: rest => if e.1 = key then .ok (some { Value := e.2 }) else demoKVGet rest key

/-- A consul client of the stand `dev`: the service `postgres` has two healthy
entries, one of them with the same address under two tags. -/
def demoConsulService : consul.service where
  serviceName := "rate-limit"
  standName := "dev"
  kvGet := demoKVGet demoKV
  healthService := fun name =>
    if name = "postgres" then
      .ok [{ Service := { TaggedAddresses :=
              [("lan_ipv4", { Address := "10.0.0.1", Port := 5432 }),
               ("wan_ipv4", { Address := "10.0.0.1", Port := 5432 })] } },
           { Service := { TaggedAddresses :=
              [("lan_ipv4", { Address := "10.0.0.2", Port := 5432 })] } }]
    else .ok []

/-- A vault client holding one secret. -/
def demoVaultService : vault.service where
  kvGet := fun path =>
    if path = "secret/redis" then .ok { Data := [("value", some (GoValue.str "hunter2"))] }
    else .error (GoError.message "secret not found")

/-- The resolver service of the stand `dev`. -/
def demoService : cfgService where
  StandName := "dev"
  consulClient := some demoConsulService.toConsul
  vaultClient := some demoVaultService.toVault

/-- An unresolved descriptor. -/
def demoParams (t : ConfigType) (isSecret isJson : Bool) (discoveryField : String) :
    EnvParams where
  ConfigType := t
  IsSecret := isSecret
  IsJson := isJson
  DiscoveryField := discoveryField
  Value := none
  ExternalValue := none

/-- A registry with fields of every kind. -/
def demoRegistry : Envs :=
  [("SERVICE_NAME", demoParams .ConfigTypeLocal false false ""),
   ("DISCOVERY_POSTGRES_SERVICE", demoParams .ConfigTypeLocal false false "POSTGRES_ADDRS"),
   ("POSTGRES_ADDRS", demoParams .ConfigTypeDiscovery false false ""),
   ("RABBIT_ADDRS", demoParams .ConfigTypeDiscovery false false ""),
   ("REDIS_PASS", demoParams .ConfigTypeLocal true false ""),
   ("REDIS_ADDR", demoParams .ConfigTypeLocal false false ""),
   ("GPG_PUBLIC_SIGNATURES", demoParams .ConfigTypeLocal false true ""),
   ("LOG_LEVEL", demoParams .ConfigTypeGlobal false false "")]

/-- The snapshot and the calls of the run of `demoService` on `demoRegistry`. -/
def demoRun : LoopState :=
  match demoService.resolve demoRegistry demoRegistry.keys with
  | .ok st => st
  | .error _ => ([], [])

end initialconfig

/-! ## Package `initialconfig`: the struct mutator -/

namespace initialconfig

/-- The static type of a configuration field. -/
inductive GoType where
  | string
  | int
  | int32
  | bool
  | addrs
  | strMap
  deriving DecidableEq, Repr

end initialconfig

/-- The dynamic type of a value. -/
def GoValue.type : GoValue → initialconfig.GoType
  | .str _ => .string
  | .int _ => .int
  | .int32 _ => .int32
  | .bool _ => .bool
  | .addrs _ => .addrs
  | .strMap _ => .strMap

/-- The string representation of a value, as `fmt` prints it with `%v`. -/
def GoValue.format : GoValue → String
  | .str s => s
  | .int n => toString n
  | .int32 n => toString n
  | .bool b => if b then "true" else "false"
  | .addrs l =>
    "[" ++ " ".intercalate
      (l.map (fun i => "\x7b" ++ i.Address ++ " " ++ toString i.Port ++ "\x7d")) ++ "]"
  | .strMap m =>
    "map[" ++ " ".intercalate (m.map (fun kv => kv.1 ++ ":" ++ kv.2)) ++ "]"

namespace initialconfig

/-- The value of a decimal digit. -/
def digitValue (c : Char) : Option Nat :=
  if 48 ≤ c.toNat ∧ c.toNat ≤ 57 then some (c.toNat - 48) else none

/-- Read decimal digits, most significant first, onto `acc`. -/
def parseDigits (acc : Nat) : List Char → Option Nat
  | [] => some acc
  | c :: rest =>
    match digitValue c with
    | none => none
    | some d => parseDigits (acc * 10 + d) rest

/-- The number written by a numeric string: an optional sign followed by at
least one decimal digit; `none` for any other string. -/
def numeral (s : String) : Option Int :=
  match s.data with
  | [] => none
  | '-' :: [] => none
  | '+' :: [] => none
  | '-' :: rest => (parseDigits 0 rest).map (fun n => - (n : Int))
  | '+' :: rest => (parseDigits 0 rest).map (fun n => (n : Int))
  | digits => (parseDigits 0 digits).map (fun n => (n : Int))

/-- The integer type of the field can hold the number: `int` is of 64 bits and
`int32` of 32 bits, in two's complement; the other types hold no number. -/
def fits (t : GoType) (n : Int) : Bool :=
  match t with
  | .int => decide (-9223372036854775808 ≤ n ∧ n ≤ 9223372036854775807)
  | .int32 => decide (-2147483648 ≤ n ∧ n ≤ 2147483647)
  | _ => false

/-- The parse of a numeric string to an `int`, as `strconv.Atoi` does it: it
fails on a string that is not numeric and on a number out of the range of
`int`. -/
def Atoi (s : String) : Option Int :=
  match numeral s with
  | none => none
  | some n => if fits .int n then some n else none

/-- The value is one that Go can hold: the number of an `int` or of an
`int32` is within the range of its type. -/
def InRange (v : GoValue) : Prop :=
  match v with
  | .int n => fits .int n = true
  | .int32 n => fits .int32 n = true
  | _ => True

/-- Modelled from the spec: the errors of the struct mutator, which is declared
outside the available sources. -/
inductive SetError where
  | NotAPointer
  | UnknownField
  | EmptyValue
  | TypeMismatch
  deriving DecidableEq, Repr

/-- Modelled from the spec: the coercion of a raw value to the static type of
the target field, of `SetStructFieldValueByJsonTag`, which is declared outside
the available sources. A value whose type is the type of the field is
assigned as it is. A boolean field accepts a native boolean, and of strings
`"true"` and `"1"` as true and anything else as false. An integer field
accepts a native integer and a numeric string, and fails with `TypeMismatch`
on a non-numeric string. A string field accepts the string representation of
the value. A field of a structured type accepts values of its own type only.
The spec does not say what becomes of a number that the type of the field
cannot hold; here it is not accepted (`TypeMismatch`), so that no field comes
to hold a number outside its type. -/
def coerce (t : GoType) (raw : GoValue) : Except SetError GoValue :=
  if raw.type = t then .ok raw
  else
    match t with
    | .bool =>
      match raw with
      | .str s => .ok (.bool (decide (s = "true" ∨ s = "1")))
      | _ => .ok (.bool false)
    | .int =>
      match raw with
      | .int32 n => if fits .int n then .ok (.int n) else .error SetError.TypeMismatch
      | .str s =>
        match Atoi s with
        | some n => .ok (.int n)
        | none => .error SetError.TypeMismatch
      | _ => .error SetError.TypeMismatch
    | .int32 =>
      match raw with
      | .int n => if fits .int32 n then .ok (.int32 n) else .error SetError.TypeMismatch
      | .str s =>
        match Atoi s with
        | some n => if fits .int32 n then .ok (.int32 n) else .error SetError.TypeMismatch
        | none => .error SetError.TypeMismatch
      | _ => .error SetError.TypeMismatch
    | .string => .ok (.str raw.format)
    | .addrs => .error SetError.TypeMismatch
    | .strMap => .error SetError.TypeMismatch

/-- The value of a configuration struct as reflection walks it: a sequence of
fields, each either a field with its `json` tag (the empty string when it has
none) and its value, or an embedded or nested struct. -/
inductive StructValue where
  | nil
  | field (tag : String) (value : GoValue) (rest : StructValue)
  | embed (inner : StructValue) (rest : StructValue)
  deriving DecidableEq, Repr

/-- Modelled from the spec: the read of `GetStructFieldValueByJsonTag`, which
is declared outside the available sources: the value of the first field with
the tag `name`, found by walking the struct and its embedded and nested
structs in order. -/
def StructValue.get (name : String) : StructValue → Option GoValue
  | .nil => none
  | .field tag value rest => if tag = name then some value else StructValue.get name rest
  | .embed inner rest =>
    match StructValue.get name inner with
    | some value => some value
    | none => StructValue.get name rest

/-- Modelled from the spec: the walk of `SetStructFieldValueByJsonTag`, which
is declared outside the available sources: the first field with the tag
`name` is located as by `get`, the raw value is coerced to the type of that
field and stored in it, and no other field is touched. The result is `none`
when no field has the tag. -/
def StructValue.set (name : String) (raw : GoValue) :
    StructValue → Option (Except SetError StructValue)
  | .nil => none
  | .field tag value rest =>
    if tag = name then
      some ((coerce value.type raw).map (fun w => StructValue.field tag w rest))
    else
      (StructValue.set name raw rest).map (Except.map (fun r => StructValue.field tag value r))
  | .embed inner rest =>
    match StructValue.set name raw inner with
    | some r => some (r.map (fun i => StructValue.embed i rest))
    | none =>
      (StructValue.set name raw rest).map (Except.map (fun r => StructValue.embed inner r))

/-- The argument `cfg any` of the mutator: a pointer to a configuration struct
or a struct passed by value. -/
inductive ConfigArg where
  | pointer (s : StructValue)
  | value (s : StructValue)
  deriving DecidableEq, Repr

/-- The struct the argument refers to or holds. -/
def ConfigArg.struct : ConfigArg → StructValue
  | .pointer s => s
  | .value s => s

/-- Modelled from the spec: `SetStructFieldValueByJsonTag` is declared outside
the available sources. It fails with `NotAPointer` when `cfg` is not a
pointer, with `UnknownField` when `name` is not in `envs`, with `EmptyValue`
when the raw value is `nil` or the empty string; otherwise it locates the
field, coerces the value and stores it. The result is the struct after the
call, which is the struct before the call when there is an error, and the
error. -/
def SetStructFieldValueByJsonTag (cfg : ConfigArg) (envs : Envs) (name : String)
    (value : Any) : StructValue × Option SetError :=
  match cfg with
  | .value s => (s, some SetError.NotAPointer)
  | .pointer s =>
    match envs.get? name with
    | none => (s, some SetError.UnknownField)
    | some _ =>
      match value with
      | none => (s, some SetError.EmptyValue)
      | some raw =>
        if raw = GoValue.str "" then (s, some SetError.EmptyValue)
        else
          match s.set name raw with
          | none => (s, some SetError.UnknownField)
          | some (.error e) => (s, some e)
          | some (.ok s1) => (s1, none)

/-- Modelled from the spec: `GetStructFieldValueByJsonTag` is declared outside
the available sources. It is the read-side counterpart of the mutator; the
result is `nil` when no field has the tag. -/
def GetStructFieldValueByJsonTag (cfg : ConfigArg) (name : String) : Any :=
  cfg.struct.get name

/-- The configuration of the test `TestStructFields`, as far as the structs
are declared in the available sources: the embedded `DiscoveryConfig`,
`GlobalConfig` and `LocalConfig` with the nested configurations of rabbit,
prometheus, postgres (of which the test names `POSTGRES_MAX_CONNS`) and
redis. -/
def testConfig : StructValue :=
  .embed
    (.field "POSTGRES_ADDRS" (.addrs [])
      (.field "RABBIT_ADDRS" (.addrs [{ Address := "localhost", Port := 5672 }])
        (.field "REDIS_ADDRS" (.addrs []) .nil)))
  (.embed .nil
  (.embed
    (.field "SERVICE_NAME" (.str "old name")
    (.field "CONSUL_STAND_NAME" (.str "")
    (.embed
      (.field "RABBIT_USER" (.str "")
      (.field "RABBIT_PASS" (.str "")
      (.field "RABBIT_IS_SECURE" (.bool false)
      (.field "RABBIT_ADDR" (.str "") .nil))))
    (.embed
      (.field "PROMETHEUS_PORT" (.str "10001")
      (.field "PROMETHEUS_ENDPOINT" (.str "")
      (.field "PROMETHEUS_DISABLED" (.bool false) .nil)))
    (.embed
      (.field "POSTGRES_MAX_CONNS" (.int32 0) .nil)
    (.embed
      (.field "REDIS_ADDR" (.str "")
      (.field "REDIS_USER" (.str "")
      (.field "REDIS_PASS" (.str "")
      (.field "REDIS_DB_INDEX" (.int 0)
      (.field "REDIS_PING_INTERVAL" (.int 0) .nil)))))
    (.field "GPG_PUBLIC_SIGNATURES" (.strMap [("test", "test")])
    (.field "DISCOVERY_POSTGRES_SERVICE" (.str "")
    (.field "DISCOVERY_RABBIT_SERVICE" (.str "")
    (.field "DISCOVERY_REDIS_SERVICE" (.str "") .nil))))))))))
  .nil))

/-- The keys of the registry built from `testConfig`: one unresolved
descriptor for each tag. -/
def testEnvs : Envs :=
  ["POSTGRES_ADDRS", "RABBIT_ADDRS", "REDIS_ADDRS", "SERVICE_NAME", "CONSUL_STAND_NAME",
    "RABBIT_USER", "RABBIT_PASS", "RABBIT_IS_SECURE", "RABBIT_ADDR", "PROMETHEUS_PORT",
    "PROMETHEUS_ENDPOINT", "PROMETHEUS_DISABLED", "POSTGRES_MAX_CONNS", "REDIS_ADDR",
    "REDIS_USER", "REDIS_PASS", "REDIS_DB_INDEX", "REDIS_PING_INTERVAL",
    "GPG_PUBLIC_SIGNATURES", "DISCOVERY_POSTGRES_SERVICE", "DISCOVERY_RABBIT_SERVICE",
    "DISCOVERY_REDIS_SERVICE"].map
    (fun name => (name, demoParams .ConfigTypeLocal false false ""))

/-- The value read back after setting `name` to `value` on the configuration
of `TestStructFields`, with the error of the call. -/
def testRow (name : String) (value : Any) : Any × Option SetError :=
  let r := SetStructFieldValueByJsonTag (.pointer testConfig) testEnvs name value
  (GetStructFieldValueByJsonTag (.pointer r.1) name, r.2)

end initialconfig

/-! ## Package `initialconfig`: the field registry builder -/

namespace initialconfig

/-- The `json` tags of all fields of the struct, in the order in which the
struct and its embedded and nested structs are walked; the empty string
stands for a field without the tag. -/
def StructValue.fieldTags : StructValue → List String
  | .nil => []
  | .field tag _ rest => tag :: StructValue.fieldTags rest
  | .embed inner rest => StructValue.fieldTags inner ++ StructValue.fieldTags rest

/-- The two structs have the same shape: the same fields and sections in the
same order, with the same tags and the same static types. -/
def StructValue.sameShape : StructValue → StructValue → Bool
  | .nil, .nil => true
  | .field tag1 value1 rest1, .field tag2 value2 rest2 =>
    decide (tag1 = tag2) && decide (value1.type = value2.type) &&
      StructValue.sameShape rest1 rest2
  | .embed inner1 rest1, .embed inner2 rest2 =>
    StructValue.sameShape inner1 inner2 && StructValue.sameShape rest1 rest2
  | _, _ => false

/-- The two structs have the same shape. -/
def StructValue.SameShape (s1 s2 : StructValue) : Prop := s1.sameShape s2 = true

instance (s1 s2 : StructValue) : Decidable (s1.SameShape s2) :=
  inferInstanceAs (Decidable (_ = true))

/-- Modelled from the spec: `GetConfigParams` is declared outside the available
sources; the resolver calls it with `*s.mainConfig` and the test with a struct
value, and both take its single result as the registry. It walks the
configuration struct, its embedded and nested sections included, and returns
one descriptor, not yet resolved, for each field that carries a `json` tag;
fields without the tag are left out. `describe name` is what the other tags
of the field with the `json` tag `name` say: its classification, its secret
and structured flags and its linked field. -/
def GetConfigParams (describe : String → EnvParams) (cfg : ConfigArg) : Envs :=
  ((cfg.struct.fieldTags.filter (fun tag => decide (tag ≠ ""))).dedup).map
    (fun name => (name, (describe name).clear))

/-- The tags other than `json` of the fields of `config.Config` that are
declared in the available sources: `secret:"true"` on the users and passwords
of rabbit and redis, `discovery` on the three discovery services. The fields
of `DiscoveryConfig` are taken as Discovery-class and the map of signatures
as structured. -/
def describeConfig (name : String) : EnvParams :=
  if name = "RABBIT_USER" ∨ name = "RABBIT_PASS" ∨ name = "REDIS_USER" ∨ name = "REDIS_PASS" then
    demoParams .ConfigTypeLocal true false ""
  else if name = "DISCOVERY_POSTGRES_SERVICE" then
    demoParams .ConfigTypeLocal false false "POSTGRES_ADDRS"
  else if name = "DISCOVERY_RABBIT_SERVICE" then
    demoParams .ConfigTypeLocal false false "RABBIT_ADDRS"
  else if name = "DISCOVERY_REDIS_SERVICE" then
    demoParams .ConfigTypeLocal false false "REDIS_ADDRS"
  else if name = "POSTGRES_ADDRS" ∨ name = "RABBIT_ADDRS" ∨ name = "REDIS_ADDRS" then
    demoParams .ConfigTypeDiscovery false false ""
  else if name = "GPG_PUBLIC_SIGNATURES" then
    demoParams .ConfigTypeLocal false true ""
  else demoParams .ConfigTypeLocal false false ""

end initialconfig

/-! ## Package `utils` -/

namespace utils

/-- Go: `ExistInArray`. -/
def ExistInArray {T : Type} [DecidableEq T] (arr : List T) (value : T) : Bool :=
  match arr with
  | [] => false
  | v :: rest => if v = value then true else ExistInArray rest value

end utils

/-! ## Package `initialconfig`: `LoadConfig` and the watcher -/

namespace consul

/-- Go: `*api.Client`, of which `NewConsul` keeps the endpoints `KV()` and
`Health()`. -/
structure ApiClient where
  kvGet : String → Except GoError (Option KVPair)
  healthService : String → Except GoError (List ServiceEntry)

/-- Go: `NewConsul`; `NewClient` is `api.NewClient` on the configuration with
the address and the token. -/
def NewConsul (NewClient : String → String → Except GoError ApiClient)
    (serviceName standName consulAddr consulToken : String) : Except GoError Consul :=
  match NewClient consulAddr consulToken with
  | .error err => .error err
  | .ok client =>
    .ok (service.toConsul
      { serviceName := serviceName, standName := standName,
        kvGet := client.kvGet, healthService := client.healthService })

end consul

namespace vault

/-- Go: `NewVault`; `NewClient` is `api.NewClient` followed by the choice of
the address, the token and the mount path. The goroutine that renews the
token is not part of the model. -/
def NewVault (NewClient : String → String → String → Except GoError service)
    (vaultAddr vaultKey mountPath : String) : Except GoError Vault :=
  match NewClient vaultAddr vaultKey mountPath with
  | .error err => .error err
  | .ok s => .ok s.toVault

end vault

namespace initialconfig

/-- Go: the struct `initialConfig`. -/
structure initialConfig where
  VaultEnabled : Bool
  VaultGeneralUrl : String
  VaultGeneralToken : String
  VaultMountPath : String
  ConsulEnabled : Bool
  ConsulGeneralUrl : String
  ConsulGeneralToken : String
  deriving DecidableEq, Repr

/-- The rule `validation.Required` of the validation library on a string: the
string is not empty. -/
def Required (value : String) : Bool := decide (value ≠ "")

/-- Go: `initialConfig.Validate`. -/
def initialConfig.Validate (c : initialConfig) : Option GoError :=
  if c.ConsulEnabled ∧ ¬ Required c.ConsulGeneralUrl then
    some (GoError.message "CONSUL_GENERAL_URL: cannot be blank.")
  else if c.VaultEnabled ∧ ¬ (Required c.VaultGeneralUrl ∧ Required c.VaultGeneralToken ∧
      Required c.VaultMountPath) then
    some (GoError.message "cannot be blank.")
  else none

/-- Go: `LoadConfigFromEnv`. `isPointer` is the test of the kind of `cfg`,
`load` is the result of finding the working directory and of `loader.Load()`
(the configuration as loaded), `Validation` the option of the same name and
`Validate` the method `cfg.Validate`. -/
def LoadConfigFromEnv {α : Type} (isPointer : Bool) (load : Except GoError α)
    (Validation : Bool) (Validate : α → Option GoError) : Except GoError α :=
  if ¬ isPointer then .error (GoError.message "config variable must be a pointer")
  else
    match load with
    | .error err => .error err
    | .ok cfg =>
      if ¬ Validation then .ok cfg
      else
        match Validate cfg with
        | some err => .error err
        | none => .ok cfg

/-- The value used to set a field: `ExternalValue` if the field is secret,
`Value` otherwise. -/
def effectiveValue (params : EnvParams) : Any :=
  if params.IsSecret then params.ExternalValue else params.Value

/-- The order of two strings by their characters. -/
def strLE : List Char → List Char → Bool
  | [], _ => true
  | _ :: _, [] => false
  | a :: as, b :: bs =>
    if a.toNat < b.toNat then true
    else if b.toNat < a.toNat then false
    else strLE as bs

/-- Insert a string into a sorted list. -/
def insertSorted (x : String) : List String → List String
  | [] => [x]
  | y :: rest => if strLE x.data y.data then x :: y :: rest else y :: insertSorted x rest

/-- Sort a list of strings. -/
def sortStrings : List String → List String
  | [] => []
  | x :: rest => insertSorted x (sortStrings rest)

/-- The names of the fields of the new snapshot whose effective value has an
encoded form other than in the old snapshot; an error when a value cannot be
encoded. -/
def changedNames (encode : Any → Except GoError Bytes) (old : Envs) :
    Envs → Except GoError (List String)
  | [] => .ok []
  | kv :: rest =>
    let oldValue : Any :=
      match old.get? kv.1 with
      | some q => effectiveValue q
      | none => none
    match encode oldValue, encode (effectiveValue kv.2) with
    | .error err, _ => .error err
    | .ok _, .error err => .error err
    | .ok a, .ok b =>
      match changedNames encode old rest with
      | .error err => .error err
      | .ok names => .ok (if a = b then names else kv.1 :: names)

/-- Modelled from the spec: `Envs.GetChangedEnvs` is declared outside the
available sources. It compares the new snapshot with the stored one field by
field on the effective value (`ExternalValue` if the field is secret, `Value`
otherwise): a field is changed when the encoded form of its effective value
differs byte for byte; the result is the sorted list of the names of the
changed fields. `encode` is the encoding of a value, which can fail. -/
def Envs.GetChangedEnvs (encode : Any → Except GoError Bytes) (old new : Envs) :
    List String × Option GoError :=
  match changedNames encode old new with
  | .error err => ([], some err)
  | .ok names => (sortStrings names, none)

/-- What `LoadConfig` finds outside itself: the results of the loader for the
two configurations, the constructors of the clients of the two libraries, the
method `Config.Validate` of the main configuration (whose rules are those of
the validation library), the tags of the fields of the main configuration and
the encoding used to compare snapshots. -/
structure World where
  loadInitial : Except GoError initialConfig
  loadMain : StructValue → Except GoError StructValue
  consulNewClient : String → String → Except GoError consul.ApiClient
  vaultNewClient : String → String → String → Except GoError vault.service
  Validate : StructValue → Option GoError
  describe : String → EnvParams
  encode : Any → Except GoError Bytes

/-- Something `LoadConfig` or the watcher does, in the order in which it is
done. Modelled from the spec: `Fatalf` of the logger, which is declared
outside the available sources, is process-fatal: nothing follows it. -/
inductive Event where
  | Fatalf (format : String)
  | Errorf (format : String)
  | Info (text : String)
  | Sleep (seconds : Int)
  | Resolve
  | Lock
  | StoreEnvs (envs : Envs)
  | Unlock
  | Set (envName : String) (value : Any)
  | Send (batch : List String)
  | Go
  deriving DecidableEq, Repr

/-- The string field of the main configuration with the given tag. -/
def StructValue.stringField (s : StructValue) (tag : String) : String :=
  match s.get tag with
  | some (GoValue.str x) => x
  | _ => ""

/-- The loop `for envName, params := range cs.envs` that applies the values
of the snapshot to the main configuration, over the keys in the order in which
`range` visits them. `changedEnvs` is `none` at start-up, where every field is
considered, and the list of changed names in the watcher, where a field that
`ExistInArray` does not find in it is skipped. The result is the main
configuration after the loop, the events of the loop, and whether the loop
ended in `Fatalf`. -/
def applyEnvs (envs : Envs) (changedEnvs : Option (List String)) :
    List String → StructValue → StructValue × List Event × Bool
  | [], cfg => (cfg, [], false)
  | envName :: rest, cfg =>
    match envs.get? envName with
    | none => applyEnvs envs changedEnvs rest cfg
    | some params =>
      if (match changedEnvs with
          | none => false
          | some names => ! utils.ExistInArray names envName) then
        applyEnvs envs changedEnvs rest cfg
      else
        let value := effectiveValue params
        if value = none then applyEnvs envs changedEnvs rest cfg
        else
          match SetStructFieldValueByJsonTag (.pointer cfg) envs envName value with
          | (cfg1, some _) =>
            (cfg1, [Event.Set envName value,
              Event.Fatalf "failed to set config env \"%s\": %v"], true)
          | (cfg1, none) =>
            let r := applyEnvs envs changedEnvs rest cfg1
            (r.1, Event.Set envName value :: r.2.1, r.2.2)

/-- The end of `LoadConfig` or of a run of the watcher. -/
structure LoadResult where
  trace : List Event
  mainConfig : StructValue
  envs : Envs
  returned : Bool
  watcher : Bool
  deriving DecidableEq, Repr

/-- The service `cs` as the resolver reads it, on the main configuration. -/
def serviceOf (mainConfig : StructValue) (consulClient : Option consul.Consul)
    (vaultClient : Option vault.Vault) : cfgService where
  StandName := mainConfig.stringField "CONSUL_STAND_NAME"
  consulClient := consulClient
  vaultClient := vaultClient

/-- Go: `LoadConfig`, up to the return of the channel. `resolveOrder` and
`applyOrder` are the orders in which the two loops over the registry visit its
keys. In the result, `returned` says that the channel was returned (it is
false when the process was ended by `Fatalf`), `watcher` that the goroutine
of the watcher was started, `mainConfig` and `envs` are the main configuration
and `cs.envs` at that moment. -/
def LoadConfig (w : World) (resolveOrder applyOrder : List String)
    (mainConfig : StructValue) : LoadResult :=
  match LoadConfigFromEnv true w.loadInitial true initialConfig.Validate with
  | .error _ =>
    { trace := [Event.Fatalf "failed to load initial config: %v"],
      mainConfig := mainConfig, envs := [], returned := false, watcher := false }
  | .ok initConfig =>
  match LoadConfigFromEnv true (w.loadMain mainConfig) false w.Validate with
  | .error _ =>
    { trace := [Event.Fatalf "failed to load local config: %v"],
      mainConfig := mainConfig, envs := [], returned := false, watcher := false }
  | .ok main1 =>
  let consulStep : Except Unit (Option consul.Consul × List Event) :=
    if initConfig.ConsulEnabled then
      match consul.NewConsul w.consulNewClient (main1.stringField "SERVICE_NAME")
          (main1.stringField "CONSUL_STAND_NAME") initConfig.ConsulGeneralUrl
          initConfig.ConsulGeneralToken with
      | .error _ => .error ()
      | .ok c => .ok (some c, [Event.Info "connected to consul"])
    else .ok (none, [])
  match consulStep with
  | .error _ =>
    { trace := [Event.Fatalf "failed to init consul instance: %v"],
      mainConfig := main1, envs := [], returned := false, watcher := false }
  | .ok (consulClient, t1) =>
  let vaultStep : Except Unit (Option vault.Vault × List Event) :=
    if initConfig.VaultEnabled then
      match vault.NewVault w.vaultNewClient initConfig.VaultGeneralUrl
          initConfig.VaultGeneralToken initConfig.VaultMountPath with
      | .error _ => .error ()
      | .ok v => .ok (some v, [Event.Info "connected to vault"])
    else .ok (none, [])
  match vaultStep with
  | .error _ =>
    { trace := t1 ++ [Event.Fatalf "failed to init vault instance: %v"],
      mainConfig := main1, envs := [], returned := false, watcher := false }
  | .ok (vaultClient, t2) =>
  let remote : LoadResult :=
    if initConfig.ConsulEnabled ∧ initConfig.VaultEnabled then
      match (serviceOf main1 consulClient vaultClient).getDataFromConsulAndVault
          (GetConfigParams w.describe (.value main1)) resolveOrder with
      | (_, some _) =>
        { trace := t1 ++ t2 ++ [Event.Resolve,
            Event.Fatalf "getDataFromConsulAndVault error: %v"],
          mainConfig := main1, envs := [], returned := false, watcher := false }
      | (envs, none) =>
        let envs1 := envs.getD []
        let r := applyEnvs envs1 none applyOrder main1
        { trace := t1 ++ t2 ++
            [Event.Resolve, Event.Lock, Event.StoreEnvs envs1, Event.Unlock] ++ r.2.1,
          mainConfig := r.1, envs := envs1, returned := ! r.2.2, watcher := false }
    else
      { trace := t1 ++ t2, mainConfig := main1, envs := [], returned := true,
        watcher := false }
  if ¬ remote.returned then remote
  else
    match w.Validate remote.mainConfig with
    | some _ =>
      { remote with
        trace := remote.trace ++ [Event.Fatalf "failed to validate local config: %v"],
        returned := false }
    | none =>
      if ¬ initConfig.ConsulEnabled ∨ ¬ initConfig.VaultEnabled then remote
      else { remote with trace := remote.trace ++ [Event.Go], watcher := true }

/-- What one turn of the loop of the watcher finds outside: the seconds it
sleeps, the responses of the two clients during the turn and the orders in
which the two loops over the registry visit its keys. -/
structure Tick where
  randomSleepSeconds : Int
  consulClient : consul.Consul
  vaultClient : vault.Vault
  resolveOrder : List String
  applyOrder : List String

/-- The end of a turn, or of some turns, of the loop of the watcher: the
events, the main configuration and `cs.envs` at the end, and whether the
process was ended by `Fatalf`. -/
structure CycleResult where
  trace : List Event
  mainConfig : StructValue
  envs : Envs
  fatal : Bool
  deriving DecidableEq, Repr

/-- One turn of the loop `for` of the goroutine that `LoadConfig` starts, on
the main configuration and the stored snapshot `cs.envs`. -/
def watchCycle (w : World) (t : Tick) (mainConfig : StructValue) (envs : Envs) :
    CycleResult :=
  let t0 := [Event.Sleep t.randomSleepSeconds, Event.Resolve]
  match (serviceOf mainConfig (some t.consulClient) (some t.vaultClient)).getDataFromConsulAndVault
      (GetConfigParams w.describe (.value mainConfig)) t.resolveOrder with
  | (_, some _) =>
    { trace := t0 ++ [Event.Fatalf "getDataFromConsulAndVault error: %v"],
      mainConfig := mainConfig, envs := envs, fatal := true }
  | (newEnvs0, none) =>
    let newEnvs := newEnvs0.getD []
    match envs.GetChangedEnvs w.encode newEnvs with
    | (_, some _) =>
      { trace := t0 ++ [Event.Errorf "failed to check is equal envs: %v"],
        mainConfig := mainConfig, envs := envs, fatal := false }
    | (changedEnvs, none) =>
      if changedEnvs.length = 0 then
        { trace := t0, mainConfig := mainConfig, envs := envs, fatal := false }
      else
        let r := applyEnvs newEnvs (some changedEnvs) t.applyOrder mainConfig
        if r.2.2 then
          { trace := t0 ++ [Event.Lock, Event.StoreEnvs newEnvs, Event.Unlock] ++ r.2.1,
            mainConfig := r.1, envs := newEnvs, fatal := true }
        else
          { trace := t0 ++ [Event.Lock, Event.StoreEnvs newEnvs, Event.Unlock] ++ r.2.1 ++
              [Event.Info "main config was updated", Event.Send changedEnvs],
            mainConfig := r.1, envs := newEnvs, fatal := false }

/-- The first turns of the loop of the watcher, one for each element of the
list; the loop ends when a turn ends in `Fatalf`. -/
def watchLoop (w : World) : List Tick → StructValue → Envs → CycleResult
  | [], mainConfig, envs =>
    { trace := [], mainConfig := mainConfig, envs := envs, fatal := false }
  | t :: rest, mainConfig, envs =>
    let r := watchCycle w t mainConfig envs
    if r.fatal then r
    else
      let r2 := watchLoop w rest r.mainConfig r.envs
      { r2 with trace := r.trace ++ r2.trace }

end initialconfig

namespace initialconfig

/-! ### A concrete process, used to instantiate the theorems -/

/-- The initial configuration of the stand `dev`: both stores are enabled. -/
def demoInitialConfig : initialConfig where
  VaultEnabled := true
  VaultGeneralUrl := "http://vault:8200"
  VaultGeneralToken := "token"
  VaultMountPath := "secret"
  ConsulEnabled := true
  ConsulGeneralUrl := "http://consul:8500"
  ConsulGeneralToken := "token"

/-- The loader of the stand `dev`: it sets the service name and the stand
name from the environment. -/
def demoLoadMain (cfg : StructValue) : Except GoError StructValue :=
  .ok (SetStructFieldValueByJsonTag
    (.pointer (SetStructFieldValueByJsonTag (.pointer cfg) testEnvs "CONSUL_STAND_NAME"
      (some (GoValue.str "dev"))).1) testEnvs "SERVICE_NAME"
    (some (GoValue.str "rate-limit"))).1

/-- An encoding of values: `null` for `nil`, the string representation
otherwise. -/
def demoEncode (value : Any) : Except GoError Bytes :=
  match value with
  | none => .ok "null".toList
  | some x => .ok x.format.toList

/-- The process of the stand `dev`. -/
def demoWorld : World where
  loadInitial := .ok demoInitialConfig
  loadMain := demoLoadMain
  consulNewClient := fun _ _ =>
    .ok { kvGet := demoKVGet demoKV, healthService := demoConsulService.healthService }
  vaultNewClient := fun _ _ _ => .ok demoVaultService
  Validate := fun _ => none
  describe := describeConfig
  encode := demoEncode

/-- The order in which the loops of the demonstrations visit the registry. -/
def demoOrder : List String := testEnvs.keys

/-- The result of `LoadConfig` in the process of the stand `dev`. -/
def demoLoad : LoadResult := LoadConfig demoWorld demoOrder demoOrder testConfig

/-- A turn of the watcher of the stand `dev` against unchanged stores. -/
def demoTick : Tick where
  randomSleepSeconds := 200
  consulClient := demoConsulService.toConsul
  vaultClient := demoVaultService.toVault
  resolveOrder := demoOrder.reverse
  applyOrder := demoOrder

/-- A turn of the watcher after the key of `SERVICE_NAME` was deleted from the
store and the one of `REDIS_ADDR` was added. -/
def demoTickChanged : Tick where
  randomSleepSeconds := 151
  consulClient :=
    consul.service.toConsul
      { serviceName := "rate-limit", standName := "dev",
        kvGet := demoKVGet (("dev/local/rate-limit/REDIS_ADDR", "redis:6379".toList) ::
          demoKV.tail),
        healthService := demoConsulService.healthService }
  vaultClient := demoVaultService.toVault
  resolveOrder := demoOrder
  applyOrder := demoOrder

/-- A turn of the watcher while the store is unreachable. -/
def demoTickDown : Tick where
  randomSleepSeconds := 249
  consulClient :=
    { GetValue := fun _ _ => ([], some (GoError.message "connection refused")),
      GetServiceAddress := fun _ => ([], some (GoError.message "connection refused")) }
  vaultClient := demoVaultService.toVault
  resolveOrder := demoOrder
  applyOrder := demoOrder

end initialconfig

namespace initialconfig

/-- `LoadConfig` followed, when it started the watcher, by the first turns of
the loop of the watcher: the events of the process. -/
def processTrace (w : World) (resolveOrder applyOrder : List String) (ticks : List Tick)
    (mainConfig : StructValue) : List Event :=
  let r := LoadConfig w resolveOrder applyOrder mainConfig
  if r.watcher then r.trace ++ (watchLoop w ticks r.mainConfig r.envs).trace else r.trace

/-- The batches sent on the notification channel, in the order of the sends. -/
def sentBatches : List Event → List (List String)
  | [] => []
  | Event.Send batch :: rest => batch :: sentBatches rest
  | _ :: rest => sentBatches rest

/-- The calls of `SetStructFieldValueByJsonTag`, in order: the name and the
value of each. -/
def setCalls : List Event → List (String × Any)
  | [] => []
  | Event.Set envName value :: rest => (envName, value) :: setCalls rest
  | _ :: rest => setCalls rest

/-- Is the write lock held after the events, when `held` says whether it was
held before them? -/
def lockHeld (held : Bool) : List Event → Bool
  | [] => held
  | Event.Lock :: rest => lockHeld true rest
  | Event.Unlock :: rest => lockHeld false rest
  | _ :: rest => lockHeld held rest

/-- The names of the fields set while the write lock is held, when `held`
says whether the lock is held before the events. -/
def setsInsideLock (held : Bool) : List Event → List String
  | [] => []
  | Event.Lock :: rest => setsInsideLock true rest
  | Event.Unlock :: rest => setsInsideLock false rest
  | Event.Set envName _ :: rest =>
    if held then envName :: setsInsideLock held rest else setsInsideLock held rest
  | _ :: rest => setsInsideLock held rest

/-- The names of the fields set while the write lock is not held. -/
def setsOutsideLock (held : Bool) : List Event → List String
  | [] => []
  | Event.Lock :: rest => setsOutsideLock true rest
  | Event.Unlock :: rest => setsOutsideLock false rest
  | Event.Set envName _ :: rest =>
    if held then setsOutsideLock held rest else envName :: setsOutsideLock held rest
  | _ :: rest => setsOutsideLock held rest

end initialconfig

namespace initialconfig

/-- The names of the fields set before the write lock is released for the
first time. -/
def setsBeforeUnlock : List Event → List String
  | [] => []
  | Event.Unlock :: _ => []
  | Event.Set envName _ :: rest => envName :: setsBeforeUnlock rest
  | _ :: rest => setsBeforeUnlock rest

end initialconfig

/-! ## Package `utils`: `GetRandomInt` -/

namespace rand

/-- Go: `rand.Intn` of the library `math/rand`. It panics when `n <= 0`, and
returns otherwise a number of the half-open interval `[0, n)`; which one is
decided by `outcome`, what the random source yields. A panic is an error of
the model. -/
def Intn (outcome : Nat) (n : Int) : Except GoError Int :=
  if n ≤ 0 then .error (GoError.message "invalid argument to Intn")
  else .ok ((outcome : Int) % n)

end rand

namespace utils

/-- The least value of the type `int`, of 64 bits. -/
def minInt : Int := -9223372036854775808

/-- The greatest value of the type `int`, of 64 bits. -/
def maxInt : Int := 9223372036854775807

/-- The integer is a value of the type `int`. -/
def IsInt (x : Int) : Prop := minInt ≤ x ∧ x ≤ maxInt

instance (x : Int) : Decidable (IsInt x) := inferInstanceAs (Decidable (_ ∧ _))

/-- The value of type `int` of the result of an operation of `int`: sums and
differences wrap around in two's complement. -/
def wrapInt (x : Int) : Int :=
  (x + 9223372036854775808) % 18446744073709551616 - 9223372036854775808

/-- Go: `GetRandomInt`; `outcome` is what the random source yields. -/
def GetRandomInt (outcome : Nat) (min max : Int) : Except GoError Int :=
  match rand.Intn outcome (wrapInt (max - min)) with
  | .error err => .error err
  | .ok n => .ok (wrapInt (n + min))

end utils

namespace initialconfig

/-- Go: `randomSleepSeconds := utils.GetRandomInt(150, 250)`, the first
statement of a turn of the watcher, and the turn that follows from it. -/
def randomTick (outcome : Nat) (consulClient : consul.Consul) (vaultClient : vault.Vault)
    (resolveOrder applyOrder : List String) : Except GoError Tick :=
  match utils.GetRandomInt outcome 150 250 with
  | .error err => .error err
  | .ok randomSleepSeconds =>
    .ok { randomSleepSeconds := randomSleepSeconds, consulClient := consulClient,
          vaultClient := vaultClient, resolveOrder := resolveOrder, applyOrder := applyOrder }

/-- Go: `time.Second * time.Duration(randomSleepSeconds)`, the argument of
`time.Sleep`, in nanoseconds; the product is one of `int64`. -/
def sleepDuration (randomSleepSeconds : Int) : Int :=
  utils.wrapInt (1000000000 * randomSleepSeconds)

end initialconfig

/-! ## Package `config`: the address getters -/

namespace rabbitbus

/-- Go: `rabbitbus.Config`. -/
structure Config where
  User : String
  Pass : String
  IsSecure : Bool
  Addr : String
  deriving DecidableEq, Repr

end rabbitbus

namespace redisclient

/-- Go: `redisclient.Config`. -/
structure Config where
  Addr : String
  User : String
  Pass : String
  DbIndex : Int
  PingInterval : Int
  deriving DecidableEq, Repr

end redisclient

namespace postgres

/-- Go: `postgres.Config`, which is declared outside the available sources;
`GetPostgresAddr` reads its field `Addr`, a string, and the other fields are
left out. -/
structure Config where
  Addr : String
  deriving DecidableEq, Repr

end postgres

namespace config

/-- Go: `DiscoveryConfig`. -/
structure DiscoveryConfig where
  PostgresAddrs : consul.GetServiceAddressResponse
  RabbitAddrs : consul.GetServiceAddressResponse
  RedisAddrs : consul.GetServiceAddressResponse
  deriving DecidableEq, Repr

/-- Go: `LocalConfig`, without the fields `Prometheus`, `HealthCheck` and
`GpgPublicSignatures`, which the address getters do not read. -/
structure LocalConfig where
  ServiceName : String
  StandName : String
  Rabbit : rabbitbus.Config
  Postgres : postgres.Config
  Redis : redisclient.Config
  DiscoveryPostgresService : String
  DiscoveryRabbitService : String
  DiscoveryRedisService : String
  deriving DecidableEq, Repr

/-- Go: `Config`, which embeds `DiscoveryConfig`, `GlobalConfig` (a struct
without fields) and `LocalConfig`. -/
structure Config extends DiscoveryConfig, LocalConfig
  deriving DecidableEq, Repr

/-- Go: the index expression `arr[i]` on a slice, with an index of type
`int`; it panics when the index is out of range, and a panic is an error of
the model. -/
def index {α : Type} (arr : List α) (i : Int) : Except GoError α :=
  if i < 0 then .error (GoError.message "index out of range")
  else
    match arr.get? i.toNat with
    | some x => .ok x
    | none => .error (GoError.message "index out of range")

/-- Go: `Config.GetRabbitAddr`; `outcome` is what the random source yields.
`fmt.Sprintf("%s:%d", ..)` writes the address, a colon and the port in
decimal. -/
def Config.GetRabbitAddr (c : Config) (outcome : Nat) : Except GoError String :=
  let addr := c.Rabbit.Addr
  if c.RabbitAddrs.length = 0 then .ok addr
  else
    match utils.GetRandomInt outcome 0 c.RabbitAddrs.length with
    | .error err => .error err
    | .ok i =>
      match index c.RabbitAddrs i with
      | .error err => .error err
      | .ok addrParams => .ok (addrParams.Address ++ ":" ++ toString addrParams.Port)

/-- Go: `Config.GetPostgresAddr`. -/
def Config.GetPostgresAddr (c : Config) (outcome : Nat) : Except GoError String :=
  let addr := c.Postgres.Addr
  if c.PostgresAddrs.length = 0 then .ok addr
  else
    match utils.GetRandomInt outcome 0 c.PostgresAddrs.length with
    | .error err => .error err
    | .ok i =>
      match index c.PostgresAddrs i with
      | .error err => .error err
      | .ok addrParams => .ok (addrParams.Address ++ ":" ++ toString addrParams.Port)

/-- Go: `Config.GetRedisAddr`. -/
def Config.GetRedisAddr (c : Config) (outcome : Nat) : Except GoError String :=
  let addr := c.Redis.Addr
  if c.RedisAddrs.length = 0 then .ok addr
  else
    match utils.GetRandomInt outcome 0 c.RedisAddrs.length with
    | .error err => .error err
    | .ok i =>
      match index c.RedisAddrs i with
      | .error err => .error err
      | .ok addrParams => .ok (addrParams.Address ++ ":" ++ toString addrParams.Port)

/-- The body that the three getters share: the static address `addr` when
the list of endpoints is empty, an element of the list otherwise. -/
def pickAddr (addr : String) (addrs : consul.GetServiceAddressResponse) (outcome : Nat) :
    Except GoError String :=
  if addrs.length = 0 then .ok addr
  else
    match utils.GetRandomInt outcome 0 addrs.length with
    | .error err => .error err
    | .ok i =>
      match index addrs i with
      | .error err => .error err
      | .ok addrParams => .ok (addrParams.Address ++ ":" ++ toString addrParams.Port)

/-- A configuration of a stand with two endpoints of the message bus, one of
the database and none of the cache. -/
def demoConfig : Config where
  PostgresAddrs := [{ Address := "10.0.0.1", Port := 5432 }]
  RabbitAddrs := [{ Address := "10.0.1.1", Port := 5672 }, { Address := "10.0.1.2", Port := 5673 }]
  RedisAddrs := []
  ServiceName := "rate-limit"
  StandName := "dev"
  Rabbit := { User := "guest", Pass := "guest", IsSecure := false, Addr := "localhost:5672" }
  Postgres := { Addr := "localhost:5432" }
  Redis := { Addr := "localhost:6379", User := "", Pass := "", DbIndex := 0, PingInterval := 10 }
  DiscoveryPostgresService := "postgres"
  DiscoveryRabbitService := "rabbit"
  DiscoveryRedisService := "redis"

end config

/-! ## Package `cryptography`: `Encrypt` -/

namespace base64

/-- The alphabet of the standard encoding of the library `encoding/base64`
(RFC 4648). -/
def encodeStd : List Char :=
  "ABCDEFGHIJKLMNOPQRSTUVWXYZabcdefghijklmnopqrstuvwxyz0123456789+/".toList

/-- The character of the alphabet for a group of six bits. -/
def charOf (i : Nat) : Char := encodeStd.getD (i % 64) 'A'

/-- The six bits that a character of the alphabet stands for. -/
def indexOf? (c : Char) : Option Nat :=
  if encodeStd.indexOf c < 64 then some (encodeStd.indexOf c) else none

/-- The byte with the given value. -/
def byteOf (x : Nat) : Fin 256 := ⟨x % 256, Nat.mod_lt x (by decide)⟩

/-- The standard encoding of a sequence of bytes, with padding: three bytes
give four characters, and a rest of one or two bytes gives two or three
characters followed by `=` signs. -/
def encode : List (Fin 256) → List Char
  | a :: b :: c :: rest =>
    charOf (a.val / 4) :: charOf (a.val % 4 * 16 + b.val / 16) ::
      charOf (b.val % 16 * 4 + c.val / 64) :: charOf (c.val % 64) :: encode rest
  | [a, b] =>
    [charOf (a.val / 4), charOf (a.val % 4 * 16 + b.val / 16), charOf (b.val % 16 * 4), '=']
  | [a] => [charOf (a.val / 4), charOf (a.val % 4 * 16), '=', '=']
  | [] => []

/-- The decoding of groups of four characters; padding is accepted in the
last group only, and a character outside the alphabet is an error. -/
def decodeQuanta : List Char → Except GoError (List (Fin 256))
  | [] => .ok []
  | c1 :: c2 :: c3 :: c4 :: rest =>
    match indexOf? c1, indexOf? c2 with
    | some i1, some i2 =>
      if c3 = '=' then
        if c4 = '=' ∧ rest = [] then .ok [byteOf (i1 * 4 + i2 / 16)]
        else .error (GoError.message "illegal base64 data")
      else
        match indexOf? c3 with
        | none => .error (GoError.message "illegal base64 data")
        | some i3 =>
          if c4 = '=' then
            if rest = [] then
              .ok [byteOf (i1 * 4 + i2 / 16), byteOf (i2 % 16 * 16 + i3 / 4)]
            else .error (GoError.message "illegal base64 data")
          else
            match indexOf? c4 with
            | none => .error (GoError.message "illegal base64 data")
            | some i4 =>
              match decodeQuanta rest with
              | .error err => .error err
              | .ok out =>
                .ok (byteOf (i1 * 4 + i2 / 16) :: byteOf (i2 % 16 * 16 + i3 / 4) ::
                  byteOf (i3 % 4 * 64 + i4) :: out)
    | _, _ => .error (GoError.message "illegal base64 data")
  | _ => .error (GoError.message "illegal base64 data")

/-- Go: `base64.StdEncoding.EncodeToString`. -/
def StdEncoding.EncodeToString (src : List (Fin 256)) : String := String.mk (encode src)

/-- Go: `base64.StdEncoding.DecodeString`; the characters `\r` and `\n` are
skipped. -/
def StdEncoding.DecodeString (s : String) : Except GoError (List (Fin 256)) :=
  decodeQuanta (s.data.filter (fun c => decide (c ≠ '\r' ∧ c ≠ '\n')))

end base64

namespace json

/-- The characters that `json.Marshal` writes as they are inside a string:
not the control characters, the quote, the backslash, the characters `<`,
`>` and `&` that it escapes for HTML, and the two line separators. -/
def safe (c : Char) : Bool :=
  decide (32 ≤ c.toNat) && c != '"' && c != '\\' && c != '<' && c != '>' && c != '&' &&
    c.toNat != 8232 && c.toNat != 8233

/-- The characters of a string as `json.Marshal` writes them; `escape` is
the escape sequence of the library for a character that is not written as it
is. -/
def escapeAll (escape : Char → List Char) : List Char → List Char
  | [] => []
  | c :: rest => (if safe c then [c] else escape c) ++ escapeAll escape rest

/-- A string as `json.Marshal` writes it, between quotes. -/
def quote (escape : Char → List Char) (s : String) : List Char :=
  '"' :: escapeAll escape s.data ++ ['"']

/-- The elements of an array of strings as `json.Marshal` writes them,
separated by commas. -/
def quoteAll (escape : Char → List Char) : List String → List Char
  | [] => []
  | [s] => quote escape s
  | s :: rest => quote escape s ++ ',' :: quoteAll escape rest

end json

namespace cryptography

/-- Go: the struct `secureMessage`, with the tags `json:"data"` and
`json:"signatures,omitempty"`. -/
structure secureMessage where
  Data : String
  Signatures : List String
  deriving DecidableEq, Repr

/-- Go: the struct `gpgService`. -/
structure gpgService where
  privateKey : String
  privateKeyPassword : Bytes
  deriving DecidableEq, Repr

/-- Go: `json.Marshal` on a value of `secureMessage`: the member `data`, and
the member `signatures` unless the slice is empty; the encoding of such a
value returns no error. -/
def Marshal (escape : Char → List Char) (m : secureMessage) : Bytes × Option GoError :=
  ("\x7b\"data\":".toList ++ json.quote escape m.Data ++
    (if m.Signatures.length = 0 then []
     else ",\"signatures\":[".toList ++ json.quoteAll escape m.Signatures ++ [']']) ++
    "\x7d".toList, none)

/-- Go: `gpgService.Encrypt`; `data` is the slice of bytes, each a number
below 256. -/
def gpgService.Encrypt (escape : Char → List Char) (_s : gpgService) (data : List (Fin 256))
    (_key : String) : Bytes × Option GoError :=
  let dataInBase64 := base64.StdEncoding.EncodeToString data
  Marshal escape { Data := dataInBase64, Signatures := [] }

/-- The bytes of the text `hi`. -/
def demoData : List (Fin 256) := [104, 105]

end cryptography

/-! ## Package `server`: the rate limiter -/

namespace server

/-- Go: `time.Second`, a duration in nanoseconds. -/
def Second : Int := 1000000000

/-- Go: `time.Since(t)`, that is `time.Now().Sub(t)`, for the reading `now` of
the clock; instants are counted in nanoseconds, and the difference is
saturated at the least and the greatest duration. -/
def Since (now t : Int) : Int :=
  if now - t < utils.minInt then utils.minInt
  else if utils.maxInt < now - t then utils.maxInt
  else now - t

/-- Go: `http.StatusMethodNotAllowed`. -/
def StatusMethodNotAllowed : Nat := 405

/-- Go: `http.StatusTooManyRequests`. -/
def StatusTooManyRequests : Nat := 429

/-- Go: `http.Request`, of which the handler reads `RemoteAddr` and `Method`. -/
structure Request where
  RemoteAddr : String
  Method : String
  deriving DecidableEq, Repr

/-- What the handler writes to the `http.ResponseWriter`: the call
`http.Error(w, error, code)`, or the body of the accepted request, whose
status is 200. -/
inductive Response where
  | OK
  | Error (error : String) (code : Nat)
  deriving DecidableEq, Repr

/-- Go: the struct `Server`, of which the handler uses the map
`requestersList` from the IP of a client to an instant. -/
structure Server where
  requestersList : String → Option Int

/-- Go: `New`: the map is empty. -/
def New : Server where
  requestersList := fun _ => none

/-- Go: `Server.HandleRequest`. `SplitHostPort` is `net.SplitHostPort` of the
library; `sinceNow` is the reading of the clock in `time.Since(t)` and
`storeNow` the one of `time.Now()` when the instant is stored. The result is
the server after the request and the response. -/
def Server.HandleRequest (SplitHostPort : String → Except GoError (String × String))
    (s : Server) (r : Request) (sinceNow storeNow : Int) : Server × Response :=
  match SplitHostPort r.RemoteAddr with
  | .error _ => (s, Response.Error "Method not supported" StatusMethodNotAllowed)
  | .ok (ip, _) =>
    if (match s.requestersList ip with
        | some t => decide (Since sinceNow t < Second)
        | none => false) then
      (s, Response.Error "Too many requests" StatusTooManyRequests)
    else if r.Method = "POST" then
      ({ requestersList := fun k => if k = ip then some storeNow else s.requestersList k },
        Response.OK)
    else (s, Response.Error "Method not supported" StatusMethodNotAllowed)

/-- A request as it is handled: the request and the two readings of the
clock during the call. -/
structure Arrival where
  r : Request
  sinceNow : Int
  storeNow : Int
  deriving DecidableEq, Repr

/-- Requests handled one after another: the server at the end and the
responses in order. -/
def Server.serve (SplitHostPort : String → Except GoError (String × String)) :
    Server → List Arrival → Server × List Response
  | s, [] => (s, [])
  | s, a :: rest =>
    let step := s.HandleRequest SplitHostPort a.r a.sinceNow a.storeNow
    let tail := Server.serve SplitHostPort step.1 rest
    (tail.1, step.2 :: tail.2)

/-- The accepted requests among requests handled one after another: for
each, the IP of the client and the instant that was stored. -/
def Server.accepted (SplitHostPort : String → Except GoError (String × String)) :
    Server → List Arrival → List (String × Int)
  | _, [] => []
  | s, a :: rest =>
    let step := s.HandleRequest SplitHostPort a.r a.sinceNow a.storeNow
    match step.2, SplitHostPort a.r.RemoteAddr with
    | Response.OK, .ok (ip, _) => (ip, a.storeNow) :: Server.accepted SplitHostPort step.1 rest
    | _, _ => Server.accepted SplitHostPort step.1 rest

/-- The readings of the clock during the requests, in order. -/
def readings : List Arrival → List Int
  | [] => []
  | a :: rest => a.sinceNow :: a.storeNow :: readings rest

/-- The clock does not go back during the requests. -/
def NonDecreasing (arrivals : List Arrival) : Prop :=
  (readings arrivals).Pairwise (fun x y => x ≤ y)

instance (arrivals : List Arrival) : Decidable (NonDecreasing arrivals) :=
  inferInstanceAs (Decidable (List.Pairwise _ _))

/-- The instant of the last accepted request of a client in a log of
accepted requests, or `init` when the log has none. -/
def lastStamp (ip : String) (init : Option Int) : List (String × Int) → Option Int
  | [] => init
  | x :: rest => lastStamp ip (if x.1 = ip then some x.2 else init) rest

/-- A stand-in for `net.SplitHostPort` on addresses of the form `host:port`
without brackets: the address is split at its last colon. -/
def demoSplitHostPort (hostport : String) : Except GoError (String × String) :=
  match hostport.toList.reverse.span (fun c => c != ':') with
  | (port, ':' :: host) => .ok (String.mk host.reverse, String.mk port.reverse)
  | _ => .error (GoError.message "missing port in address")

/-- The requests of `Test_Limiter`: 100 requests `POST` from the address that
`httptest.NewRequest` gives, one every ten microseconds. -/
def demoBurst : List Arrival :=
  (List.range 100).map (fun (i : Nat) =>
    { r := { RemoteAddr := "192.0.2.1:1234", Method := "POST" },
      sinceNow := 10000 * (i : Int), storeNow := 10000 * (i : Int) + 500 })

end server

namespace initialconfig

/-- The tagged addresses of the one healthy entry of the service `postgres`
on a stand whose entry has two different addresses, in one order of the
iteration over the map. -/
def demoTags : List (String × consul.ServiceAddress) :=
  [("lan_ipv4", { Address := "10.0.0.1", Port := 5432 }),
   ("wan_ipv4", { Address := "203.0.113.7", Port := 5432 })]

/-- The consul client of that stand, when the iteration over the map
`TaggedAddresses` visits the tagged addresses in the order `tags`; the store
is the one of the stand `dev`. -/
def demoTaggedService (tags : List (String × consul.ServiceAddress)) : consul.service where
  serviceName := "rate-limit"
  standName := "dev"
  kvGet := demoKVGet demoKV
  healthService := fun name =>
    if name = "postgres" then .ok [{ Service := { TaggedAddresses := tags } }]
    else .ok []

/-- The process of that stand: the client that `LoadConfig` creates visits
the tagged addresses in the order of `demoTags`. -/
def demoWorldTagged : World :=
  { demoWorld with
    consulNewClient := fun _ _ =>
      .ok { kvGet := demoKVGet demoKV,
            healthService := (demoTaggedService demoTags).healthService } }

/-- The result of `LoadConfig` in that process. -/
def demoLoadTagged : LoadResult := LoadConfig demoWorldTagged demoOrder demoOrder testConfig

/-- A turn of the watcher of that stand against the same store, the same
health entries and the same secrets, in which the iteration over the map
`TaggedAddresses` visits the same tagged addresses in the other order. -/
def demoTickReordered : Tick where
  randomSleepSeconds := 180
  consulClient := (demoTaggedService demoTags.reverse).toConsul
  vaultClient := demoVaultService.toVault
  resolveOrder := demoOrder
  applyOrder := demoOrder

end initialconfig

/-! ## Lemmas on the registry -/

namespace initialconfig

theorem Envs.get?_map_of_key (e : Envs) (f : String × EnvParams → String × EnvParams)
    (hkey : ∀ kv, (f kv).1 = kv.1) (name : String) :
    Envs.get? (e.map f) name = (e.get? name).map (fun p => (f (name, p)).2) := by
  induction e with
  | nil => simp [Envs.get?]
  | cons kv rest ih =>
    simp only [List.map_cons, Envs.get?, hkey]
    by_cases h : kv.1 = name
    · subst h; simp
    · simp [h, ih]

theorem Envs.get?_write (e : Envs) (w : Write) (name : String) :
    (e.write w).get? name = (e.get? name).map (fun p => w.applyTo name p) := by
  cases w with
  | Value m value =>
    simp only [Envs.write, Envs.SetValue]
    rw [Envs.get?_map_of_key _ _ (by intro kv; split <;> rfl)]
    simp only [Write.applyTo]
    congr 1; funext p; split <;> rfl
  | ExternalValue m value =>
    simp only [Envs.write, Envs.SetExternalValue]
    rw [Envs.get?_map_of_key _ _ (by intro kv; split <;> rfl)]
    simp only [Write.applyTo]
    congr 1; funext p; split <;> rfl

theorem Envs.get?_writes (ws : List Write) (e : Envs) (name : String) :
    (e.writes ws).get? name =
      (e.get? name).map (fun p => ws.foldl (fun q w => w.applyTo name q) p) := by
  induction ws generalizing e with
  | nil => simp [Envs.writes]
  | cons w rest ih =>
    have h := ih (e.write w)
    simp only [Envs.writes, List.foldl_cons] at h ⊢
    rw [h, Envs.get?_write]
    cases e.get? name <;> simp

theorem Envs.writes_append (e : Envs) (ws ws2 : List Write) :
    e.writes (ws ++ ws2) = (e.writes ws).writes ws2 := by
  simp [Envs.writes]

/-! ## One iteration of the resolver in closed form -/

theorem resolveField_of_not_fails (StandName : String) (c : consul.Consul) (v : vault.Vault)
    (envName : String) (params : EnvParams) (result : Envs)
    (h : ¬ FieldFails c v envName params) :
    resolveField StandName c v envName params result =
      .ok (result.writes (fieldWrites c v envName params),
        fieldCalls StandName c envName params) := by
  unfold FieldFails at h
  simp only [not_or, not_and] at h
  obtain ⟨h1, h2⟩ := h
  unfold resolveField fieldWrites fieldCalls Settable override
  cases hg : hardError (c.GetValue (consulPath params) envName).2 with
  | some e => simp [hg] at h1
  | none =>
    simp only [hg]
    by_cases hj : params.IsJson = true
    · simp [hj, Envs.writes]
    · simp only [hj, if_false]
      by_cases he : String.mk (c.GetValue (consulPath params) envName).1 = ""
      · simp [he, Envs.writes]
      · by_cases hd : params.ConfigType = ConfigType.ConfigTypeDiscovery
        · simp [he, hd, hj, Envs.writes]
        · have hs : Settable c envName params := ⟨by simpa using hj, he, hd⟩
          have h3 := h2 hs
          simp only [not_or, not_and] at h3
          obtain ⟨h4, h5⟩ := h3
          simp only [override] at h4 h5
          by_cases hf : params.DiscoveryField = ""
          · by_cases hsec : params.IsSecret = true
            · have h6 := h5 hsec
              cases hv : (v.GetSecret (String.mk (c.GetValue (consulPath params) envName).1)).2 with
              | some e => simp [hv] at h6
              | none => simp [he, hd, hj, hf, hsec, hv, Envs.writes, Envs.write]
            · simp [he, hd, hj, hf, hsec, Envs.writes, Envs.write]
          · have h7 := h4 hf
            cases hv2 : (c.GetServiceAddress
                  (String.mk (c.GetValue (consulPath params) envName).1)).2 with
            | some e => simp [hv2] at h7
            | none =>
              by_cases hsec : params.IsSecret = true
              · have h6 := h5 hsec
                cases hv : (v.GetSecret
                      (String.mk (c.GetValue (consulPath params) envName).1)).2 with
                | some e => simp [hv] at h6
                | none =>
                  simp [he, hd, hj, hf, hsec, hv, hv2, Envs.writes, Envs.write]
                  split <;> simp
              · simp [he, hd, hj, hf, hsec, hv2, Envs.writes, Envs.write]
                split <;> simp

theorem resolveField_of_fails (StandName : String) (c : consul.Consul) (v : vault.Vault)
    (envName : String) (params : EnvParams) (result : Envs)
    (h : FieldFails c v envName params) :
    ∃ e, resolveField StandName c v envName params result = .error e := by
  unfold resolveField
  cases hg : hardError (c.GetValue (consulPath params) envName).2 with
  | some e => simp only [hg]; exact ⟨_, rfl⟩
  | none =>
    rcases h with h | ⟨⟨hj, he, hd⟩, h⟩
    · simp [hg] at h
    · simp only [override] at he h
      simp only [hg, hj, he, hd, if_false, Bool.false_eq_true]
      rcases h with ⟨hf, h⟩ | ⟨hsec, h⟩
      · cases hv2 : (c.GetServiceAddress
            (String.mk (c.GetValue (consulPath params) envName).1)).2 with
        | none => simp [hv2] at h
        | some e => simp [hf, hv2]
      · cases hv : (v.GetSecret (String.mk (c.GetValue (consulPath params) envName).1)).2 with
        | none => simp [hv] at h
        | some e =>
          by_cases hf : params.DiscoveryField = ""
          · simp [hf, hsec, hv]
          · cases hv2 : (c.GetServiceAddress
                (String.mk (c.GetValue (consulPath params) envName).1)).2 with
            | none => simp [hf, hsec, hv, hv2]
            | some e => simp [hf, hv2]

/-! ## The resolver loop in closed form -/

theorem SameStatic.refl (reg : Envs) : SameStatic reg reg := fun _ => rfl

theorem Write.applyTo_clear (name : String) (p : EnvParams) (w : Write) :
    (w.applyTo name p).clear = p.clear := by
  cases w <;> simp only [Write.applyTo] <;> split <;> rfl

theorem foldl_applyTo_clear (name : String) (ws : List Write) (p : EnvParams) :
    (ws.foldl (fun q w => w.applyTo name q) p).clear = p.clear := by
  induction ws generalizing p with
  | nil => rfl
  | cons w rest ih => simp only [List.foldl_cons]; rw [ih, Write.applyTo_clear]

theorem SameStatic.writes {r reg : Envs} (h : SameStatic r reg) (ws : List Write) :
    SameStatic (r.writes ws) reg := by
  intro name
  rw [Envs.get?_writes, ← h name]
  cases r.get? name with
  | none => rfl
  | some p => simp [foldl_applyTo_clear]

theorem SameStatic.get? {r reg : Envs} (h : SameStatic r reg) {name : String} {p : EnvParams}
    (hp : r.get? name = some p) : ∃ p0, reg.get? name = some p0 ∧ p0.clear = p.clear := by
  have := h name
  rw [hp] at this
  cases h0 : reg.get? name with
  | none => simp [h0] at this
  | some p0 => exact ⟨p0, rfl, by simpa [h0] using this.symm⟩

theorem SameStatic.get?_none {r reg : Envs} (h : SameStatic r reg) {name : String}
    (hp : r.get? name = none) : reg.get? name = none := by
  have := h name
  rw [hp] at this
  cases h0 : reg.get? name with
  | none => rfl
  | some p0 => simp [h0] at this

theorem fieldWrites_clear (c : consul.Consul) (v : vault.Vault) (n : String) (p : EnvParams) :
    fieldWrites c v n p.clear = fieldWrites c v n p := rfl

theorem fieldCalls_clear (S : String) (c : consul.Consul) (n : String) (p : EnvParams) :
    fieldCalls S c n p.clear = fieldCalls S c n p := rfl

theorem FieldFails_clear (c : consul.Consul) (v : vault.Vault) (n : String) (p : EnvParams) :
    FieldFails c v n p.clear ↔ FieldFails c v n p := Iff.rfl

theorem resolveLoop_ok (S : String) (c : consul.Consul) (v : vault.Vault) (reg : Envs)
    (order : List String) (r : Envs) (tr : List Call) (hs : SameStatic r reg)
    (hok : ∀ n ∈ order, ∀ p, reg.get? n = some p → ¬ FieldFails c v n p) :
    resolveLoop S c v order (r, tr) =
      .ok (r.writes (loopWrites c v reg order), tr ++ loopCalls S c reg order) := by
  induction order generalizing r tr with
  | nil => simp [resolveLoop, loopWrites, loopCalls, Envs.writes]
  | cons n rest ih =>
    have hrest : ∀ m ∈ rest, ∀ p, reg.get? m = some p → ¬ FieldFails c v m p :=
      fun m hm => hok m (List.mem_cons_of_mem _ hm)
    cases hr : r.get? n with
    | none =>
      have h0 := hs.get?_none hr
      simp only [resolveLoop, hr, loopWrites, loopCalls, h0, List.nil_append]
      exact ih r tr hs hrest
    | some p =>
      obtain ⟨p0, h0, hc⟩ := hs.get? hr
      have hnf : ¬ FieldFails c v n p := by
        rw [← FieldFails_clear, ← hc, FieldFails_clear]
        exact hok n (List.mem_cons_self _ _) p0 h0
      have hw : fieldWrites c v n p0 = fieldWrites c v n p := by
        rw [← fieldWrites_clear, hc, fieldWrites_clear]
      have hcl : fieldCalls S c n p0 = fieldCalls S c n p := by
        rw [← fieldCalls_clear, hc, fieldCalls_clear]
      simp only [resolveLoop, hr, loopWrites, loopCalls, h0,
        resolveField_of_not_fails S c v n p r hnf]
      rw [ih _ _ (hs.writes _) hrest, hw, hcl, Envs.writes_append, List.append_assoc]

theorem resolveLoop_error (S : String) (c : consul.Consul) (v : vault.Vault) (reg : Envs)
    (order : List String) (r : Envs) (tr : List Call) (hs : SameStatic r reg)
    (hbad : ∃ n ∈ order, ∃ p, reg.get? n = some p ∧ FieldFails c v n p) :
    ∃ e, resolveLoop S c v order (r, tr) = .error e := by
  induction order generalizing r tr with
  | nil => obtain ⟨n, hn, _⟩ := hbad; simp at hn
  | cons m rest ih =>
    by_cases hall : ∀ n ∈ m :: rest, ∀ p, reg.get? n = some p → ¬ FieldFails c v n p
    · obtain ⟨n, hn, p, hp, hf⟩ := hbad
      exact absurd hf (hall n hn p hp)
    · cases hr : r.get? m with
      | none =>
        have h0 := hs.get?_none hr
        simp only [resolveLoop, hr]
        apply ih r tr hs
        obtain ⟨n, hn, p, hp, hf⟩ := hbad
        rcases List.mem_cons.mp hn with rfl | hn
        · rw [h0] at hp; cases hp
        · exact ⟨n, hn, p, hp, hf⟩
      | some p =>
        obtain ⟨p0, h0, hc⟩ := hs.get? hr
        by_cases hf : FieldFails c v m p
        · obtain ⟨e, he⟩ := resolveField_of_fails S c v m p r hf
          exact ⟨e, by simp only [resolveLoop, hr, he]⟩
        · simp only [resolveLoop, hr, resolveField_of_not_fails S c v m p r hf]
          apply ih _ _ (hs.writes _)
          obtain ⟨n, hn, q, hq, hfq⟩ := hbad
          rcases List.mem_cons.mp hn with rfl | hn
          · rw [h0] at hq; cases hq
            exact absurd ((FieldFails_clear c v n p).mp
              (hc ▸ (FieldFails_clear c v n p0).mpr hfq)) hf
          · exact ⟨n, hn, q, hq, hfq⟩

theorem resolve_ok (s : cfgService) (c : consul.Consul) (v : vault.Vault)
    (hc : s.consulClient = some c) (hv : s.vaultClient = some v) (reg : Envs)
    (order : List String)
    (hok : ∀ n ∈ order, ∀ p, reg.get? n = some p → ¬ FieldFails c v n p) :
    s.resolve reg order =
      .ok (reg.writes (loopWrites c v reg order), loopCalls s.StandName c reg order) := by
  simp only [cfgService.resolve, hc, hv]
  rw [resolveLoop_ok s.StandName c v reg order reg [] (SameStatic.refl reg) hok]
  simp

theorem resolve_error (s : cfgService) (c : consul.Consul) (v : vault.Vault)
    (hc : s.consulClient = some c) (hv : s.vaultClient = some v) (reg : Envs)
    (order : List String)
    (hbad : ∃ n ∈ order, ∃ p, reg.get? n = some p ∧ FieldFails c v n p) :
    ∃ e, s.resolve reg order = .error e := by
  simp only [cfgService.resolve, hc, hv]
  exact resolveLoop_error s.StandName c v reg order reg [] (SameStatic.refl reg) hbad

theorem resolve_ok_inv (s : cfgService) (c : consul.Consul) (v : vault.Vault)
    (hc : s.consulClient = some c) (hv : s.vaultClient = some v) (reg : Envs)
    (order : List String) (out : Envs) (calls : List Call)
    (hrun : s.resolve reg order = .ok (out, calls)) :
    (∀ n ∈ order, ∀ p, reg.get? n = some p → ¬ FieldFails c v n p) ∧
      out = reg.writes (loopWrites c v reg order) ∧
      calls = loopCalls s.StandName c reg order := by
  by_cases hok : ∀ n ∈ order, ∀ p, reg.get? n = some p → ¬ FieldFails c v n p
  · rw [resolve_ok s c v hc hv reg order hok] at hrun
    simp only [Except.ok.injEq, Prod.mk.injEq] at hrun
    exact ⟨hok, hrun.1.symm, hrun.2.symm⟩
  · have hbad : ∃ n ∈ order, ∃ p, reg.get? n = some p ∧ FieldFails c v n p := by
      by_contra hcon
      apply hok
      intro n hn p hp hf
      exact hcon ⟨n, hn, p, hp, hf⟩
    obtain ⟨e, he⟩ := resolve_error s c v hc hv reg order hbad
    rw [he] at hrun; cases hrun

theorem getData_eq_ok (s : cfgService) (reg : Envs) (order : List String) (out : Envs) :
    s.getDataFromConsulAndVault reg order = (some out, none) ↔
      ∃ calls, s.resolve reg order = .ok (out, calls) := by
  unfold cfgService.getDataFromConsulAndVault
  cases h : s.resolve reg order with
  | error e => simp
  | ok st => obtain ⟨r, t⟩ := st; simp

theorem mem_loopWrites (c : consul.Consul) (v : vault.Vault) (reg : Envs)
    (order : List String) (w : Write) :
    w ∈ loopWrites c v reg order ↔
      ∃ n ∈ order, ∃ p, reg.get? n = some p ∧ w ∈ fieldWrites c v n p := by
  induction order with
  | nil => simp [loopWrites]
  | cons m rest ih =>
    simp only [loopWrites, List.mem_append, ih, List.mem_cons, exists_eq_or_imp]
    cases hm : reg.get? m <;> simp

theorem mem_loopCalls (S : String) (c : consul.Consul) (reg : Envs)
    (order : List String) (x : Call) :
    x ∈ loopCalls S c reg order ↔
      ∃ n ∈ order, ∃ p, reg.get? n = some p ∧ x ∈ fieldCalls S c n p := by
  induction order with
  | nil => simp [loopCalls]
  | cons m rest ih =>
    simp only [loopCalls, List.mem_append, ih, List.mem_cons, exists_eq_or_imp]
    cases hm : reg.get? m <;> simp

theorem mem_fieldWrites_Value (c : consul.Consul) (v : vault.Vault) (n : String)
    (p : EnvParams) (m : String) (x : Any) :
    Write.Value m x ∈ fieldWrites c v n p ↔
      Settable c n p ∧ ((m = n ∧ x = some (GoValue.str (override c n p))) ∨
        (p.DiscoveryField ≠ "" ∧ m = p.DiscoveryField ∧
          x = some (GoValue.addrs (c.GetServiceAddress (override c n p)).1))) := by
  unfold fieldWrites
  by_cases hs : Settable c n p
  · by_cases hf : p.DiscoveryField = "" <;> by_cases hsec : p.IsSecret = true <;>
      simp [hs, hf, hsec]
  · simp [hs]

theorem mem_fieldWrites_ExternalValue (c : consul.Consul) (v : vault.Vault) (n : String)
    (p : EnvParams) (m : String) (x : Any) :
    Write.ExternalValue m x ∈ fieldWrites c v n p ↔
      Settable c n p ∧ p.IsSecret = true ∧ m = n ∧ x = (v.GetSecret (override c n p)).1 := by
  unfold fieldWrites
  by_cases hs : Settable c n p
  · by_cases hf : p.DiscoveryField = "" <;> by_cases hsec : p.IsSecret = true <;>
      simp [hs, hf, hsec]
  · simp [hs]

theorem mem_fieldCalls_GetServiceAddress (S : String) (c : consul.Consul) (n : String)
    (p : EnvParams) (m x : String) :
    Call.GetServiceAddress m x ∈ fieldCalls S c n p ↔
      Settable c n p ∧ p.DiscoveryField ≠ "" ∧ m = n ∧ x = override c n p := by
  unfold fieldCalls
  by_cases hs : Settable c n p
  · by_cases hf : p.DiscoveryField = "" <;> by_cases hsec : p.IsSecret = true <;>
      simp [hs, hf, hsec]
  · simp [hs]

theorem mem_fieldCalls_GetSecret (S : String) (c : consul.Consul) (n : String)
    (p : EnvParams) (m x : String) :
    Call.GetSecret m x ∈ fieldCalls S c n p ↔
      Settable c n p ∧ p.IsSecret = true ∧ m = n ∧ x = override c n p := by
  unfold fieldCalls
  by_cases hs : Settable c n p
  · by_cases hf : p.DiscoveryField = "" <;> by_cases hsec : p.IsSecret = true <;>
      simp [hs, hf, hsec]
  · simp [hs]

/-- The final `Value` of a descriptor after a list of stores is its old one or
one of the values stored under its name. -/
theorem foldl_applyTo_Value_cases (name : String) (ws : List Write) (p : EnvParams) :
    (ws.foldl (fun q w => w.applyTo name q) p).Value = p.Value ∨
      Write.Value name (ws.foldl (fun q w => w.applyTo name q) p).Value ∈ ws := by
  induction ws generalizing p with
  | nil => left; rfl
  | cons w rest ih =>
    simp only [List.foldl_cons, List.mem_cons]
    rcases ih (w.applyTo name p) with h | h
    · rw [h]
      cases w with
      | Value m x =>
        simp only [Write.applyTo]
        by_cases hm : name = m
        · subst hm; simp
        · simp [hm]
      | ExternalValue m x =>
        simp only [Write.applyTo]
        left; split <;> rfl
    · right; right; exact h

theorem foldl_applyTo_Value_of_all (name : String) (x : Any) (ws : List Write)
    (p : EnvParams) (hall : ∀ y, Write.Value name y ∈ ws → y = x) :
    (ws.foldl (fun q w => w.applyTo name q) p).Value =
      if Write.Value name x ∈ ws then x else p.Value := by
  rcases foldl_applyTo_Value_cases name ws p with h | h
  · by_cases hx : Write.Value name x ∈ ws
    · simp only [hx, if_true]
      clear h
      induction ws generalizing p with
      | nil => simp at hx
      | cons w rest ih =>
        simp only [List.foldl_cons]
        by_cases hr : Write.Value name x ∈ rest
        · exact ih _ (fun y hy => hall y (List.mem_cons_of_mem _ hy)) hr
        · rcases List.mem_cons.mp hx with hw | hw
          · subst hw
            rcases foldl_applyTo_Value_cases name rest
              ((Write.Value name x).applyTo name p) with h | h
            · rw [h]; simp [Write.applyTo]
            · have := hall _ (List.mem_cons_of_mem _ h)
              exact this
          · exact absurd hw hr
    · simp only [hx, if_false]; exact h
  · have := hall _ h
    rw [this] at h
    simp [h, this]

theorem foldl_applyTo_ExternalValue_cases (name : String) (ws : List Write) (p : EnvParams) :
    (ws.foldl (fun q w => w.applyTo name q) p).ExternalValue = p.ExternalValue ∨
      Write.ExternalValue name (ws.foldl (fun q w => w.applyTo name q) p).ExternalValue ∈ ws := by
  induction ws generalizing p with
  | nil => left; rfl
  | cons w rest ih =>
    simp only [List.foldl_cons, List.mem_cons]
    rcases ih (w.applyTo name p) with h | h
    · rw [h]
      cases w with
      | ExternalValue m x =>
        simp only [Write.applyTo]
        by_cases hm : name = m
        · subst hm; simp
        · simp [hm]
      | Value m x =>
        simp only [Write.applyTo]
        left; split <;> rfl
    · right; right; exact h

theorem foldl_applyTo_ExternalValue_of_all (name : String) (x : Any) (ws : List Write)
    (p : EnvParams) (hall : ∀ y, Write.ExternalValue name y ∈ ws → y = x) :
    (ws.foldl (fun q w => w.applyTo name q) p).ExternalValue =
      if Write.ExternalValue name x ∈ ws then x else p.ExternalValue := by
  rcases foldl_applyTo_ExternalValue_cases name ws p with h | h
  · by_cases hx : Write.ExternalValue name x ∈ ws
    · simp only [hx, if_true]
      clear h
      induction ws generalizing p with
      | nil => simp at hx
      | cons w rest ih =>
        simp only [List.foldl_cons]
        by_cases hr : Write.ExternalValue name x ∈ rest
        · exact ih _ (fun y hy => hall y (List.mem_cons_of_mem _ hy)) hr
        · rcases List.mem_cons.mp hx with hw | hw
          · subst hw
            rcases foldl_applyTo_ExternalValue_cases name rest
              ((Write.ExternalValue name x).applyTo name p) with h | h
            · rw [h]; simp [Write.applyTo]
            · have := hall _ (List.mem_cons_of_mem _ h)
              exact this
          · exact absurd hw hr
    · simp only [hx, if_false]; exact h
  · have := hall _ h
    rw [this] at h
    simp [h, this]

/-! ## The snapshot of a successful run -/

theorem mk_eq_empty_iff (l : List Char) : String.mk l = "" ↔ l = [] := by
  constructor
  · intro h
    have := congrArg String.data h
    simpa using this
  · rintro rfl; rfl

theorem mem_keys_of_get? (e : Envs) (name : String) (p : EnvParams)
    (h : e.get? name = some p) : name ∈ e.keys := by
  induction e with
  | nil => simp [Envs.get?] at h
  | cons kv rest ih =>
    simp only [Envs.get?] at h
    simp only [Envs.keys, List.map_cons, List.mem_cons]
    by_cases hk : kv.1 = name
    · left; exact hk.symm
    · right; simp only [hk, if_false] at h; exact ih h

/-- The final descriptor of a registered field after a successful run. -/
theorem resolve_field_result (s : cfgService) (c : consul.Consul) (v : vault.Vault)
    (hc : s.consulClient = some c) (hv : s.vaultClient = some v) (reg : Envs)
    (order : List String) (out : Envs) (calls : List Call)
    (hrun : s.resolve reg order = .ok (out, calls))
    (name : String) (p : EnvParams) (hp : reg.get? name = some p) :
    ∃ q, out.get? name = some q ∧ q.clear = p.clear ∧
      (q.ExternalValue =
        if name ∈ order ∧ Settable c name p ∧ p.IsSecret = true
        then (v.GetSecret (override c name p)).1 else p.ExternalValue) ∧
      (q.Value = p.Value ∨ Write.Value name q.Value ∈ loopWrites c v reg order) ∧
      ((∀ n q0, n ∈ order → reg.get? n = some q0 → Settable c n q0 → ¬ LinksTo q0 name) →
        q.Value = if name ∈ order ∧ Settable c name p
          then some (GoValue.str (override c name p)) else p.Value) := by
  obtain ⟨_, hout, _⟩ := resolve_ok_inv s c v hc hv reg order out calls hrun
  refine ⟨(loopWrites c v reg order).foldl (fun q w => w.applyTo name q) p, ?_, ?_, ?_, ?_, ?_⟩
  · rw [hout, Envs.get?_writes, hp]; rfl
  · exact foldl_applyTo_clear _ _ _
  · rw [foldl_applyTo_ExternalValue_of_all name (v.GetSecret (override c name p)).1]
    · congr 1
      rw [mem_loopWrites]
      apply propext
      constructor
      · rintro ⟨n, hn, q0, hq0, hw⟩
        rw [mem_fieldWrites_ExternalValue] at hw
        obtain ⟨hs, hsec, rfl, _⟩ := hw
        rw [hp] at hq0; cases hq0
        exact ⟨hn, hs, hsec⟩
      · rintro ⟨hn, hs, hsec⟩
        exact ⟨name, hn, p, hp,
          (mem_fieldWrites_ExternalValue _ _ _ _ _ _).mpr ⟨hs, hsec, rfl, rfl⟩⟩
    · intro y hy
      rw [mem_loopWrites] at hy
      obtain ⟨n, hn, q0, hq0, hw⟩ := hy
      rw [mem_fieldWrites_ExternalValue] at hw
      obtain ⟨hs, hsec, rfl, hy⟩ := hw
      rw [hp] at hq0; cases hq0
      exact hy
  · exact foldl_applyTo_Value_cases _ _ _
  · intro hlink
    rw [foldl_applyTo_Value_of_all name (some (GoValue.str (override c name p)))]
    · congr 1
      rw [mem_loopWrites]
      apply propext
      constructor
      · rintro ⟨n, hn, q0, hq0, hw⟩
        rw [mem_fieldWrites_Value] at hw
        obtain ⟨hs, ⟨rfl, _⟩ | ⟨hf, hm, _⟩⟩ := hw
        · rw [hp] at hq0; cases hq0
          exact ⟨hn, hs⟩
        · exact absurd ⟨hf, hm.symm⟩ (hlink n q0 hn hq0 hs)
      · rintro ⟨hn, hs⟩
        exact ⟨name, hn, p, hp, (mem_fieldWrites_Value _ _ _ _ _ _).mpr ⟨hs, Or.inl ⟨rfl, rfl⟩⟩⟩
    · intro y hy
      rw [mem_loopWrites] at hy
      obtain ⟨n, hn, q0, hq0, hw⟩ := hy
      rw [mem_fieldWrites_Value] at hw
      obtain ⟨hs, ⟨rfl, hy⟩ | ⟨hf, hm, _⟩⟩ := hw
      · rw [hp] at hq0; cases hq0
        exact hy
      · exact absurd ⟨hf, hm.symm⟩ (hlink n q0 hn hq0 hs)

theorem Envs.mem_of_get? (e : Envs) (name : String) (p : EnvParams)
    (h : e.get? name = some p) : (name, p) ∈ e := by
  induction e with
  | nil => simp [Envs.get?] at h
  | cons kv rest ih =>
    simp only [Envs.get?] at h
    by_cases hk : kv.1 = name
    · simp only [hk, if_true, Option.some.injEq] at h
      subst hk; subst h
      exact List.mem_cons_self _ _
    · simp only [hk, if_false] at h
      exact List.mem_cons_of_mem _ (ih h)

theorem Envs.get?_of_mem (e : Envs) (hk : e.keys.Nodup) (name : String) (p : EnvParams)
    (h : (name, p) ∈ e) : e.get? name = some p := by
  induction e with
  | nil => simp at h
  | cons kv rest ih =>
    simp only [Envs.keys, List.map_cons, List.nodup_cons] at hk
    rcases List.mem_cons.mp h with h | h
    · subst h; simp [Envs.get?]
    · have hne : kv.1 ≠ name := by
        intro heq
        apply hk.1
        rw [heq]
        exact List.mem_map_of_mem (fun kv => kv.1) h
      simp only [Envs.get?, hne, if_false]
      exact ih hk.2 h

theorem Envs.get?_filter_ne (e : Envs) (name n : String) :
    (e.without name).get? n = if n = name then none else e.get? n := by
  unfold Envs.without
  induction e with
  | nil => simp [Envs.get?]
  | cons kv rest ih =>
    by_cases hk : kv.1 = name
    · simp only [List.filter_cons, hk, ne_eq, not_true_eq_false, decide_False,
        Bool.false_eq_true, if_false, ih, Envs.get?]
      by_cases hn : n = name
      · simp [hn]
      · have : ¬ name = n := fun h => hn h.symm
        simp [hn, this]
    · simp only [List.filter_cons, hk, ne_eq, not_false_eq_true, decide_True, if_true,
        Envs.get?, ih]
      by_cases hn : n = name
      · have : ¬ kv.1 = n := fun h => hk (h.trans hn)
        simp [hn, this, hk]
      · simp [hn]

theorem Envs.filter_write (e : Envs) (name : String) (w : Write) :
    (e.write w).without name = (e.without name).write w := by
  unfold Envs.without
  cases w with
  | Value m x =>
    simp only [Envs.write, Envs.SetValue, List.filter_map]
    congr 1
    apply List.filter_congr
    intro kv _
    simp only [Function.comp]
    split <;> rfl
  | ExternalValue m x =>
    simp only [Envs.write, Envs.SetExternalValue, List.filter_map]
    congr 1
    apply List.filter_congr
    intro kv _
    simp only [Function.comp]
    split <;> rfl

theorem Envs.filter_writes (ws : List Write) (e : Envs) (name : String) :
    (e.writes ws).without name = (e.without name).writes ws := by
  induction ws generalizing e with
  | nil => rfl
  | cons w rest ih =>
    simp only [Envs.writes, List.foldl_cons] at ih ⊢
    rw [ih, Envs.filter_write]

theorem envName_of_mem_fieldCalls (S : String) (c : consul.Consul) (n : String)
    (p : EnvParams) (x : Call) (hx : x ∈ fieldCalls S c n p) : x.envName = n := by
  unfold fieldCalls at hx
  simp only [List.mem_append, List.mem_singleton] at hx
  rcases hx with rfl | hx
  · rfl
  · split at hx
    · simp only [List.mem_append] at hx
      rcases hx with hx | hx
      · split at hx
        · simp only [List.mem_append, List.mem_singleton] at hx
          rcases hx with rfl | hx
          · rfl
          · split at hx
            · simp only [List.mem_singleton] at hx; subst hx; rfl
            · simp at hx
        · simp at hx
      · split at hx
        · simp only [List.mem_singleton] at hx; subst hx; rfl
        · simp at hx
    · split at hx
      · simp only [List.mem_singleton] at hx; subst hx; rfl
      · simp at hx

/-- A field whose fetch reports key-not-found with no bytes is not set from
its override and its iteration returns no error. -/
theorem not_settable_of_key_not_found (c : consul.Consul) (v : vault.Vault) (name : String)
    (p : EnvParams)
    (hfetch : c.GetValue (consulPath p) name = ([], some GoError.ErrKeyNotExist)) :
    ¬ Settable c name p ∧ ¬ FieldFails c v name p := by
  have hns : ¬ Settable c name p := by
    intro hs
    apply hs.2.1
    simp only [override, hfetch]
  refine ⟨hns, ?_⟩
  rintro (h | h)
  · simp [hfetch, hardError, GoError.isKeyNotExist] at h
  · exact hns h.1

theorem loopWrites_filter (c : consul.Consul) (v : vault.Vault) (reg : Envs)
    (order : List String) (name : String)
    (hns : ∀ p, reg.get? name = some p → ¬ Settable c name p) :
    loopWrites c v (reg.without name)
        (order.filter (fun n => decide (n ≠ name))) =
      loopWrites c v reg order := by
  induction order with
  | nil => rfl
  | cons n rest ih =>
    by_cases hn : n = name
    · subst hn
      simp only [List.filter_cons, ne_eq, not_true_eq_false, decide_False, Bool.false_eq_true,
        if_false, ih, loopWrites]
      cases hg : reg.get? n with
      | none => rfl
      | some p => simp [fieldWrites, hns p hg]
    · simp only [List.filter_cons, ne_eq, hn, not_false_eq_true, decide_True, if_true,
        loopWrites, ih, Envs.get?_filter_ne, if_false]

theorem loopCalls_filter (S : String) (c : consul.Consul) (reg : Envs)
    (order : List String) (name : String) :
    loopCalls S c (reg.without name)
        (order.filter (fun n => decide (n ≠ name))) =
      (loopCalls S c reg order).filter (fun x => decide (x.envName ≠ name)) := by
  induction order with
  | nil => rfl
  | cons n rest ih =>
    by_cases hn : n = name
    · subst hn
      simp only [List.filter_cons, ne_eq, not_true_eq_false, decide_False, Bool.false_eq_true,
        if_false, ih, loopCalls, List.filter_append]
      have : List.filter (fun x => decide (¬ x.envName = n))
          (match reg.get? n with
            | none => []
            | some params => fieldCalls S c n params) = [] := by
        rw [List.filter_eq_nil_iff]
        intro x hx
        cases hg : reg.get? n with
        | none => simp [hg] at hx
        | some p =>
          simp only [hg] at hx
          simp [envName_of_mem_fieldCalls S c n p x hx]
      rw [this, List.nil_append]
    · simp only [List.filter_cons, ne_eq, hn, not_false_eq_true, decide_True, if_true,
        loopCalls, ih, Envs.get?_filter_ne, if_false, List.filter_append]
      congr 1
      symm
      rw [List.filter_eq_self]
      intro x hx
      cases hg : reg.get? n with
      | none => simp [hg] at hx
      | some p =>
        simp only [hg] at hx
        simp [envName_of_mem_fieldCalls S c n p x hx, hn]

/-- After the stores of one iteration of a field that is set from its override
and has a linked field, the linked field holds the endpoint list, also when
the field links to itself. -/
theorem fieldWrites_linked_Value (c : consul.Consul) (v : vault.Vault) (n : String)
    (p target : EnvParams) (hs : Settable c n p) (hf : p.DiscoveryField ≠ "") :
    ((fieldWrites c v n p).foldl (fun q w => w.applyTo p.DiscoveryField q) target).Value =
      some (GoValue.addrs (c.GetServiceAddress (override c n p)).1) := by
  unfold fieldWrites
  rw [if_pos hs, if_pos hf]
  by_cases hsec : p.IsSecret = true
  · rw [if_pos hsec]
    by_cases hself : p.DiscoveryField = n
    · simp [Write.applyTo, hself]
    · simp [Write.applyTo, hself]
  · rw [if_neg hsec]
    by_cases hself : p.DiscoveryField = n
    · simp [Write.applyTo, hself]
    · simp [Write.applyTo, hself]

/-! ## The claims on the remote resolver -/

/-- C1. After a successful run of the resolver on a registry that was just
built (distinct keys, nothing resolved, discovery links leading to derived
fields), visited in any order, every registered field that is not the
discovery-link target of another field has the fetched override, converted to
a string, as its `Value` exactly when it is not structured, not Discovery-class
and the override is not empty; otherwise its `Value` and `ExternalValue` are
`nil` and no discovery or secret lookup is made in its iteration. -/
theorem C1_value_is_override_iff_settable (s : cfgService) (c : consul.Consul)
    (v : vault.Vault) (hc : s.consulClient = some c) (hv : s.vaultClient = some v)
    (reg : Envs) (order : List String) (hk : reg.keys.Nodup) (hperm : order.Perm reg.keys)
    (hu : reg.Unresolved) (hl : reg.LinksDerived)
    (out : Envs) (calls : List Call) (hrun : s.resolve reg order = .ok (out, calls))
    (name : String) (p : EnvParams) (hp : (name, p) ∈ reg)
    (hnot : ∀ kv ∈ reg, kv.1 ≠ name → ¬ LinksTo kv.2 name) :
    s.getDataFromConsulAndVault reg order = (some out, none) ∧
    ∃ q, out.get? name = some q ∧
      (q.Value = some (GoValue.str (String.mk (c.GetValue (consulPath p) name).1)) ↔
        (p.IsJson = false ∧ p.ConfigType ≠ ConfigType.ConfigTypeDiscovery ∧
          (c.GetValue (consulPath p) name).1 ≠ [])) ∧
      (¬ (p.IsJson = false ∧ p.ConfigType ≠ ConfigType.ConfigTypeDiscovery ∧
          (c.GetValue (consulPath p) name).1 ≠ []) →
        q.Value = none ∧ q.ExternalValue = none ∧
          ∀ x, Call.GetServiceAddress name x ∉ calls ∧ Call.GetSecret name x ∉ calls) := by
  have hget := Envs.get?_of_mem reg hk name p hp
  have hmem : name ∈ order := hperm.symm.subset (mem_keys_of_get? reg name p hget)
  obtain ⟨_, _, hcalls⟩ := resolve_ok_inv s c v hc hv reg order out calls hrun
  have hset : Settable c name p ↔ (p.IsJson = false ∧
      p.ConfigType ≠ ConfigType.ConfigTypeDiscovery ∧ (c.GetValue (consulPath p) name).1 ≠ []) := by
    unfold Settable override
    rw [Ne, mk_eq_empty_iff]
    tauto
  obtain ⟨q, hq, _, hext, _, hval⟩ :=
    resolve_field_result s c v hc hv reg order out calls hrun name p hget
  have hlink : ∀ n q0, n ∈ order → reg.get? n = some q0 → Settable c n q0 → ¬ LinksTo q0 name := by
    intro n q0 _ hq0 hs hlk
    by_cases hn : n = name
    · subst hn
      rw [hget] at hq0; cases hq0
      exact hs.2.2 (hl (n, p) hp hs.2.2 hlk.1 (n, p) hp hlk.2.symm)
    · exact hnot (n, q0) (Envs.mem_of_get? reg n q0 hq0) hn hlk
  have hval := hval hlink
  have hunres := hu (name, p) hp
  simp only at hunres
  refine ⟨(getData_eq_ok s reg order out).mpr ⟨calls, hrun⟩, q, hq, ?_, ?_⟩
  · rw [← hset, hval]
    by_cases hs : Settable c name p
    · simp [hs, hmem, override]
    · simp [hs, hunres.1]
  · intro hns
    rw [← hset] at hns
    refine ⟨?_, ?_, ?_⟩
    · rw [hval]; simp [hns, hunres.1]
    · rw [hext]; simp [hns, hunres.2]
    · intro x
      rw [hcalls]
      constructor
      · intro hx
        rw [mem_loopCalls] at hx
        obtain ⟨n, _, q0, hq0, hx⟩ := hx
        rw [mem_fieldCalls_GetServiceAddress] at hx
        obtain ⟨hs, _, rfl, _⟩ := hx
        rw [hget] at hq0; cases hq0
        exact hns hs
      · intro hx
        rw [mem_loopCalls] at hx
        obtain ⟨n, _, q0, hq0, hx⟩ := hx
        rw [mem_fieldCalls_GetSecret] at hx
        obtain ⟨hs, _, rfl, _⟩ := hx
        rw [hget] at hq0; cases hq0
        exact hns hs

/-- C1 at the field `SERVICE_NAME` of the stand `dev`: its `Value` is the
override `rate-limit`. -/
theorem C1_value_is_override_iff_settable_witness :
    (demoRun.1.get? "SERVICE_NAME").map EnvParams.Value =
      some (some (GoValue.str "rate-limit")) := by
  obtain ⟨_, q, hq, hiff, _⟩ := C1_value_is_override_iff_settable demoService
    demoConsulService.toConsul demoVaultService.toVault rfl rfl demoRegistry demoRegistry.keys
    (by decide) (List.Perm.refl _) (by decide) (by decide) demoRun.1 demoRun.2 (by rfl)
    "SERVICE_NAME" (demoParams .ConfigTypeLocal false false "") (by decide) (by decide)
  rw [hq]
  show some q.Value = _
  rw [hiff.mpr ⟨rfl, by decide, by decide⟩]
  rfl

/-- C2 as stated fails on the stand `dev`: the fetch for `POSTGRES_ADDRS`
reports key-not-found with no bytes and the run succeeds, yet the field is not
left unset: its `Value` is the endpoint list looked up for
`DISCOVERY_POSTGRES_SERVICE`, which links to it. -/
theorem C2_counterexample_linked_field_is_set :
    demoConsulService.toConsul.GetValue "local" "POSTGRES_ADDRS" =
      ([], some GoError.ErrKeyNotExist) ∧
    demoService.getDataFromConsulAndVault demoRegistry demoRegistry.keys =
      (some demoRun.1, none) ∧
    (demoRun.1.get? "POSTGRES_ADDRS").map EnvParams.Value =
      some (some (GoValue.addrs
        [{ Address := "10.0.0.1", Port := 5432 }, { Address := "10.0.0.2", Port := 5432 }])) ∧
    (demoRun.1.get? "POSTGRES_ADDRS").map EnvParams.Value ≠ some none := by
  refine ⟨by rfl, by rfl, by rfl, by decide⟩

/-- C2, amended. If the fetch for a registered field reports key-not-found
with no bytes, the resolver does not fail because of it and resolves every
remaining field exactly as on the registry without that field: a successful
run without the field is a successful run with it, with the same descriptors
for the remaining fields and the same calls for them, and conversely. The
iteration of the field itself stores nothing and makes no discovery or secret
lookup: its `ExternalValue` is `nil`, and its `Value` is `nil` unless a field
that is set from its override links to it, in which case it is the endpoint
list looked up for such a field. -/
theorem C2_key_not_found_is_no_override (s : cfgService) (c : consul.Consul)
    (v : vault.Vault) (hc : s.consulClient = some c) (hv : s.vaultClient = some v)
    (reg : Envs) (order : List String) (hk : reg.keys.Nodup) (hu : reg.Unresolved)
    (name : String) (p : EnvParams) (hp : (name, p) ∈ reg)
    (hfetch : c.GetValue (consulPath p) name = ([], some GoError.ErrKeyNotExist)) :
    (∀ out1 calls1,
      s.resolve (reg.without name) (order.filter (fun n => decide (n ≠ name))) =
        .ok (out1, calls1) →
      ∃ out calls, s.resolve reg order = .ok (out, calls) ∧ out.without name = out1 ∧
        calls.filter (fun x => decide (x.envName ≠ name)) = calls1) ∧
    (∀ out calls, s.resolve reg order = .ok (out, calls) →
      s.resolve (reg.without name) (order.filter (fun n => decide (n ≠ name))) =
        .ok (out.without name, calls.filter (fun x => decide (x.envName ≠ name))) ∧
      ∃ q, out.get? name = some q ∧ q.ExternalValue = none ∧
        (q.Value = none ∨ ∃ kv ∈ reg, LinksTo kv.2 name ∧ Settable c kv.1 kv.2 ∧
          q.Value = some (GoValue.addrs (c.GetServiceAddress (override c kv.1 kv.2)).1)) ∧
        ((∀ kv ∈ reg, ¬ LinksTo kv.2 name) → q.Value = none) ∧
        ∀ x, Call.GetServiceAddress name x ∉ calls ∧ Call.GetSecret name x ∉ calls) := by
  have hget := Envs.get?_of_mem reg hk name p hp
  obtain ⟨hns, hnf⟩ := not_settable_of_key_not_found c v name p hfetch
  have hns2 : ∀ p0, reg.get? name = some p0 → ¬ Settable c name p0 := by
    intro p0 h0; rw [hget] at h0; cases h0; exact hns
  have hunres := hu (name, p) hp
  simp only at hunres
  -- the two runs fail together
  have hfail : (∀ n ∈ order, ∀ q, reg.get? n = some q → ¬ FieldFails c v n q) ↔
      (∀ n ∈ order.filter (fun n => decide (n ≠ name)), ∀ q,
        (reg.without name).get? n = some q → ¬ FieldFails c v n q) := by
    constructor
    · intro h n hn q hq
      simp only [List.mem_filter, decide_eq_true_eq] at hn
      rw [Envs.get?_filter_ne, if_neg hn.2] at hq
      exact h n hn.1 q hq
    · intro h n hn q hq
      by_cases hnn : n = name
      · subst hnn; rw [hget] at hq; cases hq; exact hnf
      · apply h n _ q
        · rw [Envs.get?_filter_ne, if_neg hnn]; exact hq
        · simp only [List.mem_filter, decide_eq_true_eq]; exact ⟨hn, hnn⟩
  have hwith : ∀ out calls, s.resolve reg order = .ok (out, calls) →
      s.resolve (reg.without name) (order.filter (fun n => decide (n ≠ name))) =
        .ok (out.without name, calls.filter (fun x => decide (x.envName ≠ name))) := by
    intro out calls hrun
    obtain ⟨hok, hout, hcalls⟩ := resolve_ok_inv s c v hc hv reg order out calls hrun
    rw [resolve_ok s c v hc hv _ _ (hfail.mp hok), hout, hcalls, Envs.filter_writes,
      loopWrites_filter c v reg order name hns2, loopCalls_filter]
  refine ⟨?_, ?_⟩
  · intro out1 calls1 hrun1
    obtain ⟨hok1, _, _⟩ := resolve_ok_inv s c v hc hv _ _ out1 calls1 hrun1
    have hrun := resolve_ok s c v hc hv reg order (hfail.mpr hok1)
    have h2 := hwith _ _ hrun
    rw [hrun1] at h2
    simp only [Except.ok.injEq, Prod.mk.injEq] at h2
    exact ⟨_, _, hrun, h2.1.symm, h2.2.symm⟩
  · intro out calls hrun
    refine ⟨hwith out calls hrun, ?_⟩
    obtain ⟨_, _, hcalls⟩ := resolve_ok_inv s c v hc hv reg order out calls hrun
    obtain ⟨q, hq, _, hext, hcases, hval⟩ :=
      resolve_field_result s c v hc hv reg order out calls hrun name p hget
    refine ⟨q, hq, ?_, ?_, ?_, ?_⟩
    · rw [hext]; simp [hns, hunres.2]
    · rcases hcases with h | h
      · left; rw [h, hunres.1]
      · rw [mem_loopWrites] at h
        obtain ⟨n, _, q0, hq0, hw⟩ := h
        rw [mem_fieldWrites_Value] at hw
        obtain ⟨hs, ⟨rfl, _⟩ | ⟨hf, hm, hx⟩⟩ := hw
        · rw [hget] at hq0; cases hq0; exact absurd hs hns
        · right
          exact ⟨(n, q0), Envs.mem_of_get? reg n q0 hq0, ⟨hf, hm.symm⟩, hs, hx⟩
    · intro hno
      rw [hval (fun n q0 _ hq0 _ => hno (n, q0) (Envs.mem_of_get? reg n q0 hq0))]
      simp [hns, hunres.1]
    · intro x
      rw [hcalls]
      constructor
      · intro hx
        rw [mem_loopCalls] at hx
        obtain ⟨n, _, q0, hq0, hx⟩ := hx
        rw [mem_fieldCalls_GetServiceAddress] at hx
        obtain ⟨hs, _, rfl, _⟩ := hx
        rw [hget] at hq0; cases hq0
        exact hns hs
      · intro hx
        rw [mem_loopCalls] at hx
        obtain ⟨n, _, q0, hq0, hx⟩ := hx
        rw [mem_fieldCalls_GetSecret] at hx
        obtain ⟨hs, _, rfl, _⟩ := hx
        rw [hget] at hq0; cases hq0
        exact hns hs

/-- C2 at the field `REDIS_ADDR` of the stand `dev`, which has no key in the
store: the run succeeds and leaves its `Value` unset. -/
theorem C2_key_not_found_is_no_override_witness :
    (demoRun.1.get? "REDIS_ADDR").map EnvParams.Value = some none := by
  obtain ⟨_, h⟩ := C2_key_not_found_is_no_override demoService
    demoConsulService.toConsul demoVaultService.toVault rfl rfl demoRegistry demoRegistry.keys
    (by decide) (by decide) "REDIS_ADDR" (demoParams .ConfigTypeLocal false false "")
    (by decide) (by rfl)
  obtain ⟨_, q, hq, _, _, hval, _⟩ := h demoRun.1 demoRun.2 (by rfl)
  rw [hq]
  show some q.Value = _
  rw [hval (by decide)]

/-- C3. Any failing remote fetch aborts the whole cycle: if for some registered
field, structured or not, `GetValue` returns an error other than
key-not-found, or if the secret fetch fails for a secret field that is not
structured, not Discovery-class and has a non-empty override, then
`getDataFromConsulAndVault` returns an error and a `nil` snapshot, in every
visit order and whatever the clients return for the other fields. -/
theorem C3_failing_fetch_aborts_cycle (s : cfgService) (c : consul.Consul)
    (v : vault.Vault) (hc : s.consulClient = some c) (hv : s.vaultClient = some v)
    (reg : Envs) (order : List String) (hk : reg.keys.Nodup) (hperm : order.Perm reg.keys)
    (name : String) (p : EnvParams) (hp : (name, p) ∈ reg)
    (hfail :
      (∃ e, (c.GetValue (consulPath p) name).2 = some e ∧ e.isKeyNotExist = false) ∨
      (p.IsSecret = true ∧ p.IsJson = false ∧
        p.ConfigType ≠ ConfigType.ConfigTypeDiscovery ∧
        (c.GetValue (consulPath p) name).1 ≠ [] ∧
        ∃ e, (v.GetSecret (String.mk (c.GetValue (consulPath p) name).1)).2 = some e)) :
    ∃ e, s.getDataFromConsulAndVault reg order = (none, some e) := by
  have hget := Envs.get?_of_mem reg hk name p hp
  have hmem : name ∈ order := hperm.symm.subset (mem_keys_of_get? reg name p hget)
  have hff : FieldFails c v name p := by
    rcases hfail with ⟨e, he, hne⟩ | ⟨hsec, hj, hd, hb, e, he⟩
    · left
      simp [he, hardError, hne]
    · by_cases hg : (hardError (c.GetValue (consulPath p) name).2).isSome = true
      · left; exact hg
      · right
        refine ⟨⟨hj, ?_, hd⟩, Or.inr ⟨hsec, ?_⟩⟩
        · simp only [override, Ne, mk_eq_empty_iff]; exact hb
        · simp [override, he]
  obtain ⟨e, he⟩ := resolve_error s c v hc hv reg order ⟨name, hmem, p, hget, hff⟩
  exact ⟨e, by simp [cfgService.getDataFromConsulAndVault, he]⟩

/-- C3 on the stand `dev` with a vault that is sealed: the secret fetch for
`REDIS_PASS` fails and no snapshot is returned. -/
theorem C3_failing_fetch_aborts_cycle_witness :
    (cfgService.getDataFromConsulAndVault
      { StandName := "dev", consulClient := some demoConsulService.toConsul,
        vaultClient := some { GetSecret := fun _ => (none, some (GoError.message "sealed")) } }
      demoRegistry demoRegistry.keys).1 = none := by
  obtain ⟨e, he⟩ := C3_failing_fetch_aborts_cycle
    { StandName := "dev", consulClient := some demoConsulService.toConsul,
      vaultClient := some { GetSecret := fun _ => (none, some (GoError.message "sealed")) } }
    demoConsulService.toConsul
    { GetSecret := fun _ => (none, some (GoError.message "sealed")) } rfl rfl
    demoRegistry demoRegistry.keys (by decide) (List.Perm.refl _)
    "REDIS_PASS" (demoParams .ConfigTypeLocal true false "") (by decide)
    (Or.inr ⟨rfl, rfl, by decide, by decide, _, rfl⟩)
  rw [he]

/-- C4. After a successful resolution of a registry that was just built, every
field that is secret, not structured, not Discovery-class and has a non-empty
override `path` has as `ExternalValue` the value the secret store returned for
`path` and as `Value` the path itself; and every call of the secret store is
made for such a field, with its override as the path. -/
theorem C4_secret_is_resolved_through_vault (s : cfgService) (c : consul.Consul)
    (v : vault.Vault) (hc : s.consulClient = some c) (hv : s.vaultClient = some v)
    (reg : Envs) (order : List String) (hk : reg.keys.Nodup) (hperm : order.Perm reg.keys)
    (hl : reg.LinksDerived)
    (out : Envs) (calls : List Call) (hrun : s.resolve reg order = .ok (out, calls)) :
    s.getDataFromConsulAndVault reg order = (some out, none) ∧
    (∀ name p, (name, p) ∈ reg → p.IsSecret = true → p.IsJson = false →
      p.ConfigType ≠ ConfigType.ConfigTypeDiscovery →
      (c.GetValue (consulPath p) name).1 ≠ [] →
      ∃ q, out.get? name = some q ∧
        q.ExternalValue = (v.GetSecret (String.mk (c.GetValue (consulPath p) name).1)).1 ∧
        q.Value = some (GoValue.str (String.mk (c.GetValue (consulPath p) name).1))) ∧
    (∀ m x, Call.GetSecret m x ∈ calls →
      ∃ p, (m, p) ∈ reg ∧ p.IsSecret = true ∧ p.IsJson = false ∧
        p.ConfigType ≠ ConfigType.ConfigTypeDiscovery ∧
        (c.GetValue (consulPath p) m).1 ≠ [] ∧
        x = String.mk (c.GetValue (consulPath p) m).1) := by
  obtain ⟨_, _, hcalls⟩ := resolve_ok_inv s c v hc hv reg order out calls hrun
  refine ⟨(getData_eq_ok s reg order out).mpr ⟨calls, hrun⟩, ?_, ?_⟩
  · intro name p hp hsec hj hd hb
    have hget := Envs.get?_of_mem reg hk name p hp
    have hmem : name ∈ order := hperm.symm.subset (mem_keys_of_get? reg name p hget)
    have hs : Settable c name p :=
      ⟨hj, by simp only [override, Ne, mk_eq_empty_iff]; exact hb, hd⟩
    obtain ⟨q, hq, _, hext, _, hval⟩ :=
      resolve_field_result s c v hc hv reg order out calls hrun name p hget
    refine ⟨q, hq, ?_, ?_⟩
    · rw [hext]; simp [hmem, hs, hsec, override]
    · rw [hval]
      · simp [hmem, hs, override]
      · intro n q0 _ hq0 hs0 hlk
        exact hd (hl (n, q0) (Envs.mem_of_get? reg n q0 hq0) hs0.2.2 hlk.1 (name, p) hp
          hlk.2.symm)
  · intro m x hx
    rw [hcalls, mem_loopCalls] at hx
    obtain ⟨n, _, q0, hq0, hx⟩ := hx
    rw [mem_fieldCalls_GetSecret] at hx
    obtain ⟨hs, hsec, rfl, rfl⟩ := hx
    refine ⟨q0, Envs.mem_of_get? reg m q0 hq0, hsec, hs.1, hs.2.2, ?_, rfl⟩
    have := hs.2.1
    simpa only [override, Ne, mk_eq_empty_iff] using this

/-- C4 at the field `REDIS_PASS` of the stand `dev`: the snapshot holds the
secret stored under the path `secret/redis`. -/
theorem C4_secret_is_resolved_through_vault_witness :
    (demoRun.1.get? "REDIS_PASS").map EnvParams.ExternalValue =
      some (some (GoValue.str "hunter2")) := by
  obtain ⟨_, h, _⟩ := C4_secret_is_resolved_through_vault demoService
    demoConsulService.toConsul demoVaultService.toVault rfl rfl demoRegistry demoRegistry.keys
    (by decide) (List.Perm.refl _) (by decide) demoRun.1 demoRun.2 (by rfl)
  obtain ⟨q, hq, hext, _⟩ := h "REDIS_PASS" (demoParams .ConfigTypeLocal true false "")
    (by decide) rfl rfl (by decide) (by decide)
  rw [hq]
  show some q.ExternalValue = _
  rw [hext]
  rfl

/-- C5. A Discovery-class field is never set by direct override. Whatever bytes
the store returns for its key without an error, also non-empty ones, its
iteration succeeds, leaves the map as it is and makes no discovery or secret
lookup; and in the snapshot of a successful run on a registry that was just
built, the `Value` of a Discovery-class field is not a string, its
`ExternalValue` is `nil`, and its `Value` is `nil` or the endpoint list that
the discovery lookup returned for a field that links to it. -/
theorem C5_discovery_field_is_never_overridden (s : cfgService) (c : consul.Consul)
    (v : vault.Vault) (hc : s.consulClient = some c) (hv : s.vaultClient = some v)
    (reg : Envs) (order : List String) (hk : reg.keys.Nodup) (hu : reg.Unresolved)
    (name : String) (p : EnvParams) (hp : (name, p) ∈ reg)
    (hd : p.ConfigType = ConfigType.ConfigTypeDiscovery) :
    (∀ result : Envs, (c.GetValue (consulPath p) name).2 = none →
      ∃ t, resolveField s.StandName c v name p result = .ok (result, t) ∧
        ∀ x, Call.GetServiceAddress name x ∉ t ∧ Call.GetSecret name x ∉ t) ∧
    (∀ out calls, s.resolve reg order = .ok (out, calls) →
      ∃ q, out.get? name = some q ∧
        (∀ str, q.Value ≠ some (GoValue.str str)) ∧
        q.ExternalValue = none ∧
        (q.Value = none ∨ ∃ kv ∈ reg, LinksTo kv.2 name ∧ Settable c kv.1 kv.2 ∧
          q.Value = some (GoValue.addrs (c.GetServiceAddress (override c kv.1 kv.2)).1)) ∧
        ∀ x, Call.GetServiceAddress name x ∉ calls ∧ Call.GetSecret name x ∉ calls) := by
  have hget := Envs.get?_of_mem reg hk name p hp
  have hns : ¬ Settable c name p := fun hs => hs.2.2 hd
  have hunres := hu (name, p) hp
  simp only at hunres
  refine ⟨?_, ?_⟩
  · intro result herr
    have hnf : ¬ FieldFails c v name p := by
      rintro (h | h)
      · simp [herr, hardError] at h
      · exact hns h.1
    refine ⟨fieldCalls s.StandName c name p, ?_, ?_⟩
    · rw [resolveField_of_not_fails s.StandName c v name p result hnf]
      simp [fieldWrites, hns, Envs.writes]
    · intro x
      rw [mem_fieldCalls_GetServiceAddress, mem_fieldCalls_GetSecret]
      exact ⟨fun h => hns h.1, fun h => hns h.1⟩
  · intro out calls hrun
    obtain ⟨_, _, hcalls⟩ := resolve_ok_inv s c v hc hv reg order out calls hrun
    obtain ⟨q, hq, _, hext, hcases, _⟩ :=
      resolve_field_result s c v hc hv reg order out calls hrun name p hget
    have hlist : q.Value = none ∨ ∃ kv ∈ reg, LinksTo kv.2 name ∧ Settable c kv.1 kv.2 ∧
        q.Value = some (GoValue.addrs (c.GetServiceAddress (override c kv.1 kv.2)).1) := by
      rcases hcases with h | h
      · left; rw [h, hunres.1]
      · rw [mem_loopWrites] at h
        obtain ⟨n, _, q0, hq0, hw⟩ := h
        rw [mem_fieldWrites_Value] at hw
        obtain ⟨hs, ⟨rfl, _⟩ | ⟨hf, hm, hx⟩⟩ := hw
        · rw [hget] at hq0; cases hq0; exact absurd hs hns
        · right
          exact ⟨(n, q0), Envs.mem_of_get? reg n q0 hq0, ⟨hf, hm.symm⟩, hs, hx⟩
    refine ⟨q, hq, ?_, ?_, hlist, ?_⟩
    · intro str hstr
      rcases hlist with h | ⟨_, _, _, _, h⟩
      · rw [h] at hstr; cases hstr
      · rw [h] at hstr; cases hstr
    · rw [hext]; simp [hns, hunres.2]
    · intro x
      rw [hcalls]
      constructor
      · intro hx
        rw [mem_loopCalls] at hx
        obtain ⟨n, _, q0, hq0, hx⟩ := hx
        rw [mem_fieldCalls_GetServiceAddress] at hx
        obtain ⟨hs, _, rfl, _⟩ := hx
        rw [hget] at hq0; cases hq0
        exact hns hs
      · intro hx
        rw [mem_loopCalls] at hx
        obtain ⟨n, _, q0, hq0, hx⟩ := hx
        rw [mem_fieldCalls_GetSecret] at hx
        obtain ⟨hs, _, rfl, _⟩ := hx
        rw [hget] at hq0; cases hq0
        exact hns hs

/-- C5 at the field `RABBIT_ADDRS` of the stand `dev`, for which the store
holds the override `10.0.0.9:5672`: the run succeeds and the field stays
unset, since no field links to it. -/
theorem C5_discovery_field_is_never_overridden_witness :
    (demoConsulService.toConsul.GetValue "local" "RABBIT_ADDRS").1 = "10.0.0.9:5672".toList ∧
    (demoRun.1.get? "RABBIT_ADDRS").map EnvParams.Value = some none := by
  refine ⟨by rfl, ?_⟩
  obtain ⟨_, h⟩ := C5_discovery_field_is_never_overridden demoService
    demoConsulService.toConsul demoVaultService.toVault rfl rfl demoRegistry demoRegistry.keys
    (by decide) (by decide) "RABBIT_ADDRS" (demoParams .ConfigTypeDiscovery false false "")
    (by decide) rfl
  obtain ⟨q, hq, _, _, hlist, _⟩ := h demoRun.1 demoRun.2 (by rfl)
  rw [hq]
  show some q.Value = _
  rcases hlist with h | ⟨kv, hkv, hlk, _, _⟩
  · rw [h]
  · exact absurd hlk ((by decide : ∀ kv ∈ demoRegistry, ¬ LinksTo kv.2 "RABBIT_ADDRS") kv hkv)

/-- C6. Let a registered field have a non-empty `DiscoveryField`, be not
structured and not Discovery-class, and have a non-empty override, and let the
discovery lookup for that override return the list `l` without an error.
Then, for every stand name and also when `l` is empty, the iteration of the
field returns no error unless its secret fetch fails, it calls
`GetServiceAddress` with the override as service name, and in the map it
returns the linked field, if it is registered, has `Value` `l`. In a
successful run the call is among the calls made, and when the run is on a
registry that was just built and no other field links to the same field, the
snapshot holds `l` as the `Value` of the linked field. -/
theorem C6_discovery_link_stores_endpoints (s : cfgService) (c : consul.Consul)
    (v : vault.Vault) (hc : s.consulClient = some c) (hv : s.vaultClient = some v)
    (reg : Envs) (order : List String) (hk : reg.keys.Nodup) (hperm : order.Perm reg.keys)
    (name : String) (p : EnvParams) (hp : (name, p) ∈ reg)
    (hf : p.DiscoveryField ≠ "") (hj : p.IsJson = false)
    (hd : p.ConfigType ≠ ConfigType.ConfigTypeDiscovery)
    (hb : (c.GetValue (consulPath p) name).1 ≠ [])
    (hg : hardError (c.GetValue (consulPath p) name).2 = none)
    (l : consul.GetServiceAddressResponse)
    (hdisc : c.GetServiceAddress (String.mk (c.GetValue (consulPath p) name).1) = (l, none)) :
    (∀ (StandName : String) (result : Envs),
      (p.IsSecret = true →
        (v.GetSecret (String.mk (c.GetValue (consulPath p) name).1)).2 = none) →
      ∃ result1 t, resolveField StandName c v name p result = .ok (result1, t) ∧
        Call.GetServiceAddress name (String.mk (c.GetValue (consulPath p) name).1) ∈ t ∧
        ∀ target, result.get? p.DiscoveryField = some target →
          (result1.get? p.DiscoveryField).map EnvParams.Value =
            some (some (GoValue.addrs l))) ∧
    (∀ out calls, s.resolve reg order = .ok (out, calls) →
      Call.GetServiceAddress name (String.mk (c.GetValue (consulPath p) name).1) ∈ calls ∧
      (reg.LinksDerived →
        (∀ kv ∈ reg, kv.1 ≠ name → ¬ LinksTo kv.2 p.DiscoveryField) →
        ∀ target, (p.DiscoveryField, target) ∈ reg →
          (out.get? p.DiscoveryField).map EnvParams.Value =
            some (some (GoValue.addrs l)))) := by
  have hget := Envs.get?_of_mem reg hk name p hp
  have hmem : name ∈ order := hperm.symm.subset (mem_keys_of_get? reg name p hget)
  have hs : Settable c name p :=
    ⟨hj, by simp only [override, Ne, mk_eq_empty_iff]; exact hb, hd⟩
  have hw : Write.Value p.DiscoveryField (some (GoValue.addrs l)) ∈ fieldWrites c v name p := by
    rw [mem_fieldWrites_Value]
    exact ⟨hs, Or.inr ⟨hf, rfl, by simp [override, hdisc]⟩⟩
  have hcall : ∀ S, Call.GetServiceAddress name (String.mk (c.GetValue (consulPath p) name).1) ∈
      fieldCalls S c name p := by
    intro S
    rw [mem_fieldCalls_GetServiceAddress]
    exact ⟨hs, hf, rfl, rfl⟩
  refine ⟨?_, ?_⟩
  · intro StandName result hsecret
    have hnf : ¬ FieldFails c v name p := by
      rintro (h | ⟨_, ⟨_, h⟩ | ⟨hsec, h⟩⟩)
      · simp [hg] at h
      · simp [override, hdisc] at h
      · simp [override, hsecret hsec] at h
    refine ⟨_, _, resolveField_of_not_fails StandName c v name p result hnf, hcall StandName, ?_⟩
    intro target htarget
    rw [Envs.get?_writes, htarget]
    show some _ = _
    congr 1
    have hl2 : (c.GetServiceAddress (override c name p)).1 = l := by simp [override, hdisc]
    rw [fieldWrites_linked_Value c v name p target hs hf, hl2]
  · intro out calls hrun
    obtain ⟨_, hout, hcalls⟩ := resolve_ok_inv s c v hc hv reg order out calls hrun
    refine ⟨?_, ?_⟩
    · rw [hcalls, mem_loopCalls]
      exact ⟨name, hmem, p, hget, hcall _⟩
    · intro hl hsole target htarget
      have htget := Envs.get?_of_mem reg hk _ target htarget
      rw [hout, Envs.get?_writes, htget]
      show some _ = _
      congr 1
      rw [foldl_applyTo_Value_of_all p.DiscoveryField (some (GoValue.addrs l))]
      · rw [if_pos]
        rw [mem_loopWrites]
        exact ⟨name, hmem, p, hget, hw⟩
      · intro y hy
        rw [mem_loopWrites] at hy
        obtain ⟨n, _, q0, hq0, hy⟩ := hy
        have hq0mem := Envs.mem_of_get? reg n q0 hq0
        rw [mem_fieldWrites_Value] at hy
        obtain ⟨hs0, ⟨hn, _⟩ | ⟨hf0, hn, hy⟩⟩ := hy
        · exfalso
          subst hn
          rw [htget] at hq0; cases hq0
          exact hs0.2.2 (hl (name, p) hp hd hf (p.DiscoveryField, target) htarget rfl)
        · by_cases hnn : n = name
          · subst hnn
            rw [hget] at hq0; cases hq0
            rw [hy]; simp [override, hdisc]
          · exact absurd ⟨hf0, hn.symm⟩ (hsole (n, q0) hq0mem hnn)

/-- C6 at the field `DISCOVERY_POSTGRES_SERVICE` of the stand `dev`: the
snapshot holds the endpoints of the service `postgres` in `POSTGRES_ADDRS`. -/
theorem C6_discovery_link_stores_endpoints_witness :
    (demoRun.1.get? "POSTGRES_ADDRS").map EnvParams.Value =
      some (some (GoValue.addrs
        [{ Address := "10.0.0.1", Port := 5432 }, { Address := "10.0.0.2", Port := 5432 }])) := by
  obtain ⟨_, h⟩ := C6_discovery_link_stores_endpoints demoService
    demoConsulService.toConsul demoVaultService.toVault rfl rfl demoRegistry demoRegistry.keys
    (by decide) (List.Perm.refl _) "DISCOVERY_POSTGRES_SERVICE"
    (demoParams .ConfigTypeLocal false false "POSTGRES_ADDRS") (by decide) (by decide) rfl
    (by decide) (by decide) (by rfl)
    [{ Address := "10.0.0.1", Port := 5432 }, { Address := "10.0.0.2", Port := 5432 }] (by rfl)
  exact (h demoRun.1 demoRun.2 (by rfl)).2 (by decide) (by decide)
    (demoParams .ConfigTypeDiscovery false false "") (by decide)

end initialconfig

/-! ## Package `consul`: the claims on the store client -/

namespace consul

theorem existIn_iff (res : GetServiceAddressResponse) (ta : ServiceAddress) :
    existIn res ta = true ↔ ta.pair ∈ res.map GetServiceAddressResponseItem.pair := by
  induction res with
  | nil => simp [existIn]
  | cons i rest ih =>
    simp only [existIn, List.map_cons, List.mem_cons]
    by_cases h : i.Address = ta.Address ∧ i.Port = ta.Port
    · simp only [h, and_self, if_true, true_iff]
      left
      simp [ServiceAddress.pair, GetServiceAddressResponseItem.pair, h.1, h.2]
    · simp only [h, if_false, ih]
      constructor
      · intro hm; right; exact hm
      · rintro (hm | hm)
        · exfalso
          apply h
          simp only [ServiceAddress.pair, GetServiceAddressResponseItem.pair, Prod.mk.injEq] at hm
          exact ⟨hm.1.symm, hm.2.symm⟩
        · exact hm

theorem collect_eq_foldl (res : GetServiceAddressResponse) (r : List ServiceEntry) :
    collect res r = (taggedOf r).foldl addTagged res := by
  unfold collect taggedOf
  induction r generalizing res with
  | nil => rfl
  | cons item rest ih =>
    simp only [List.foldl_cons, List.flatMap_cons, List.foldl_append, List.foldl_map]
    exact ih _

theorem map_pair_addTagged (res : GetServiceAddressResponse) (ta : ServiceAddress) :
    (addTagged res ta).map GetServiceAddressResponseItem.pair =
      if ta.pair ∈ res.map GetServiceAddressResponseItem.pair
      then res.map GetServiceAddressResponseItem.pair
      else res.map GetServiceAddressResponseItem.pair ++ [ta.pair] := by
  unfold addTagged
  by_cases h : existIn res ta = true
  · rw [if_pos h, if_pos ((existIn_iff res ta).mp h)]
  · rw [if_neg h, if_neg (fun hm => h ((existIn_iff res ta).mpr hm))]
    simp [GetServiceAddressResponseItem.pair, ServiceAddress.pair]

/-- The invariant of the loops: the response has no pair twice and holds
exactly the pairs it started with and the pairs visited. -/
theorem foldl_addTagged_spec (tas : List ServiceAddress) (res : GetServiceAddressResponse)
    (hn : (res.map GetServiceAddressResponseItem.pair).Nodup) :
    ((tas.foldl addTagged res).map GetServiceAddressResponseItem.pair).Nodup ∧
    ∀ x, x ∈ (tas.foldl addTagged res).map GetServiceAddressResponseItem.pair ↔
      x ∈ res.map GetServiceAddressResponseItem.pair ∨ x ∈ tas.map ServiceAddress.pair := by
  induction tas generalizing res with
  | nil => simp [hn]
  | cons ta rest ih =>
    simp only [List.foldl_cons]
    have hn2 : ((addTagged res ta).map GetServiceAddressResponseItem.pair).Nodup := by
      rw [map_pair_addTagged]
      split
      · exact hn
      · rename_i hnot
        rw [List.nodup_append]
        refine ⟨hn, List.nodup_singleton _, ?_⟩
        intro a ha hb
        simp only [List.mem_singleton] at hb
        subst hb
        exact hnot ha
    obtain ⟨h1, h2⟩ := ih (addTagged res ta) hn2
    refine ⟨h1, ?_⟩
    intro x
    rw [h2, map_pair_addTagged]
    simp only [List.map_cons, List.mem_cons]
    split
    · rename_i hin
      constructor
      · rintro (h | h)
        · exact Or.inl h
        · exact Or.inr (Or.inr h)
      · rintro (h | h | h)
        · exact Or.inl h
        · subst h; exact Or.inl hin
        · exact Or.inr h
    · simp only [List.mem_append, List.mem_singleton]
      tauto

/-- C7. `GetServiceAddress` deduplicates endpoints by (address, port): for
every list of healthy entries the library returns, the response has no two
items with the same address and the same port, an (address, port) pair is in
the response exactly when it occurs among the tagged addresses of the entries,
and so the length of the response is the number of distinct pairs; entries
whose tagged addresses are `(h1,80)`, `(h1,80)`, `(h2,81)` yield exactly the
two endpoints `(h1,80)` and `(h2,81)`. -/
theorem C7_GetServiceAddress_deduplicates (s : service) (serviceName : String)
    (r : List ServiceEntry) (hr : s.healthService serviceName = .ok r) :
    (s.GetServiceAddress serviceName).2 = none ∧
    ((s.GetServiceAddress serviceName).1.map GetServiceAddressResponseItem.pair).Nodup ∧
    (∀ address port,
      ({ Address := address, Port := port } : GetServiceAddressResponseItem) ∈
          (s.GetServiceAddress serviceName).1 ↔
        ∃ ta ∈ taggedOf r, ta.Address = address ∧ ta.Port = port) ∧
    (s.GetServiceAddress serviceName).1.length =
      ((taggedOf r).map ServiceAddress.pair).toFinset.card ∧
    (∀ h1 h2 : String, (taggedOf r).map ServiceAddress.pair = [(h1, 80), (h1, 80), (h2, 81)] →
      (s.GetServiceAddress serviceName).1 =
        [{ Address := h1, Port := 80 }, { Address := h2, Port := 81 }]) := by
  have hres : s.GetServiceAddress serviceName = ((taggedOf r).foldl addTagged [], none) := by
    simp [service.GetServiceAddress, hr, collect_eq_foldl]
  obtain ⟨hnd, hmem⟩ := foldl_addTagged_spec (taggedOf r) [] (by simp)
  rw [hres]
  refine ⟨rfl, hnd, ?_, ?_, ?_⟩
  · intro address port
    have := hmem (address, port)
    simp only [List.map_nil, List.not_mem_nil, false_or, List.mem_map] at this
    constructor
    · intro h
      obtain ⟨ta, hta, heq⟩ := this.mp ⟨_, h, rfl⟩
      simp only [ServiceAddress.pair, Prod.mk.injEq] at heq
      exact ⟨ta, hta, heq⟩
    · rintro ⟨ta, hta, h1, h2⟩
      obtain ⟨i, hi, heq⟩ := this.mpr ⟨ta, hta, by simp [ServiceAddress.pair, h1, h2]⟩
      simp only [GetServiceAddressResponseItem.pair, Prod.mk.injEq] at heq
      obtain ⟨a, pt⟩ := i
      simp only at heq
      rw [← heq.1, ← heq.2]
      exact hi
  · show ((taggedOf r).foldl addTagged []).length = _
    rw [← List.length_map ((taggedOf r).foldl addTagged []) GetServiceAddressResponseItem.pair,
      ← List.toFinset_card_of_nodup hnd]
    congr 1
    ext x
    simp only [List.mem_toFinset]
    rw [hmem x]
    simp
  · intro h1 h2 h
    show (taggedOf r).foldl addTagged [] = _
    clear hmem hnd hres
    generalize taggedOf r = tas at h
    rcases tas with _ | ⟨a, _ | ⟨b, _ | ⟨c, _ | ⟨d, rest⟩⟩⟩⟩
    · simp at h
    · simp at h
    · simp at h
    · simp only [List.map_cons, List.map_nil, List.cons.injEq, and_true,
        ServiceAddress.pair, Prod.mk.injEq] at h
      obtain ⟨⟨ha1, ha2⟩, ⟨hb1, hb2⟩, hc1, hc2⟩ := h
      simp [addTagged, existIn, ha1, ha2, hb1, hb2, hc1, hc2]
    · simp at h

/-- C7 at the service `postgres` of the stand `dev`, which has the address
`10.0.0.1:5432` under two tags: the response holds it once. -/
theorem C7_GetServiceAddress_deduplicates_witness :
    (initialconfig.demoConsulService.GetServiceAddress "postgres").1.length = 2 := by
  have h := (C7_GetServiceAddress_deduplicates initialconfig.demoConsulService "postgres"
    _ rfl).2.2.2.1
  rw [h]
  decide

end consul

namespace initialconfig

/-- Every iteration that returns no error has fetched the override of its
field under the path computed from the classification. -/
theorem GetValue_mem_of_resolveField (S : String) (c : consul.Consul) (v : vault.Vault)
    (name : String) (p : EnvParams) (result result1 : Envs) (t : List Call)
    (h : resolveField S c v name p result = .ok (result1, t)) :
    Call.GetValue name (consulPath p) ∈ t := by
  by_cases hf : FieldFails c v name p
  · obtain ⟨e, he⟩ := resolveField_of_fails S c v name p result hf
    rw [he] at h; cases h
  · rw [resolveField_of_not_fails S c v name p result hf] at h
    simp only [Except.ok.injEq, Prod.mk.injEq] at h
    rw [← h.2]
    simp [fieldCalls]

/-- C8. The lookup namespace depends on the classification only: the resolver
fetches a Global field under the path `global` and a Local or Discovery field
under `local`, and the store client reads the key `<stand>/global/<name>` for
the former and `<stand>/local/<service>/<name>` for the latter, so that
exactly the fields that are not Global are scoped by the service name. -/
theorem C8_lookup_key_by_classification (s : consul.service) (name : String)
    (p : EnvParams) :
    (consulPath p = "global" ↔ p.ConfigType = ConfigType.ConfigTypeGlobal) ∧
    (consulPath p = "local" ↔ (p.ConfigType = ConfigType.ConfigTypeLocal ∨
      p.ConfigType = ConfigType.ConfigTypeDiscovery)) ∧
    (∀ (S : String) (c : consul.Consul) (v : vault.Vault) (result result1 : Envs)
      (t : List Call), resolveField S c v name p result = .ok (result1, t) →
        Call.GetValue name (consulPath p) ∈ t ∧
        ∀ path, Call.GetValue name path ∈ t → path = consulPath p) ∧
    s.fullPath (consulPath p) name =
      (if p.ConfigType = ConfigType.ConfigTypeGlobal
        then s.standName ++ "/global/" ++ name
        else s.standName ++ "/local/" ++ s.serviceName ++ "/" ++ name) ∧
    s.toConsul.GetValue (consulPath p) name =
      (match s.kvGet (s.fullPath (consulPath p) name) with
        | .error err => ([], some err)
        | .ok none => ([], some GoError.ErrKeyNotExist)
        | .ok (some pair) => (pair.Value, none)) := by
  refine ⟨?_, ?_, ?_, ?_, rfl⟩
  · unfold consulPath
    split <;> simp [*]
  · unfold consulPath
    cases h : p.ConfigType <;> simp
  · intro S c v result result1 t h
    refine ⟨GetValue_mem_of_resolveField S c v name p result result1 t h, ?_⟩
    intro path hpath
    by_cases hf : FieldFails c v name p
    · obtain ⟨e, he⟩ := resolveField_of_fails S c v name p result hf
      rw [he] at h; cases h
    · rw [resolveField_of_not_fails S c v name p result hf] at h
      simp only [Except.ok.injEq, Prod.mk.injEq] at h
      rw [← h.2] at hpath
      unfold fieldCalls at hpath
      simp only [List.mem_append, List.mem_singleton, Call.GetValue.injEq, true_and] at hpath
      rcases hpath with hpath | hpath
      · exact hpath
      · exfalso
        split at hpath
        · simp only [List.mem_append] at hpath
          rcases hpath with hpath | hpath
          · split at hpath
            · simp only [List.mem_append, List.mem_singleton] at hpath
              rcases hpath with hpath | hpath
              · cases hpath
              · split at hpath <;> simp at hpath
            · simp at hpath
          · split at hpath <;> simp at hpath
        · split at hpath <;> simp at hpath
  · unfold consul.service.fullPath consulPath
    by_cases hg : p.ConfigType = ConfigType.ConfigTypeGlobal
    · simp only [hg, if_true]
      have : ¬ ("global" = "local") := by decide
      simp only [this, if_false]
      simp only [String.append_assoc]
      rfl
    · simp only [hg, if_false, if_true]
      simp only [String.append_assoc]
      rfl

/-- C8 on the stand `dev`: the Global field `LOG_LEVEL` is read from
`dev/global/LOG_LEVEL` and the Local field `SERVICE_NAME` from
`dev/local/rate-limit/SERVICE_NAME`. -/
theorem C8_lookup_key_by_classification_witness :
    demoConsulService.fullPath (consulPath (demoParams .ConfigTypeGlobal false false ""))
        "LOG_LEVEL" = "dev/global/LOG_LEVEL" ∧
      demoConsulService.fullPath (consulPath (demoParams .ConfigTypeLocal false false ""))
        "SERVICE_NAME" = "dev/local/rate-limit/SERVICE_NAME" := by
  constructor
  · rw [(C8_lookup_key_by_classification demoConsulService "LOG_LEVEL"
      (demoParams .ConfigTypeGlobal false false "")).2.2.2.1]
    decide
  · rw [(C8_lookup_key_by_classification demoConsulService "SERVICE_NAME"
      (demoParams .ConfigTypeLocal false false "")).2.2.2.1]
    decide

end initialconfig

/-! ## The claims on the struct mutator -/

namespace initialconfig

theorem coerce_type (t : GoType) (raw w : GoValue) (h : coerce t raw = .ok w) :
    w.type = t := by
  unfold coerce at h
  by_cases hty : raw.type = t
  · rw [if_pos hty] at h
    cases h
    exact hty
  · rw [if_neg hty] at h
    cases t <;> cases raw <;> simp only [GoValue.type, reduceCtorEq, not_false_eq_true] at hty h <;>
      first
      | (cases h; rfl)
      | (split at h <;> first
          | (cases h; rfl)
          | cases h
          | (split at h <;> first | (cases h; rfl) | cases h))

theorem coerce_same (t : GoType) (raw : GoValue) (h : raw.type = t) :
    coerce t raw = .ok raw := by
  unfold coerce
  rw [if_pos h]

theorem StructValue.set_of_get_none (name : String) (raw : GoValue) (s : StructValue)
    (h : s.get name = none) : s.set name raw = none := by
  induction s with
  | nil => rfl
  | field tag value rest ih =>
    simp only [StructValue.get] at h
    by_cases ht : tag = name
    · simp [ht] at h
    · simp only [ht, if_false] at h
      simp [StructValue.set, ht, ih h]
  | embed inner rest ih1 ih2 =>
    simp only [StructValue.get] at h
    cases hi : StructValue.get name inner with
    | some x => simp [hi] at h
    | none =>
      simp only [hi] at h
      simp [StructValue.set, ih1 hi, ih2 h]

theorem StructValue.set_of_get (name : String) (raw : GoValue) (s : StructValue)
    (old : GoValue) (h : s.get name = some old) :
    (∀ e, coerce old.type raw = .error e → s.set name raw = some (.error e)) ∧
    (∀ w, coerce old.type raw = .ok w →
      ∃ s1, s.set name raw = some (.ok s1) ∧ s1.get name = some w) := by
  induction s with
  | nil => simp [StructValue.get] at h
  | field tag value rest ih =>
    simp only [StructValue.get] at h
    by_cases ht : tag = name
    · simp only [ht, if_true, Option.some.injEq] at h
      subst h
      refine ⟨?_, ?_⟩
      · intro e he
        simp [StructValue.set, ht, he, Except.map]
      · intro w hw
        refine ⟨StructValue.field tag w rest, ?_, ?_⟩
        · simp [StructValue.set, ht, hw, Except.map]
        · simp [StructValue.get, ht]
    · simp only [ht, if_false] at h
      obtain ⟨ih1, ih2⟩ := ih h
      refine ⟨?_, ?_⟩
      · intro e he
        simp [StructValue.set, ht, ih1 e he, Except.map]
      · intro w hw
        obtain ⟨s1, hs1, hg1⟩ := ih2 w hw
        refine ⟨StructValue.field tag value s1, ?_, ?_⟩
        · simp [StructValue.set, ht, hs1, Except.map]
        · simp [StructValue.get, ht, hg1]
  | embed inner rest ih1 ih2 =>
    simp only [StructValue.get] at h
    cases hi : StructValue.get name inner with
    | some x =>
      simp only [hi, Option.some.injEq] at h
      subst h
      obtain ⟨ihe, iho⟩ := ih1 hi
      refine ⟨?_, ?_⟩
      · intro e he
        simp [StructValue.set, ihe e he, Except.map]
      · intro w hw
        obtain ⟨s1, hs1, hg1⟩ := iho w hw
        refine ⟨StructValue.embed s1 rest, ?_, ?_⟩
        · simp [StructValue.set, hs1, Except.map]
        · simp [StructValue.get, hg1]
    | none =>
      simp only [hi] at h
      obtain ⟨ihe, iho⟩ := ih2 h
      have hnone := StructValue.set_of_get_none name raw inner hi
      refine ⟨?_, ?_⟩
      · intro e he
        simp [StructValue.set, hnone, ihe e he, Except.map]
      · intro w hw
        obtain ⟨s1, hs1, hg1⟩ := iho w hw
        refine ⟨StructValue.embed inner s1, ?_, ?_⟩
        · simp [StructValue.set, hnone, hs1, Except.map]
        · simp [StructValue.get, hi, hg1]

/-- What the mutator returns on a pointer, for a registered name and a raw
value that is not empty, when the struct has a field with that tag. -/
theorem Set_of_get (s : StructValue) (envs : Envs) (name : String) (raw old : GoValue)
    (hreg : envs.get? name ≠ none) (hraw : raw ≠ GoValue.str "")
    (hold : s.get name = some old) :
    (∀ e, coerce old.type raw = .error e →
      SetStructFieldValueByJsonTag (.pointer s) envs name (some raw) = (s, some e)) ∧
    (∀ w, coerce old.type raw = .ok w →
      ∃ s1, SetStructFieldValueByJsonTag (.pointer s) envs name (some raw) = (s1, none) ∧
        GetStructFieldValueByJsonTag (.pointer s1) name = some w) := by
  obtain ⟨h1, h2⟩ := StructValue.set_of_get name raw s old hold
  cases hg : envs.get? name with
  | none => exact absurd hg hreg
  | some p =>
    refine ⟨?_, ?_⟩
    · intro e he
      simp [SetStructFieldValueByJsonTag, hg, hraw, h1 e he]
    · intro w hw
      obtain ⟨s1, hs1, hg1⟩ := h2 w hw
      exact ⟨s1, by simp [SetStructFieldValueByJsonTag, hg, hraw, hs1],
        by simpa [GetStructFieldValueByJsonTag, ConfigArg.struct] using hg1⟩

/-- The model of the mutator passes the rows of the test `TestStructFields`:
the calls that must fail (a struct passed by value, the empty tag, the `nil`
value) do fail, and after each of the other calls the value read back is the
expected one. -/
theorem TestStructFields_rows :
    (SetStructFieldValueByJsonTag (.value testConfig) testEnvs "" none).2 ≠ none ∧
    (SetStructFieldValueByJsonTag (.pointer testConfig) testEnvs "" none).2 ≠ none ∧
    (SetStructFieldValueByJsonTag (.pointer testConfig) testEnvs "SERVICE_NAME" none).2 ≠ none ∧
    testRow "SERVICE_NAME" (some (.str "test")) = (some (.str "test"), none) ∧
    testRow "PROMETHEUS_PORT" (some (.str "1010")) = (some (.str "1010"), none) ∧
    testRow "REDIS_DB_INDEX" (some (.int 123)) = (some (.int 123), none) ∧
    testRow "POSTGRES_MAX_CONNS" (some (.int32 123)) = (some (.int32 123), none) ∧
    testRow "RABBIT_IS_SECURE" (some (.bool true)) = (some (.bool true), none) ∧
    testRow "REDIS_DB_INDEX" (some (.str "1")) = (some (.int 1), none) ∧
    testRow "POSTGRES_MAX_CONNS" (some (.str "123")) = (some (.int32 123), none) ∧
    testRow "RABBIT_IS_SECURE" (some (.str "true")) = (some (.bool true), none) ∧
    testRow "RABBIT_IS_SECURE" (some (.str "1")) = (some (.bool true), none) ∧
    testRow "POSTGRES_ADDRS" (some (.addrs [{ Address := "localhost", Port := 5432 }])) =
      (some (.addrs [{ Address := "localhost", Port := 5432 }]), none) ∧
    testRow "RABBIT_ADDRS" (some (.addrs [{ Address := "localhost", Port := 5673 }])) =
      (some (.addrs [{ Address := "localhost", Port := 5673 }]), none) := by
  decide

/-- C9. Set/Get round trip: whenever `SetStructFieldValueByJsonTag` succeeds
on a pointer to a configuration with a raw value, the name is registered, the
value is not empty, the configuration had a field with that tag, and a
subsequent `GetStructFieldValueByJsonTag` on the same name returns the raw
value coerced to the static type of that field: a value of that type, and the
raw value itself when it already has the type. Fields inside embedded and
nested structs are located like the others. -/
theorem C9_set_get_round_trip (s : StructValue) (envs : Envs) (name : String)
    (raw : GoValue) (s1 : StructValue)
    (hset : SetStructFieldValueByJsonTag (.pointer s) envs name (some raw) = (s1, none)) :
    envs.get? name ≠ none ∧ raw ≠ GoValue.str "" ∧
    ∃ old w, GetStructFieldValueByJsonTag (.pointer s) name = some old ∧
      coerce old.type raw = .ok w ∧
      GetStructFieldValueByJsonTag (.pointer s1) name = some w ∧
      w.type = old.type ∧ (raw.type = old.type → w = raw) := by
  have hreg : envs.get? name ≠ none := by
    intro h
    simp [SetStructFieldValueByJsonTag, h] at hset
  have hraw : raw ≠ GoValue.str "" := by
    intro h
    cases hg : envs.get? name with
    | none => exact hreg hg
    | some p => simp [SetStructFieldValueByJsonTag, hg, h] at hset
  refine ⟨hreg, hraw, ?_⟩
  cases hold : s.get name with
  | none =>
    exfalso
    cases hg : envs.get? name with
    | none => exact hreg hg
    | some p =>
      simp [SetStructFieldValueByJsonTag, hg, hraw,
        StructValue.set_of_get_none name raw s hold] at hset
  | some old =>
    obtain ⟨herr, hok⟩ := Set_of_get s envs name raw old hreg hraw hold
    cases hc : coerce old.type raw with
    | error e =>
      rw [herr e hc] at hset
      simp at hset
    | ok w =>
      obtain ⟨s2, hs2, hg2⟩ := hok w hc
      rw [hs2] at hset
      simp only [Prod.mk.injEq, and_true] at hset
      subst hset
      refine ⟨old, w, by simpa [GetStructFieldValueByJsonTag, ConfigArg.struct] using hold,
        hc, hg2, coerce_type _ _ _ hc, ?_⟩
      intro hty
      rw [coerce_same _ _ hty] at hc
      cases hc
      rfl

/-- C9 on the configuration of `TestStructFields`: after setting the nested
field `PROMETHEUS_PORT` to `1010`, reading it returns `1010`. -/
theorem C9_set_get_round_trip_witness :
    GetStructFieldValueByJsonTag
      (.pointer (SetStructFieldValueByJsonTag (.pointer testConfig) testEnvs
        "PROMETHEUS_PORT" (some (GoValue.str "1010"))).1) "PROMETHEUS_PORT" =
      some (GoValue.str "1010") := by
  obtain ⟨_, _, old, w, hold, hc, hget, _, hsame⟩ := C9_set_get_round_trip testConfig testEnvs
    "PROMETHEUS_PORT" (GoValue.str "1010")
    (SetStructFieldValueByJsonTag (.pointer testConfig) testEnvs
      "PROMETHEUS_PORT" (some (GoValue.str "1010"))).1 (by decide)
  have hold2 : old = GoValue.str "10001" := by
    have : GetStructFieldValueByJsonTag (.pointer testConfig) "PROMETHEUS_PORT" =
        some (GoValue.str "10001") := by decide
    rw [this] at hold
    cases hold
    rfl
  rw [hget, hsame (by rw [hold2]; rfl)]

end initialconfig

namespace initialconfig

theorem fits_int_of_int32 (n : Int) (h : fits .int32 n = true) : fits .int n = true := by
  simp only [fits, decide_eq_true_eq] at h ⊢
  omega

theorem Atoi_of_numeral (str : String) (n : Int) (hn : numeral str = some n)
    (hfit : fits .int n = true) : Atoi str = some n := by
  simp [Atoi, hn, hfit]

theorem Atoi_of_not_numeral (str : String) (hn : numeral str = none) : Atoi str = none := by
  simp [Atoi, hn]

theorem Atoi_fits (str : String) (n : Int) (h : Atoi str = some n) : fits .int n = true := by
  unfold Atoi at h
  split at h
  · cases h
  · split at h
    · cases h
      assumption
    · cases h

/-- The coercion gives values that Go can hold: the number of an integer
field is within the range of its type. -/
theorem coerce_inRange (t : GoType) (raw w : GoValue) (hraw : InRange raw)
    (h : coerce t raw = .ok w) : InRange w := by
  unfold coerce at h
  by_cases hty : raw.type = t
  · rw [if_pos hty] at h
    cases h
    exact hraw
  · rw [if_neg hty] at h
    cases t <;> cases raw <;> simp only [GoValue.type, reduceCtorEq, not_false_eq_true] at hty h
    all_goals first
      | (cases h; trivial)
      | (split at h <;> (try split at h) <;> first
          | (cases h; done)
          | (cases h; first
              | trivial
              | assumption
              | exact Atoi_fits _ _ (by assumption)))

/-- C10 as stated fails. At the empty string: it is a string other than
`"true"` and `"1"`, and a non-numeric one, yet setting the boolean field
`RABBIT_IS_SECURE` with it does not make the field false without error, and
setting the integer field `REDIS_DB_INDEX` with it does not fail with
`TypeMismatch`: both calls fail with `EmptyValue`. And at a number that the
type of the field cannot hold: `"99999999999"` is a numeric string and
1099511627776 a native integer, but neither number is a value of `int32`, so
the field `POSTGRES_MAX_CONNS` does not get it. -/
theorem C10_counterexample_empty_string_and_range :
    SetStructFieldValueByJsonTag (.pointer testConfig) testEnvs "RABBIT_IS_SECURE"
        (some (GoValue.str "")) = (testConfig, some SetError.EmptyValue) ∧
    numeral "" = none ∧
    SetStructFieldValueByJsonTag (.pointer testConfig) testEnvs "REDIS_DB_INDEX"
        (some (GoValue.str "")) = (testConfig, some SetError.EmptyValue) ∧
    numeral "99999999999" = some 99999999999 ∧
    fits .int32 99999999999 = false ∧
    (testRow "POSTGRES_MAX_CONNS" (some (GoValue.str "99999999999"))).1 =
      some (GoValue.int32 0) ∧
    fits .int 1099511627776 = true ∧ fits .int32 1099511627776 = false ∧
    (testRow "POSTGRES_MAX_CONNS" (some (GoValue.int 1099511627776))).1 =
      some (GoValue.int32 0) := by
  decide

/-- C10, amended. Type coercion follows the static type of the target field,
for every configuration with a field tagged `name` and every registry holding
`name`. An integer field (`int` or `int32`) set with a native integer that
its type can hold gets that integer, set with a numeric string whose number
its type can hold gets that number (`"123"` yields 123 and `"1"` yields 1),
and set with a non-numeric string that is not empty fails with `TypeMismatch`
and stays as it was. A boolean field set with a native boolean gets it, and
set with a string that is not empty becomes true for `"true"` and `"1"` and
false for any other one, without error. Whatever the field is set with, the
value it gets is one that its type can hold. -/
theorem C10_coercion_by_static_type (s : StructValue) (envs : Envs) (name : String)
    (old : GoValue) (hreg : envs.get? name ≠ none)
    (hold : GetStructFieldValueByJsonTag (.pointer s) name = some old) :
    (old.type = GoType.int →
      (∀ n : Int, ∀ raw, raw = GoValue.int n ∨ raw = GoValue.int32 n → fits .int n = true →
        ∃ s1, SetStructFieldValueByJsonTag (.pointer s) envs name (some raw) = (s1, none) ∧
          GetStructFieldValueByJsonTag (.pointer s1) name = some (GoValue.int n)) ∧
      (∀ str n, numeral str = some n → fits .int n = true →
        ∃ s1, SetStructFieldValueByJsonTag (.pointer s) envs name (some (GoValue.str str)) =
            (s1, none) ∧
          GetStructFieldValueByJsonTag (.pointer s1) name = some (GoValue.int n)) ∧
      (∀ str, str ≠ "" → numeral str = none →
        SetStructFieldValueByJsonTag (.pointer s) envs name (some (GoValue.str str)) =
          (s, some SetError.TypeMismatch))) ∧
    (old.type = GoType.int32 →
      (∀ n : Int, ∀ raw, raw = GoValue.int n ∨ raw = GoValue.int32 n →
        fits .int32 n = true →
        ∃ s1, SetStructFieldValueByJsonTag (.pointer s) envs name (some raw) = (s1, none) ∧
          GetStructFieldValueByJsonTag (.pointer s1) name = some (GoValue.int32 n)) ∧
      (∀ str n, numeral str = some n → fits .int32 n = true →
        ∃ s1, SetStructFieldValueByJsonTag (.pointer s) envs name (some (GoValue.str str)) =
            (s1, none) ∧
          GetStructFieldValueByJsonTag (.pointer s1) name = some (GoValue.int32 n)) ∧
      (∀ str, str ≠ "" → numeral str = none →
        SetStructFieldValueByJsonTag (.pointer s) envs name (some (GoValue.str str)) =
          (s, some SetError.TypeMismatch))) ∧
    (numeral "123" = some 123 ∧ numeral "1" = some 1 ∧ numeral "abc" = none ∧
      fits .int32 123 = true ∧ fits .int32 1 = true) ∧
    (old.type = GoType.bool →
      (∀ b : Bool,
        ∃ s1, SetStructFieldValueByJsonTag (.pointer s) envs name (some (GoValue.bool b)) =
            (s1, none) ∧
          GetStructFieldValueByJsonTag (.pointer s1) name = some (GoValue.bool b)) ∧
      (∀ str, str ≠ "" →
        ∃ s1, SetStructFieldValueByJsonTag (.pointer s) envs name (some (GoValue.str str)) =
            (s1, none) ∧
          GetStructFieldValueByJsonTag (.pointer s1) name =
            some (GoValue.bool (decide (str = "true" ∨ str = "1"))))) ∧
    (∀ raw s1 w, InRange raw →
      SetStructFieldValueByJsonTag (.pointer s) envs name (some raw) = (s1, none) →
      GetStructFieldValueByJsonTag (.pointer s1) name = some w → InRange w) := by
  have hold2 : s.get name = some old := by
    simpa [GetStructFieldValueByJsonTag, ConfigArg.struct] using hold
  have hstr : ∀ str : String, str ≠ "" → GoValue.str str ≠ GoValue.str "" := by
    intro str h h2
    cases h2
    exact h rfl
  have hnum : ∀ str n, numeral str = some n → str ≠ "" := by
    intro str n h h2
    subst h2
    simp [numeral] at h
  refine ⟨?_, ?_, by decide, ?_, ?_⟩
  · intro hty
    refine ⟨?_, ?_, ?_⟩
    · intro n raw hraw hfit
      have hne : raw ≠ GoValue.str "" := by rcases hraw with h | h <;> rw [h] <;> simp
      apply (Set_of_get s envs name raw old hreg hne hold2).2
      rcases hraw with h | h <;> rw [h, hty]
      · rfl
      · simp [coerce, GoValue.type, hfit]
    · intro str n hn hfit
      apply (Set_of_get s envs name _ old hreg (hstr str (hnum str n hn)) hold2).2
      rw [hty]
      simp [coerce, GoValue.type, Atoi_of_numeral str n hn hfit]
    · intro str hne hn
      apply (Set_of_get s envs name _ old hreg (hstr str hne) hold2).1
      rw [hty]
      simp [coerce, GoValue.type, Atoi_of_not_numeral str hn]
  · intro hty
    refine ⟨?_, ?_, ?_⟩
    · intro n raw hraw hfit
      have hne : raw ≠ GoValue.str "" := by rcases hraw with h | h <;> rw [h] <;> simp
      apply (Set_of_get s envs name raw old hreg hne hold2).2
      rcases hraw with h | h <;> rw [h, hty]
      · simp [coerce, GoValue.type, hfit]
      · rfl
    · intro str n hn hfit
      apply (Set_of_get s envs name _ old hreg (hstr str (hnum str n hn)) hold2).2
      rw [hty]
      simp [coerce, GoValue.type, Atoi_of_numeral str n hn (fits_int_of_int32 n hfit), hfit]
    · intro str hne hn
      apply (Set_of_get s envs name _ old hreg (hstr str hne) hold2).1
      rw [hty]
      simp [coerce, GoValue.type, Atoi_of_not_numeral str hn]
  · intro hty
    refine ⟨?_, ?_⟩
    · intro b
      apply (Set_of_get s envs name _ old hreg (by simp) hold2).2
      rw [hty]
      rfl
    · intro str hne
      apply (Set_of_get s envs name _ old hreg (hstr str hne) hold2).2
      rw [hty]
      simp [coerce, GoValue.type]
  · intro raw s1 w hin hset hget
    have hne : raw ≠ GoValue.str "" := by
      intro h
      cases hg : envs.get? name with
      | none => exact hreg hg
      | some p => simp [SetStructFieldValueByJsonTag, hg, h] at hset
    obtain ⟨herr, hok⟩ := Set_of_get s envs name raw old hreg hne hold2
    cases hc : coerce old.type raw with
    | error e =>
      rw [herr e hc] at hset
      simp at hset
    | ok w2 =>
      obtain ⟨s2, hs2, hg2⟩ := hok w2 hc
      rw [hs2] at hset
      simp only [Prod.mk.injEq, and_true] at hset
      subst hset
      rw [hg2] at hget
      cases hget
      exact coerce_inRange _ _ _ hin hc

/-- C10 on the configuration of `TestStructFields`: setting the `int32` field
`POSTGRES_MAX_CONNS` with the string `"123"` succeeds. -/
theorem C10_coercion_by_static_type_witness :
    (SetStructFieldValueByJsonTag (.pointer testConfig) testEnvs "POSTGRES_MAX_CONNS"
      (some (GoValue.str "123"))).2 = none := by
  obtain ⟨s1, hs1, _⟩ := ((C10_coercion_by_static_type testConfig testEnvs
    "POSTGRES_MAX_CONNS" (GoValue.int32 0) (by decide) (by decide)).2.1 rfl).2.1
    "123" 123 (by decide) (by decide)
  rw [hs1]

end initialconfig


/-! ## The claims on the registry builder and on invalid calls of the mutator -/

namespace initialconfig

theorem Envs.get?_map_mk (l : List String) (f : String → EnvParams) (name : String) :
    Envs.get? (l.map (fun n => (n, f n))) name = if name ∈ l then some (f name) else none := by
  induction l with
  | nil => simp [Envs.get?]
  | cons a rest ih =>
    simp only [List.map_cons, Envs.get?, List.mem_cons]
    by_cases h : a = name
    · subst h; simp
    · have h2 : ¬ name = a := fun e => h e.symm
      simp [h, h2, ih]

theorem GetConfigParams_keys (describe : String → EnvParams) (cfg : ConfigArg) :
    (GetConfigParams describe cfg).keys =
      (cfg.struct.fieldTags.filter (fun tag => decide (tag ≠ ""))).dedup := by
  simp [GetConfigParams, Envs.keys, Function.comp_def]

theorem mem_GetConfigParams_keys (describe : String → EnvParams) (cfg : ConfigArg)
    (name : String) :
    name ∈ (GetConfigParams describe cfg).keys ↔ name ∈ cfg.struct.fieldTags ∧ name ≠ "" := by
  rw [GetConfigParams_keys]
  simp

theorem GetConfigParams_get? (describe : String → EnvParams) (cfg : ConfigArg)
    (name : String) :
    (GetConfigParams describe cfg).get? name =
      if name ∈ cfg.struct.fieldTags ∧ name ≠ "" then some (describe name).clear else none := by
  unfold GetConfigParams
  rw [Envs.get?_map_mk]
  simp

theorem GetConfigParams_keys_nodup (describe : String → EnvParams) (cfg : ConfigArg) :
    (GetConfigParams describe cfg).keys.Nodup := by
  rw [GetConfigParams_keys]
  exact List.nodup_dedup _

theorem GetConfigParams_unresolved (describe : String → EnvParams) (cfg : ConfigArg) :
    (GetConfigParams describe cfg).Unresolved := by
  intro kv hkv
  simp only [GetConfigParams, List.mem_map] at hkv
  obtain ⟨n, _, rfl⟩ := hkv
  exact ⟨rfl, rfl⟩

theorem StructValue.SameShape.fieldTags_eq (s1 s2 : StructValue) (h : s1.SameShape s2) :
    s1.fieldTags = s2.fieldTags := by
  unfold StructValue.SameShape at h
  induction s1 generalizing s2 with
  | nil => cases s2 <;> simp_all [StructValue.sameShape, StructValue.fieldTags]
  | field tag value rest ih =>
    cases s2 with
    | field tag2 value2 rest2 =>
      simp only [StructValue.sameShape, Bool.and_eq_true, decide_eq_true_eq] at h
      simp [StructValue.fieldTags, h.1.1, ih rest2 h.2]
    | nil => simp [StructValue.sameShape] at h
    | embed a b => simp [StructValue.sameShape] at h
  | embed inner rest ih1 ih2 =>
    cases s2 with
    | embed inner2 rest2 =>
      simp only [StructValue.sameShape, Bool.and_eq_true] at h
      simp [StructValue.fieldTags, ih1 inner2 h.1, ih2 rest2 h.2]
    | nil => simp [StructValue.sameShape] at h
    | field a b c => simp [StructValue.sameShape] at h

theorem StructValue.sameShape_self (s : StructValue) : s.SameShape s := by
  unfold StructValue.SameShape
  induction s with
  | nil => rfl
  | field tag value rest ih => simp [StructValue.sameShape, ih]
  | embed inner rest ih1 ih2 => simp [StructValue.sameShape, ih1, ih2]

theorem GetConfigParams_of_sameShape (describe : String → EnvParams) (cfg1 cfg2 : ConfigArg)
    (h : cfg1.struct.SameShape cfg2.struct) :
    GetConfigParams describe cfg1 = GetConfigParams describe cfg2 := by
  unfold GetConfigParams
  rw [StructValue.SameShape.fieldTags_eq _ _ h]

/-- C11. `SetStructFieldValueByJsonTag` rejects an invalid call without
modifying the configuration: the struct after the call is the struct before
it and the error is `NotAPointer` when `cfg` is not a pointer, `UnknownField`
when `cfg` is a pointer and `name` is not in `envs`, and `EmptyValue` when
`cfg` is a pointer, `name` is in `envs` and the raw value is `nil` or the empty
string. The empty name is in no registry that `GetConfigParams` builds, and
`DOES_NOT_EXIST` is not in the registry of a configuration without such a
tag, so both are rejected with `UnknownField`. -/
theorem C11_invalid_call_leaves_cfg_unchanged (s : StructValue) (envs : Envs)
    (name : String) (value : Any) (describe : String → EnvParams) :
    SetStructFieldValueByJsonTag (.value s) envs name value = (s, some SetError.NotAPointer) ∧
    (envs.get? name = none →
      SetStructFieldValueByJsonTag (.pointer s) envs name value =
        (s, some SetError.UnknownField)) ∧
    (envs.get? name ≠ none → (value = none ∨ value = some (GoValue.str "")) →
      SetStructFieldValueByJsonTag (.pointer s) envs name value =
        (s, some SetError.EmptyValue)) ∧
    SetStructFieldValueByJsonTag (.pointer s) (GetConfigParams describe (.pointer s)) "" value =
      (s, some SetError.UnknownField) ∧
    ("DOES_NOT_EXIST" ∉ s.fieldTags →
      SetStructFieldValueByJsonTag (.pointer s) (GetConfigParams describe (.pointer s))
        "DOES_NOT_EXIST" value = (s, some SetError.UnknownField)) ∧
    (∀ cfg : ConfigArg, (cfg = .value s ∨ envs.get? name = none ∨ value = none ∨
        value = some (GoValue.str "")) → cfg.struct = s →
      (SetStructFieldValueByJsonTag cfg envs name value).1 = s ∧
      (SetStructFieldValueByJsonTag cfg envs name value).2 ≠ none) := by
  have hunknown : ∀ e : Envs, e.get? name = none →
      SetStructFieldValueByJsonTag (.pointer s) e name value =
        (s, some SetError.UnknownField) := by
    intro e h
    simp [SetStructFieldValueByJsonTag, h]
  have hempty : envs.get? name ≠ none → (value = none ∨ value = some (GoValue.str "")) →
      SetStructFieldValueByJsonTag (.pointer s) envs name value =
        (s, some SetError.EmptyValue) := by
    intro h hv
    cases hg : envs.get? name with
    | none => exact absurd hg h
    | some p => rcases hv with hv | hv <;> simp [SetStructFieldValueByJsonTag, hg, hv]
  refine ⟨rfl, hunknown envs, hempty, ?_, ?_, ?_⟩
  · have h : (GetConfigParams describe (.pointer s)).get? "" = none := by
      rw [GetConfigParams_get?]; simp
    simp [SetStructFieldValueByJsonTag, h]
  · intro hno
    have h : (GetConfigParams describe (.pointer s)).get? "DOES_NOT_EXIST" = none := by
      rw [GetConfigParams_get?]; simp [ConfigArg.struct, hno]
    simp [SetStructFieldValueByJsonTag, h]
  · intro cfg hcase hcfg
    cases cfg with
    | value s2 =>
      simp only [ConfigArg.struct] at hcfg
      subst hcfg
      exact ⟨rfl, by simp [SetStructFieldValueByJsonTag]⟩
    | pointer s2 =>
      simp only [ConfigArg.struct] at hcfg
      subst hcfg
      by_cases hg : envs.get? name = none
      · rw [hunknown envs hg]; simp
      · rcases hcase with h | h | h
        · cases h
        · exact absurd h hg
        · rw [hempty hg h]; simp

/-- C11 on the configuration of `TestStructFields`: the call with the name
`DOES_NOT_EXIST` and the value `x` fails with `UnknownField` and returns the
configuration as it was. -/
theorem C11_invalid_call_leaves_cfg_unchanged_witness :
    SetStructFieldValueByJsonTag (.pointer testConfig)
      (GetConfigParams describeConfig (.pointer testConfig)) "DOES_NOT_EXIST"
      (some (GoValue.str "x")) = (testConfig, some SetError.UnknownField) :=
  (C11_invalid_call_leaves_cfg_unchanged testConfig [] "DOES_NOT_EXIST"
    (some (GoValue.str "x")) describeConfig).2.2.2.2.1 (by decide)

end initialconfig

namespace initialconfig

/-- C12. The keys of the registry that `GetConfigParams` returns are exactly
the `json` tags of the configuration struct: a name is a key exactly when it
is the non-empty tag of a field, fields of embedded and nested sections
included; there is one descriptor for each key and none for fields without
the tag; two structs of the same shape give the same registry, whatever their
values; and the registry of the application's `Config` is not empty and has
the keys `SERVICE_NAME`, `PROMETHEUS_PORT`, `REDIS_DB_INDEX`,
`RABBIT_IS_SECURE`, `POSTGRES_ADDRS` and `DISCOVERY_RABBIT_SERVICE`. -/
theorem C12_registry_keys_are_json_tags (describe : String → EnvParams)
    (cfg : ConfigArg) :
    (∀ name, name ∈ (GetConfigParams describe cfg).keys ↔
      name ∈ cfg.struct.fieldTags ∧ name ≠ "") ∧
    (GetConfigParams describe cfg).keys.Nodup ∧
    "" ∉ (GetConfigParams describe cfg).keys ∧
    (∀ inner rest name, name ≠ "" →
      (name ∈ inner.fieldTags ∨ name ∈ rest.fieldTags) →
      name ∈ (GetConfigParams describe (.value (.embed inner rest))).keys) ∧
    (∀ cfg2 : ConfigArg, cfg.struct.SameShape cfg2.struct →
      GetConfigParams describe cfg2 = GetConfigParams describe cfg) ∧
    (GetConfigParams describe (.value testConfig)) ≠ [] ∧
    (∀ name ∈ ["SERVICE_NAME", "PROMETHEUS_PORT", "REDIS_DB_INDEX", "RABBIT_IS_SECURE",
        "POSTGRES_ADDRS", "DISCOVERY_RABBIT_SERVICE"],
      name ∈ (GetConfigParams describe (.value testConfig)).keys) := by
  refine ⟨mem_GetConfigParams_keys describe cfg, GetConfigParams_keys_nodup describe cfg,
    ?_, ?_, ?_, ?_, ?_⟩
  · rw [mem_GetConfigParams_keys]; simp
  · intro inner rest name hne h
    rw [mem_GetConfigParams_keys]
    refine ⟨?_, hne⟩
    simpa [ConfigArg.struct, StructValue.fieldTags] using h
  · intro cfg2 h
    exact (GetConfigParams_of_sameShape describe cfg cfg2 h).symm
  · intro h
    have hk : "SERVICE_NAME" ∈ (GetConfigParams describe (.value testConfig)).keys := by
      rw [mem_GetConfigParams_keys]; decide
    rw [h] at hk
    simp [Envs.keys] at hk
  · intro name hname
    rw [mem_GetConfigParams_keys]
    revert name
    decide

/-- C12 on two configurations of the shape of `TestStructFields` with
different values: the registry is the same. -/
theorem C12_registry_keys_are_json_tags_witness :
    GetConfigParams describeConfig
        (.pointer (SetStructFieldValueByJsonTag (.pointer testConfig) testEnvs
          "PROMETHEUS_PORT" (some (GoValue.str "1010"))).1) =
      GetConfigParams describeConfig (.value testConfig) :=
  (C12_registry_keys_are_json_tags describeConfig (.value testConfig)).2.2.2.2.1 _
    (by decide)

/-- C13 as stated fails: given the configuration of `TestStructFields` by
value, as the test and the resolver call it, `GetConfigParams` does not fail;
it returns the registry of the 22 tagged fields. -/
theorem C13_counterexample_by_value_is_accepted :
    (GetConfigParams describeConfig (.value testConfig)).keys =
      ["POSTGRES_ADDRS", "RABBIT_ADDRS", "REDIS_ADDRS", "SERVICE_NAME", "CONSUL_STAND_NAME",
        "RABBIT_USER", "RABBIT_PASS", "RABBIT_IS_SECURE", "RABBIT_ADDR", "PROMETHEUS_PORT",
        "PROMETHEUS_ENDPOINT", "PROMETHEUS_DISABLED", "POSTGRES_MAX_CONNS", "REDIS_ADDR",
        "REDIS_USER", "REDIS_PASS", "REDIS_DB_INDEX", "REDIS_PING_INTERVAL",
        "GPG_PUBLIC_SIGNATURES", "DISCOVERY_POSTGRES_SERVICE", "DISCOVERY_RABBIT_SERVICE",
        "DISCOVERY_REDIS_SERVICE"] ∧
    GetConfigParams describeConfig (.value testConfig) ≠ [] := by
  decide

/-- C13, amended. `GetConfigParams` does not fail when its input is not
addressable: given the configuration struct by value it returns the registry,
with one unresolved descriptor for each field that carries a `json` tag and
none for any other name. -/
theorem C13_by_value_returns_the_registry (describe : String → EnvParams)
    (s : StructValue) :
    (∀ name, name ∈ (GetConfigParams describe (.value s)).keys ↔
      name ∈ s.fieldTags ∧ name ≠ "") ∧
    (∀ name, (GetConfigParams describe (.value s)).get? name =
      if name ∈ s.fieldTags ∧ name ≠ "" then some (describe name).clear else none) ∧
    (GetConfigParams describe (.value s)).keys.Nodup ∧
    (GetConfigParams describe (.value s)).Unresolved :=
  ⟨mem_GetConfigParams_keys describe (.value s),
    fun name => GetConfigParams_get? describe (.value s) name,
    GetConfigParams_keys_nodup describe (.value s),
    GetConfigParams_unresolved describe (.value s)⟩

end initialconfig

/-! ## The order of the visit -/

namespace initialconfig

theorem Envs.keys_write (e : Envs) (w : Write) : (e.write w).keys = e.keys := by
  cases w <;>
    simp only [Envs.write, Envs.SetValue, Envs.SetExternalValue, Envs.keys, List.map_map] <;>
    apply List.map_congr_left <;> intro kv _ <;> simp only [Function.comp] <;> split <;> rfl

theorem Envs.keys_writes (ws : List Write) (e : Envs) : (e.writes ws).keys = e.keys := by
  induction ws generalizing e with
  | nil => rfl
  | cons w rest ih =>
    have h := ih (e.write w)
    simp only [Envs.writes, List.foldl_cons] at h ⊢
    rw [h, Envs.keys_write]

theorem Envs.get?_eq_none_of_not_mem (e : Envs) (name : String) (h : name ∉ e.keys) :
    e.get? name = none := by
  cases hg : e.get? name with
  | none => rfl
  | some p => exact absurd (mem_keys_of_get? e name p hg) h

/-- Two maps with the same keys in the same order, all different, and the
same descriptor under each key are equal. -/
theorem Envs.ext_of_keys (e1 e2 : Envs) (hkeys : e1.keys = e2.keys) (hk : e1.keys.Nodup)
    (hget : ∀ name, e1.get? name = e2.get? name) : e1 = e2 := by
  induction e1 generalizing e2 with
  | nil =>
    cases e2 with
    | nil => rfl
    | cons kv rest => simp [Envs.keys] at hkeys
  | cons kv1 rest1 ih =>
    cases e2 with
    | nil => simp [Envs.keys] at hkeys
    | cons kv2 rest2 =>
      simp only [Envs.keys, List.map_cons, List.cons.injEq] at hkeys
      simp only [Envs.keys, List.map_cons, List.nodup_cons] at hk
      obtain ⟨h1, hkeys⟩ := hkeys
      have hhead := hget kv1.1
      simp only [Envs.get?, if_true, h1.symm, Option.some.injEq] at hhead
      have hkv : kv1 = kv2 := Prod.ext h1 hhead
      subst hkv
      congr 1
      apply ih rest2 hkeys hk.2
      intro name
      by_cases hn : kv1.1 = name
      · subst hn
        rw [Envs.get?_eq_none_of_not_mem rest1 _ hk.1,
          Envs.get?_eq_none_of_not_mem rest2 _ (by
            have : Envs.keys rest2 = Envs.keys rest1 := hkeys.symm
            rw [this]; exact hk.1)]
      · have := hget name
        simpa [Envs.get?, hn] using this

theorem EnvParams.ext_of_clear (p q : EnvParams) (hc : p.clear = q.clear)
    (hv : p.Value = q.Value) (he : p.ExternalValue = q.ExternalValue) : p = q := by
  cases p; cases q
  simp only [EnvParams.clear, EnvParams.mk.injEq] at hc
  simp only at hv he
  simp [hc.1, hc.2.1, hc.2.2.1, hc.2.2.2.1, hv, he]

/-- Under the invariants of the registry, any two stores into the `Value` of
the same field, made in the iterations of any two fields, store the same
value. -/
theorem value_writes_agree (c : consul.Consul) (v : vault.Vault) (reg : Envs)
    (hl : reg.LinksDerived) (hu : reg.LinksUnique)
    (name : String) (n1 n2 : String) (q1 q2 : EnvParams)
    (h1 : reg.get? n1 = some q1) (h2 : reg.get? n2 = some q2) (y1 y2 : Any)
    (hw1 : Write.Value name y1 ∈ fieldWrites c v n1 q1)
    (hw2 : Write.Value name y2 ∈ fieldWrites c v n2 q2) : y1 = y2 := by
  have hm1 := Envs.mem_of_get? reg n1 q1 h1
  have hm2 := Envs.mem_of_get? reg n2 q2 h2
  rw [mem_fieldWrites_Value] at hw1 hw2
  obtain ⟨hs1, hw1⟩ := hw1
  obtain ⟨hs2, hw2⟩ := hw2
  rcases hw1 with ⟨e1, hy1⟩ | ⟨hf1, e1, hy1⟩ <;> rcases hw2 with ⟨e2, hy2⟩ | ⟨hf2, e2, hy2⟩
  · subst e1; subst e2
    rw [h1] at h2; cases h2
    rw [hy1, hy2]
  · exfalso
    subst e1
    exact hs1.2.2 (hl (n2, q2) hm2 hs2.2.2 hf2 (name, q1) hm1 e2)
  · exfalso
    subst e2
    exact hs2.2.2 (hl (n1, q1) hm1 hs1.2.2 hf1 (name, q2) hm2 e1)
  · have hn : n1 = n2 := hu (n1, q1) hm1 (n2, q2) hm2 hs1.2.2 hs2.2.2 hf1 (e1.symm.trans e2)
    subst hn
    rw [h1] at h2; cases h2
    rw [hy1, hy2]

theorem external_writes_agree (c : consul.Consul) (v : vault.Vault) (reg : Envs)
    (name : String) (n1 n2 : String) (q1 q2 : EnvParams)
    (h1 : reg.get? n1 = some q1) (h2 : reg.get? n2 = some q2) (y1 y2 : Any)
    (hw1 : Write.ExternalValue name y1 ∈ fieldWrites c v n1 q1)
    (hw2 : Write.ExternalValue name y2 ∈ fieldWrites c v n2 q2) : y1 = y2 := by
  rw [mem_fieldWrites_ExternalValue] at hw1 hw2
  obtain ⟨_, _, e1, hy1⟩ := hw1
  obtain ⟨_, _, e2, hy2⟩ := hw2
  subst e1; subst e2
  rw [h1] at h2; cases h2
  rw [hy1, hy2]

theorem mem_loopWrites_perm (c : consul.Consul) (v : vault.Vault) (reg : Envs)
    (o1 o2 : List String) (hp : o1.Perm o2) (w : Write) :
    w ∈ loopWrites c v reg o1 ↔ w ∈ loopWrites c v reg o2 := by
  simp only [mem_loopWrites]
  constructor
  · rintro ⟨n, hn, rest⟩; exact ⟨n, hp.subset hn, rest⟩
  · rintro ⟨n, hn, rest⟩; exact ⟨n, hp.symm.subset hn, rest⟩

/-- Under the invariants of the registry, the map after all the stores of a
run does not depend on the order in which the fields are visited. -/
theorem writes_loopWrites_perm (c : consul.Consul) (v : vault.Vault) (reg : Envs)
    (hk : reg.keys.Nodup) (hl : reg.LinksDerived) (hu : reg.LinksUnique)
    (o1 o2 : List String) (hp : o1.Perm o2) :
    reg.writes (loopWrites c v reg o1) = reg.writes (loopWrites c v reg o2) := by
  apply Envs.ext_of_keys
  · rw [Envs.keys_writes, Envs.keys_writes]
  · rw [Envs.keys_writes]; exact hk
  · intro name
    rw [Envs.get?_writes, Envs.get?_writes]
    cases hg : reg.get? name with
    | none => rfl
    | some p =>
      simp only [Option.map_some', Option.some.injEq]
      apply EnvParams.ext_of_clear
      · rw [foldl_applyTo_clear, foldl_applyTo_clear]
      · by_cases hex : ∃ y, Write.Value name y ∈ loopWrites c v reg o1
        · obtain ⟨y, hy⟩ := hex
          have hall : ∀ o : List String, ∀ z, Write.Value name z ∈ loopWrites c v reg o →
              z = y := by
            intro o z hz
            rw [mem_loopWrites] at hz hy
            obtain ⟨n1, _, q1, hq1, hw1⟩ := hz
            obtain ⟨n2, _, q2, hq2, hw2⟩ := hy
            exact value_writes_agree c v reg hl hu name n1 n2 q1 q2 hq1 hq2 z y hw1 hw2
          rw [foldl_applyTo_Value_of_all name y _ p (hall o1),
            foldl_applyTo_Value_of_all name y _ p (hall o2),
            if_pos hy, if_pos ((mem_loopWrites_perm c v reg o1 o2 hp _).mp hy)]
        · have hno1 : ∀ z, Write.Value name z ∈ loopWrites c v reg o1 → z = none :=
            fun z hz => absurd ⟨z, hz⟩ hex
          have hno2 : ∀ z, Write.Value name z ∈ loopWrites c v reg o2 → z = none :=
            fun z hz => absurd ⟨z, (mem_loopWrites_perm c v reg o1 o2 hp _).mpr hz⟩ hex
          rw [foldl_applyTo_Value_of_all name none _ p hno1,
            foldl_applyTo_Value_of_all name none _ p hno2,
            if_neg (fun h => hex ⟨_, h⟩),
            if_neg (fun h => hex ⟨_, (mem_loopWrites_perm c v reg o1 o2 hp _).mpr h⟩)]
      · by_cases hex : ∃ y, Write.ExternalValue name y ∈ loopWrites c v reg o1
        · obtain ⟨y, hy⟩ := hex
          have hall : ∀ o : List String, ∀ z,
              Write.ExternalValue name z ∈ loopWrites c v reg o → z = y := by
            intro o z hz
            rw [mem_loopWrites] at hz hy
            obtain ⟨n1, _, q1, hq1, hw1⟩ := hz
            obtain ⟨n2, _, q2, hq2, hw2⟩ := hy
            exact external_writes_agree c v reg name n1 n2 q1 q2 hq1 hq2 z y hw1 hw2
          rw [foldl_applyTo_ExternalValue_of_all name y _ p (hall o1),
            foldl_applyTo_ExternalValue_of_all name y _ p (hall o2),
            if_pos hy, if_pos ((mem_loopWrites_perm c v reg o1 o2 hp _).mp hy)]
        · have hno1 : ∀ z, Write.ExternalValue name z ∈ loopWrites c v reg o1 → z = none :=
            fun z hz => absurd ⟨z, hz⟩ hex
          have hno2 : ∀ z, Write.ExternalValue name z ∈ loopWrites c v reg o2 → z = none :=
            fun z hz => absurd ⟨z, (mem_loopWrites_perm c v reg o1 o2 hp _).mpr hz⟩ hex
          rw [foldl_applyTo_ExternalValue_of_all name none _ p hno1,
            foldl_applyTo_ExternalValue_of_all name none _ p hno2,
            if_neg (fun h => hex ⟨_, h⟩),
            if_neg (fun h => hex ⟨_, (mem_loopWrites_perm c v reg o1 o2 hp _).mpr h⟩)]

/-- The snapshot that `getDataFromConsulAndVault` returns does not depend on
the order of the visit nor on the stand name; neither does whether it returns
an error. -/
theorem getData_perm (S1 S2 : String) (c : consul.Consul) (v : vault.Vault) (reg : Envs)
    (hk : reg.keys.Nodup) (hl : reg.LinksDerived) (hu : reg.LinksUnique)
    (o1 o2 : List String) (hp : o1.Perm o2) :
    (cfgService.getDataFromConsulAndVault
        { StandName := S1, consulClient := some c, vaultClient := some v } reg o1).1 =
      (cfgService.getDataFromConsulAndVault
        { StandName := S2, consulClient := some c, vaultClient := some v } reg o2).1 ∧
    ((cfgService.getDataFromConsulAndVault
        { StandName := S1, consulClient := some c, vaultClient := some v } reg o1).2 = none ↔
      (cfgService.getDataFromConsulAndVault
        { StandName := S2, consulClient := some c, vaultClient := some v } reg o2).2 = none) := by
  by_cases hok : ∀ n ∈ o1, ∀ p, reg.get? n = some p → ¬ FieldFails c v n p
  · have hok2 : ∀ n ∈ o2, ∀ p, reg.get? n = some p → ¬ FieldFails c v n p :=
      fun n hn => hok n (hp.symm.subset hn)
    have r1 := resolve_ok
      { StandName := S1, consulClient := some c, vaultClient := some v } c v rfl rfl reg o1 hok
    have r2 := resolve_ok
      { StandName := S2, consulClient := some c, vaultClient := some v } c v rfl rfl reg o2 hok2
    simp only [cfgService.getDataFromConsulAndVault, r1, r2,
      writes_loopWrites_perm c v reg hk hl hu o1 o2 hp, and_self]
  · have hbad : ∃ n ∈ o1, ∃ p, reg.get? n = some p ∧ FieldFails c v n p := by
      by_contra hcon
      exact hok (fun n hn p hp hf => hcon ⟨n, hn, p, hp, hf⟩)
    have hbad2 : ∃ n ∈ o2, ∃ p, reg.get? n = some p ∧ FieldFails c v n p := by
      obtain ⟨n, hn, rest⟩ := hbad
      exact ⟨n, hp.subset hn, rest⟩
    obtain ⟨e1, he1⟩ := resolve_error
      { StandName := S1, consulClient := some c, vaultClient := some v } c v rfl rfl reg o1 hbad
    obtain ⟨e2, he2⟩ := resolve_error
      { StandName := S2, consulClient := some c, vaultClient := some v } c v rfl rfl reg o2 hbad2
    simp [cfgService.getDataFromConsulAndVault, he1, he2]

end initialconfig

namespace initialconfig

theorem getData_cases (s : cfgService) (reg : Envs) (order : List String) :
    (∃ e, s.getDataFromConsulAndVault reg order = (none, some e)) ∨
    (∃ out, s.getDataFromConsulAndVault reg order = (some out, none)) := by
  unfold cfgService.getDataFromConsulAndVault
  cases h : s.resolve reg order with
  | error e => exact Or.inl ⟨e, rfl⟩
  | ok st => exact Or.inr ⟨st.1, rfl⟩

theorem getData_keys (s : cfgService) (reg : Envs) (order : List String) (out : Envs)
    (h : s.getDataFromConsulAndVault reg order = (some out, none)) : out.keys = reg.keys := by
  obtain ⟨calls, hrun⟩ := (getData_eq_ok s reg order out).mp h
  cases hc : s.consulClient with
  | none => simp [cfgService.resolve, hc] at hrun
  | some c =>
    cases hv : s.vaultClient with
    | none => simp [cfgService.resolve, hc, hv] at hrun
    | some v =>
      obtain ⟨_, hout, _⟩ := resolve_ok_inv s c v hc hv reg order out calls hrun
      rw [hout, Envs.keys_writes]

theorem mem_insertSorted (x y : String) (l : List String) :
    y ∈ insertSorted x l ↔ y = x ∨ y ∈ l := by
  induction l with
  | nil => simp [insertSorted]
  | cons a rest ih =>
    simp only [insertSorted]
    split
    · simp
    · simp only [List.mem_cons, ih]
      tauto

theorem mem_sortStrings (y : String) (l : List String) : y ∈ sortStrings l ↔ y ∈ l := by
  induction l with
  | nil => simp [sortStrings]
  | cons a rest ih => simp [sortStrings, mem_insertSorted, ih]

/-- A snapshot compared with itself has no changed field. -/
theorem changedNames_self (encode : Any → Except GoError Bytes) (old : Envs)
    (l : Envs) (h : ∀ kv ∈ l, old.get? kv.1 = some kv.2) :
    changedNames encode old l = .ok [] ∨ ∃ err, changedNames encode old l = .error err := by
  induction l with
  | nil => left; rfl
  | cons kv rest ih =>
    have hkv := h kv (List.mem_cons_self _ _)
    simp only [changedNames, hkv]
    cases he : encode (effectiveValue kv.2) with
    | error err => right; exact ⟨err, rfl⟩
    | ok a =>
      rcases ih (fun x hx => h x (List.mem_cons_of_mem _ hx)) with h1 | ⟨err, h1⟩
      · left; simp [h1]
      · right; exact ⟨err, by simp [h1]⟩

theorem GetChangedEnvs_self (encode : Any → Except GoError Bytes) (e : Envs)
    (hk : e.keys.Nodup) : (e.GetChangedEnvs encode e).1 = [] := by
  unfold Envs.GetChangedEnvs
  rcases changedNames_self encode e e
    (fun kv hkv => Envs.get?_of_mem e hk kv.1 kv.2 hkv) with h | ⟨err, h⟩
  · rw [h]; rfl
  · rw [h]

/-- A turn of the watcher whose new snapshot is the stored one sends nothing
and changes nothing. -/
theorem watchCycle_of_same (w : World) (t : Tick) (mainConfig : StructValue) (envs : Envs)
    (hk : envs.keys.Nodup)
    (hrun : (serviceOf mainConfig (some t.consulClient)
      (some t.vaultClient)).getDataFromConsulAndVault
        (GetConfigParams w.describe (.value mainConfig)) t.resolveOrder = (some envs, none)) :
    (∀ b, Event.Send b ∉ (watchCycle w t mainConfig envs).trace) ∧
    (∀ n x, Event.Set n x ∉ (watchCycle w t mainConfig envs).trace) ∧
    (watchCycle w t mainConfig envs).mainConfig = mainConfig ∧
    (watchCycle w t mainConfig envs).envs = envs ∧
    (watchCycle w t mainConfig envs).fatal = false := by
  have hself := GetChangedEnvs_self w.encode envs hk
  unfold watchCycle
  simp only [hrun, Option.getD_some]
  cases hc : envs.GetChangedEnvs w.encode envs with
  | mk changed err =>
    rw [hc] at hself
    simp only at hself
    subst hself
    cases err with
    | some e => simp
    | none => simp

end initialconfig

namespace initialconfig

/-- Resolution is deterministic and idempotent. On the registry of a
configuration whose discovery links lead to Discovery-class fields, each from
one field only, two runs of `getDataFromConsulAndVault` against the same
responses of the store, discovery and secret clients return the same
snapshot, or both an error, whatever the orders in which they visit the
fields, the stand name and the values of the configuration. So, when the
stored snapshot is the result of such a run, the changed-field set of the
next turn of the watcher against unchanged responses is empty: the turn sends
no batch, sets no field, and leaves the stored snapshot and the configuration
as they are. -/
theorem resolution_idempotent_of_links (w : World) (t : Tick) (mainConfig : StructValue)
    (hl : (GetConfigParams w.describe (.value mainConfig)).LinksDerived)
    (hu : (GetConfigParams w.describe (.value mainConfig)).LinksUnique)
    (ho : t.resolveOrder.Perm (GetConfigParams w.describe (.value mainConfig)).keys) :
    (∀ (S1 S2 : String) (o1 o2 : List String) (cfg2 : StructValue),
      mainConfig.SameShape cfg2 →
      o1.Perm (GetConfigParams w.describe (.value mainConfig)).keys →
      o2.Perm (GetConfigParams w.describe (.value mainConfig)).keys →
      (cfgService.getDataFromConsulAndVault
          (cfgService.mk S1 (some t.consulClient) (some t.vaultClient))
          (GetConfigParams w.describe (.value mainConfig)) o1).1 =
        (cfgService.getDataFromConsulAndVault
          (cfgService.mk S2 (some t.consulClient) (some t.vaultClient))
          (GetConfigParams w.describe (.value cfg2)) o2).1 ∧
      ((cfgService.getDataFromConsulAndVault
          (cfgService.mk S1 (some t.consulClient) (some t.vaultClient))
          (GetConfigParams w.describe (.value mainConfig)) o1).2 = none ↔
        (cfgService.getDataFromConsulAndVault
          (cfgService.mk S2 (some t.consulClient) (some t.vaultClient))
          (GetConfigParams w.describe (.value cfg2)) o2).2 = none)) ∧
    (∀ (envs : Envs) (S0 : String) (o0 : List String),
      o0.Perm (GetConfigParams w.describe (.value mainConfig)).keys →
      cfgService.getDataFromConsulAndVault
        (cfgService.mk S0 (some t.consulClient) (some t.vaultClient))
        (GetConfigParams w.describe (.value mainConfig)) o0 = (some envs, none) →
      (envs.GetChangedEnvs w.encode envs).1 = [] ∧
      (∀ b, Event.Send b ∉ (watchCycle w t mainConfig envs).trace) ∧
      (∀ n x, Event.Set n x ∉ (watchCycle w t mainConfig envs).trace) ∧
      (watchCycle w t mainConfig envs).mainConfig = mainConfig ∧
      (watchCycle w t mainConfig envs).envs = envs ∧
      (watchCycle w t mainConfig envs).fatal = false) := by
  have hk := GetConfigParams_keys_nodup w.describe (.value mainConfig)
  refine ⟨?_, ?_⟩
  · intro S1 S2 o1 o2 cfg2 hshape h1 h2
    rw [← GetConfigParams_of_sameShape w.describe (.value mainConfig) (.value cfg2) hshape]
    exact getData_perm S1 S2 t.consulClient t.vaultClient _ hk hl hu o1 o2 (h1.trans h2.symm)
  · intro envs S0 o0 ho0 hstored
    have hek : envs.keys.Nodup := by
      rw [getData_keys _ _ _ _ hstored]; exact hk
    have hsame : (serviceOf mainConfig (some t.consulClient)
        (some t.vaultClient)).getDataFromConsulAndVault
          (GetConfigParams w.describe (.value mainConfig)) t.resolveOrder = (some envs, none) := by
      obtain ⟨h1, h2⟩ := getData_perm S0 (mainConfig.stringField "CONSUL_STAND_NAME")
        t.consulClient t.vaultClient _ hk hl hu o0 t.resolveOrder (ho0.trans ho.symm)
      rw [hstored] at h1 h2
      rcases getData_cases (serviceOf mainConfig (some t.consulClient) (some t.vaultClient))
        (GetConfigParams w.describe (.value mainConfig)) t.resolveOrder with ⟨e, he⟩ | ⟨out, hout⟩
      · have he2 : (cfgService.getDataFromConsulAndVault
            (cfgService.mk (mainConfig.stringField "CONSUL_STAND_NAME")
              (some t.consulClient) (some t.vaultClient))
            (GetConfigParams w.describe (.value mainConfig)) t.resolveOrder) = (none, some e) := he
        rw [he2] at h1; simp at h1
      · have hout2 : (cfgService.getDataFromConsulAndVault
            (cfgService.mk (mainConfig.stringField "CONSUL_STAND_NAME")
              (some t.consulClient) (some t.vaultClient))
            (GetConfigParams w.describe (.value mainConfig)) t.resolveOrder) =
              (some out, none) := hout
        rw [hout2] at h1
        simp only [Option.some.injEq] at h1
        rw [hout, h1]
    exact ⟨GetChangedEnvs_self w.encode envs hek,
      watchCycle_of_same w t mainConfig envs hek hsame⟩

end initialconfig

/-! ## Lemmas on the loop that applies a snapshot -/

namespace utils

theorem ExistInArray_iff {T : Type} [DecidableEq T] (arr : List T) (value : T) :
    ExistInArray arr value = true ↔ value ∈ arr := by
  induction arr with
  | nil => simp [ExistInArray]
  | cons v rest ih =>
    unfold ExistInArray
    by_cases h : v = value
    · simp [h]
    · simp only [h, if_false, ih, List.mem_cons]
      constructor
      · intro hm; exact Or.inr hm
      · intro hm
        rcases hm with hm | hm
        · exact absurd hm.symm h
        · exact hm

end utils

namespace initialconfig

theorem applyEnvs_nil (envs : Envs) (changedEnvs : Option (List String)) (cfg : StructValue) :
    applyEnvs envs changedEnvs [] cfg = (cfg, [], false) := rfl

theorem applyEnvs_cons (envs : Envs) (changedEnvs : Option (List String)) (envName : String)
    (rest : List String) (cfg : StructValue) :
    applyEnvs envs changedEnvs (envName :: rest) cfg =
      match envs.get? envName with
      | none => applyEnvs envs changedEnvs rest cfg
      | some params =>
        if (match changedEnvs with
            | none => false
            | some names => ! utils.ExistInArray names envName) then
          applyEnvs envs changedEnvs rest cfg
        else
          if effectiveValue params = none then applyEnvs envs changedEnvs rest cfg
          else
            match SetStructFieldValueByJsonTag (.pointer cfg) envs envName
                (effectiveValue params) with
            | (cfg1, some _) =>
              (cfg1, [Event.Set envName (effectiveValue params),
                Event.Fatalf "failed to set config env \"%s\": %v"], true)
            | (cfg1, none) =>
              (( applyEnvs envs changedEnvs rest cfg1).1,
                Event.Set envName (effectiveValue params) ::
                  (applyEnvs envs changedEnvs rest cfg1).2.1,
                (applyEnvs envs changedEnvs rest cfg1).2.2) := rfl

/-- The events of a list of calls of the mutator. -/
theorem setCalls_map (calls : List (String × Any)) :
    setCalls (calls.map (fun c => Event.Set c.1 c.2)) = calls := by
  induction calls with
  | nil => rfl
  | cons c rest ih => simp [setCalls, ih]

/-- The loop that applies a snapshot does calls of the mutator and ends, when
one fails, in `Fatalf`. -/
theorem applyEnvs_trace (envs : Envs) (changedEnvs : Option (List String))
    (order : List String) (cfg : StructValue) :
    (applyEnvs envs changedEnvs order cfg).2.1 =
      (setCalls (applyEnvs envs changedEnvs order cfg).2.1).map (fun c => Event.Set c.1 c.2) ++
        (if (applyEnvs envs changedEnvs order cfg).2.2 then
          [Event.Fatalf "failed to set config env \"%s\": %v"] else []) := by
  induction order generalizing cfg with
  | nil => simp [applyEnvs_nil, setCalls]
  | cons envName rest ih =>
    rw [applyEnvs_cons]
    cases hg : envs.get? envName with
    | none => simpa using ih cfg
    | some params =>
      simp only []
      split
      · exact ih cfg
      · split
        · exact ih cfg
        · split
          · simp [setCalls]
          · rename_i cfg1 _
            have h := ih cfg1
            simp only [setCalls, List.map_cons, List.cons_append]
            exact congrArg _ h

/-- Every call of the mutator in the loop is for a key of the order that is
registered in the snapshot, that passes the filter of the changed names, and
whose effective value, which is the value of the call, is not nil. -/
theorem applyEnvs_calls_sound (envs : Envs) (changedEnvs : Option (List String))
    (order : List String) (cfg : StructValue) (c : String × Any)
    (hc : c ∈ setCalls (applyEnvs envs changedEnvs order cfg).2.1) :
    c.1 ∈ order ∧ (∃ p, envs.get? c.1 = some p ∧ c.2 = effectiveValue p) ∧ c.2 ≠ none ∧
      (∀ names, changedEnvs = some names → c.1 ∈ names) := by
  induction order generalizing cfg with
  | nil => simp [applyEnvs_nil, setCalls] at hc
  | cons envName rest ih =>
    have lift : (c.1 ∈ rest ∧ (∃ p, envs.get? c.1 = some p ∧ c.2 = effectiveValue p) ∧
        c.2 ≠ none ∧ (∀ names, changedEnvs = some names → c.1 ∈ names)) →
        (c.1 ∈ envName :: rest ∧ (∃ p, envs.get? c.1 = some p ∧ c.2 = effectiveValue p) ∧
        c.2 ≠ none ∧ (∀ names, changedEnvs = some names → c.1 ∈ names)) :=
      fun h => ⟨List.mem_cons_of_mem _ h.1, h.2⟩
    rw [applyEnvs_cons] at hc
    cases hg : envs.get? envName with
    | none =>
      simp only [hg] at hc
      exact lift (ih cfg hc)
    | some params =>
      simp only [hg] at hc
      split at hc
      · exact lift (ih cfg hc)
      · rename_i hpass
        split at hc
        · exact lift (ih cfg hc)
        · rename_i hval
          have here : ∀ x : String × Any, x = (envName, effectiveValue params) →
              x.1 ∈ envName :: rest ∧ (∃ p, envs.get? x.1 = some p ∧ x.2 = effectiveValue p) ∧
              x.2 ≠ none ∧ (∀ names, changedEnvs = some names → x.1 ∈ names) := by
            intro x hx
            subst hx
            refine ⟨List.mem_cons_self _ _, ⟨params, hg, rfl⟩, hval, ?_⟩
            intro names hn
            subst hn
            simp only [Bool.not_eq_true, Bool.not_eq_false_eq_eq_true] at hpass
            have hp : utils.ExistInArray names envName = true := by
              cases h : utils.ExistInArray names envName with
              | true => rfl
              | false => simp [h] at hpass
            exact (utils.ExistInArray_iff names envName).1 hp
          split at hc
          · simp only [setCalls, List.mem_singleton] at hc
            exact here c hc
          · rename_i cfg1 _
            simp only [setCalls, List.mem_cons] at hc
            rcases hc with hc | hc
            · exact here c hc
            · exact lift (ih cfg1 hc)

/-- When the loop does not end in `Fatalf`, it calls the mutator for every key
of the order that is registered, passes the filter of the changed names and
has an effective value other than nil. -/
theorem applyEnvs_calls_complete (envs : Envs) (changedEnvs : Option (List String))
    (order : List String) (cfg : StructValue)
    (hok : (applyEnvs envs changedEnvs order cfg).2.2 = false)
    (n : String) (hn : n ∈ order) (p : EnvParams) (hp : envs.get? n = some p)
    (hv : effectiveValue p ≠ none) (hpass : ∀ names, changedEnvs = some names → n ∈ names) :
    (n, effectiveValue p) ∈ setCalls (applyEnvs envs changedEnvs order cfg).2.1 := by
  induction order generalizing cfg with
  | nil => simp at hn
  | cons envName rest ih =>
    rw [applyEnvs_cons] at hok ⊢
    cases hg : envs.get? envName with
    | none =>
      simp only [hg] at hok ⊢
      rcases List.mem_cons.1 hn with h | h
      · subst h; rw [hp] at hg; cases hg
      · exact ih cfg hok h
    | some params =>
      simp only [hg] at hok ⊢
      split at hok
      · rename_i hskip
        rw [if_pos hskip]
        rcases List.mem_cons.1 hn with h | h
        · subst h
          exfalso
          cases hch : changedEnvs with
          | none => simp [hch] at hskip
          | some names =>
            simp only [hch, Bool.not_eq_true, Bool.not_eq_false_eq_eq_true] at hskip
            have := (utils.ExistInArray_iff names n).2 (hpass names hch)
            simp [this] at hskip
        · exact ih cfg hok h
      · rename_i hskip
        rw [if_neg hskip]
        split at hok
        · rename_i hnil
          rw [if_pos hnil]
          rcases List.mem_cons.1 hn with h | h
          · subst h
            rw [hp] at hg
            cases hg
            exact absurd hnil hv
          · exact ih cfg hok h
        · rename_i hnil
          rw [if_neg hnil]
          split at hok
          · simp at hok
          · rename_i cfg1 hset
            simp only [hset, setCalls, List.mem_cons]
            rcases List.mem_cons.1 hn with h | h
            · subst h
              rw [hp] at hg
              cases hg
              exact Or.inl rfl
            · exact Or.inr (ih cfg1 hok h)

theorem sentBatches_append (a b : List Event) :
    sentBatches (a ++ b) = sentBatches a ++ sentBatches b := by
  induction a with
  | nil => rfl
  | cons e rest ih => cases e <;> simp [sentBatches, ih]

theorem sentBatches_sets (calls : List (String × Any)) :
    sentBatches (calls.map (fun c => Event.Set c.1 c.2)) = [] := by
  induction calls with
  | nil => rfl
  | cons c rest ih => simp [sentBatches, ih]

theorem setCalls_append (a b : List Event) :
    setCalls (a ++ b) = setCalls a ++ setCalls b := by
  induction a with
  | nil => rfl
  | cons e rest ih => cases e <;> simp [setCalls, ih]

theorem mem_sentBatches (trace : List Event) (batch : List String) :
    batch ∈ sentBatches trace ↔ Event.Send batch ∈ trace := by
  induction trace with
  | nil => simp [sentBatches]
  | cons e rest ih => cases e <;> simp [sentBatches, ih]

theorem mem_setCalls (trace : List Event) (c : String × Any) :
    c ∈ setCalls trace ↔ Event.Set c.1 c.2 ∈ trace := by
  induction trace with
  | nil => simp [setCalls]
  | cons e rest ih =>
    cases e <;> simp [setCalls, ih]
    constructor
    · rintro (h | h)
      · subst h; exact Or.inl ⟨rfl, rfl⟩
      · exact Or.inr h
    · rintro (⟨h1, h2⟩ | h)
      · left; cases c; simp_all
      · exact Or.inr h

/-- The loop that applies a snapshot sends nothing. -/
theorem applyEnvs_sentBatches (envs : Envs) (changedEnvs : Option (List String))
    (order : List String) (cfg : StructValue) :
    sentBatches (applyEnvs envs changedEnvs order cfg).2.1 = [] := by
  rw [applyEnvs_trace, sentBatches_append, sentBatches_sets]
  split <;> simp [sentBatches]

end initialconfig

/-! ## The claims on the watcher and on `LoadConfig` -/

namespace initialconfig

theorem watchLoop_cons (w : World) (t : Tick) (rest : List Tick) (mainConfig : StructValue)
    (envs : Envs) :
    watchLoop w (t :: rest) mainConfig envs =
      if (watchCycle w t mainConfig envs).fatal then watchCycle w t mainConfig envs
      else
        { watchLoop w rest (watchCycle w t mainConfig envs).mainConfig
            (watchCycle w t mainConfig envs).envs with
          trace := (watchCycle w t mainConfig envs).trace ++
            (watchLoop w rest (watchCycle w t mainConfig envs).mainConfig
              (watchCycle w t mainConfig envs).envs).trace } := rfl

/-- A turn of the watcher in which the resolution fails ends in `Fatalf`. -/
theorem watchCycle_of_resolve_error (w : World) (t : Tick) (mainConfig : StructValue)
    (envs : Envs) (out : Option Envs) (err : GoError)
    (hrun : (serviceOf mainConfig (some t.consulClient)
      (some t.vaultClient)).getDataFromConsulAndVault
        (GetConfigParams w.describe (.value mainConfig)) t.resolveOrder = (out, some err)) :
    watchCycle w t mainConfig envs =
      { trace := [Event.Sleep t.randomSleepSeconds, Event.Resolve,
          Event.Fatalf "getDataFromConsulAndVault error: %v"],
        mainConfig := mainConfig, envs := envs, fatal := true } := by
  unfold watchCycle
  simp only [hrun]
  rfl

/-- A turn of the watcher in which the comparison of the snapshots fails is
logged with `Errorf` and abandoned; the loop goes on with the next turn. -/
theorem watchCycle_of_compare_error (w : World) (t : Tick) (rest : List Tick)
    (mainConfig : StructValue) (envs newEnvs : Envs) (names : List String) (err : GoError)
    (hrun : (serviceOf mainConfig (some t.consulClient)
      (some t.vaultClient)).getDataFromConsulAndVault
        (GetConfigParams w.describe (.value mainConfig)) t.resolveOrder = (some newEnvs, none))
    (hcmp : envs.GetChangedEnvs w.encode newEnvs = (names, some err)) :
    watchCycle w t mainConfig envs =
      { trace := [Event.Sleep t.randomSleepSeconds, Event.Resolve,
          Event.Errorf "failed to check is equal envs: %v"],
        mainConfig := mainConfig, envs := envs, fatal := false } ∧
    (watchLoop w (t :: rest) mainConfig envs).trace =
      [Event.Sleep t.randomSleepSeconds, Event.Resolve,
        Event.Errorf "failed to check is equal envs: %v"] ++
        (watchLoop w rest mainConfig envs).trace := by
  have h : watchCycle w t mainConfig envs =
      { trace := [Event.Sleep t.randomSleepSeconds, Event.Resolve,
          Event.Errorf "failed to check is equal envs: %v"],
        mainConfig := mainConfig, envs := envs, fatal := false } := by
    unfold watchCycle
    simp only [hrun, Option.getD_some, hcmp]
    rfl
  refine ⟨h, ?_⟩
  rw [watchLoop_cons, h]
  simp

/-- C15 (as stated, refuted): on the stand `dev`, in a turn of the watcher
during which the store is unreachable, the fetch of the first field fails
with a hard error and the turn ends in `Fatalf`: the process ends, and the
turn that would follow does not happen, its sleep of 200 seconds is not in
the events of the loop. -/
theorem C15_counterexample_failed_resolution_is_fatal :
    (demoTickDown.consulClient.GetValue "" "POSTGRES_ADDRS").2 =
      some (GoError.message "connection refused") ∧
    watchCycle demoWorld demoTickDown demoLoad.mainConfig demoLoad.envs =
      { trace := [Event.Sleep 249, Event.Resolve,
          Event.Fatalf "getDataFromConsulAndVault error: %v"],
        mainConfig := demoLoad.mainConfig, envs := demoLoad.envs, fatal := true } ∧
    (watchLoop demoWorld [demoTickDown, demoTick] demoLoad.mainConfig demoLoad.envs).trace =
      [Event.Sleep 249, Event.Resolve, Event.Fatalf "getDataFromConsulAndVault error: %v"] ∧
    Event.Sleep 200 ∉
      (watchLoop demoWorld [demoTickDown, demoTick] demoLoad.mainConfig demoLoad.envs).trace := by
  decide

/-- C15 (amended): in a turn of the watcher, if the fetch from the distributed
store fails with an error other than key-not-found for a registered field that
the resolver visits, the failure is fatal: the turn ends in `Fatalf` right
after the resolution, the stored snapshot and the configuration object are
unchanged, nothing is sent on the channel, and no further turn follows,
whatever turns would have come next. -/
theorem C15_failed_resolution_ends_the_watcher (w : World) (t : Tick) (rest : List Tick)
    (mainConfig : StructValue) (envs : Envs) (name : String) (p : EnvParams)
    (hname : name ∈ t.resolveOrder)
    (hp : (GetConfigParams w.describe (.value mainConfig)).get? name = some p)
    (e : GoError) (hfetch : (t.consulClient.GetValue (consulPath p) name).2 = some e)
    (hhard : e.isKeyNotExist = false) :
    watchCycle w t mainConfig envs =
      { trace := [Event.Sleep t.randomSleepSeconds, Event.Resolve,
          Event.Fatalf "getDataFromConsulAndVault error: %v"],
        mainConfig := mainConfig, envs := envs, fatal := true } ∧
    watchLoop w (t :: rest) mainConfig envs = watchCycle w t mainConfig envs ∧
    sentBatches (watchLoop w (t :: rest) mainConfig envs).trace = [] ∧
    setCalls (watchLoop w (t :: rest) mainConfig envs).trace = [] := by
  obtain ⟨e1, he1⟩ := resolve_error
    (serviceOf mainConfig (some t.consulClient) (some t.vaultClient))
    t.consulClient t.vaultClient rfl rfl (GetConfigParams w.describe (.value mainConfig))
    t.resolveOrder ⟨name, hname, p, hp, Or.inl (by simp [hfetch, hardError, hhard])⟩
  have hrun : (serviceOf mainConfig (some t.consulClient)
      (some t.vaultClient)).getDataFromConsulAndVault
        (GetConfigParams w.describe (.value mainConfig)) t.resolveOrder = (none, some e1) := by
    simp [cfgService.getDataFromConsulAndVault, he1]
  have hcycle := watchCycle_of_resolve_error w t mainConfig envs none e1 hrun
  have hloop : watchLoop w (t :: rest) mainConfig envs = watchCycle w t mainConfig envs := by
    rw [watchLoop_cons, hcycle]
    simp
  refine ⟨hcycle, hloop, ?_, ?_⟩
  · rw [hloop, hcycle]; rfl
  · rw [hloop, hcycle]; rfl

/-- C15 (amended) on the stand `dev` while the store is unreachable: the fetch
for `POSTGRES_ADDRS` fails, and the loop of the watcher over this turn and a
next one is this turn alone. -/
theorem C15_failed_resolution_ends_the_watcher_witness :
    "POSTGRES_ADDRS" ∈ demoTickDown.resolveOrder ∧
    watchLoop demoWorld [demoTickDown, demoTick] demoLoad.mainConfig demoLoad.envs =
      watchCycle demoWorld demoTickDown demoLoad.mainConfig demoLoad.envs :=
  ⟨by decide,
    (C15_failed_resolution_ends_the_watcher demoWorld demoTickDown [demoTick]
      demoLoad.mainConfig demoLoad.envs "POSTGRES_ADDRS" (describeConfig "POSTGRES_ADDRS").clear
      (by decide) (by decide) (GoError.message "connection refused") (by rfl)
      (by decide)).2.1⟩

end initialconfig

namespace initialconfig

/-- The closed form of a turn of the watcher whose resolution and comparison
succeed with a changed-field set that is not empty. -/
theorem watchCycle_of_changed (w : World) (t : Tick) (mainConfig : StructValue)
    (envs newEnvs : Envs) (changed : List String)
    (hrun : (serviceOf mainConfig (some t.consulClient)
      (some t.vaultClient)).getDataFromConsulAndVault
        (GetConfigParams w.describe (.value mainConfig)) t.resolveOrder = (some newEnvs, none))
    (hcmp : envs.GetChangedEnvs w.encode newEnvs = (changed, none))
    (hne : changed ≠ []) :
    watchCycle w t mainConfig envs =
      if (applyEnvs newEnvs (some changed) t.applyOrder mainConfig).2.2 then
        { trace := [Event.Sleep t.randomSleepSeconds, Event.Resolve, Event.Lock,
            Event.StoreEnvs newEnvs, Event.Unlock] ++
            (applyEnvs newEnvs (some changed) t.applyOrder mainConfig).2.1,
          mainConfig := (applyEnvs newEnvs (some changed) t.applyOrder mainConfig).1,
          envs := newEnvs, fatal := true }
      else
        { trace := [Event.Sleep t.randomSleepSeconds, Event.Resolve, Event.Lock,
            Event.StoreEnvs newEnvs, Event.Unlock] ++
            (applyEnvs newEnvs (some changed) t.applyOrder mainConfig).2.1 ++
            [Event.Info "main config was updated", Event.Send changed],
          mainConfig := (applyEnvs newEnvs (some changed) t.applyOrder mainConfig).1,
          envs := newEnvs, fatal := false } := by
  have hlen : changed.length ≠ 0 := by
    intro h
    exact hne (List.length_eq_zero.1 h)
  unfold watchCycle
  simp only [hrun, Option.getD_some, hcmp, hlen, if_false]
  split <;> simp

/-- The closed form of a turn of the watcher whose resolution and comparison
succeed with an empty changed-field set. -/
theorem watchCycle_of_unchanged (w : World) (t : Tick) (mainConfig : StructValue)
    (envs newEnvs : Envs)
    (hrun : (serviceOf mainConfig (some t.consulClient)
      (some t.vaultClient)).getDataFromConsulAndVault
        (GetConfigParams w.describe (.value mainConfig)) t.resolveOrder = (some newEnvs, none))
    (hcmp : envs.GetChangedEnvs w.encode newEnvs = ([], none)) :
    watchCycle w t mainConfig envs =
      { trace := [Event.Sleep t.randomSleepSeconds, Event.Resolve],
        mainConfig := mainConfig, envs := envs, fatal := false } := by
  unfold watchCycle
  simp only [hrun, Option.getD_some, hcmp]
  rfl

/-- C16: in a turn of the watcher whose resolution, comparison and field
applications succeed, a batch is sent if and only if the changed-field set
computed against the stored snapshot is not empty. When it is empty nothing
is sent, nothing is stored or set, and the stored snapshot and the
configuration stay as they were. When it is not empty the stored snapshot is
replaced by the new one and exactly one batch, the changed-field set, is
sent, as the last event of the turn. -/
theorem C16_batch_sent_iff_changed (w : World) (t : Tick) (mainConfig : StructValue)
    (envs newEnvs : Envs) (changed : List String)
    (hrun : (serviceOf mainConfig (some t.consulClient)
      (some t.vaultClient)).getDataFromConsulAndVault
        (GetConfigParams w.describe (.value mainConfig)) t.resolveOrder = (some newEnvs, none))
    (hcmp : envs.GetChangedEnvs w.encode newEnvs = (changed, none))
    (happly : (applyEnvs newEnvs (some changed) t.applyOrder mainConfig).2.2 = false) :
    (watchCycle w t mainConfig envs).fatal = false ∧
    ((∃ batch, Event.Send batch ∈ (watchCycle w t mainConfig envs).trace) ↔ changed ≠ []) ∧
    (changed = [] →
      sentBatches (watchCycle w t mainConfig envs).trace = [] ∧
      (watchCycle w t mainConfig envs).trace =
        [Event.Sleep t.randomSleepSeconds, Event.Resolve] ∧
      (watchCycle w t mainConfig envs).envs = envs ∧
      (watchCycle w t mainConfig envs).mainConfig = mainConfig) ∧
    (changed ≠ [] →
      sentBatches (watchCycle w t mainConfig envs).trace = [changed] ∧
      (watchCycle w t mainConfig envs).trace.getLast? = some (Event.Send changed) ∧
      Event.StoreEnvs newEnvs ∈ (watchCycle w t mainConfig envs).trace ∧
      (watchCycle w t mainConfig envs).envs = newEnvs) := by
  by_cases hne : changed = []
  · subst hne
    rw [watchCycle_of_unchanged w t mainConfig envs newEnvs hrun hcmp]
    simp [sentBatches]
  · rw [watchCycle_of_changed w t mainConfig envs newEnvs changed hrun hcmp hne, happly]
    simp only [Bool.false_eq_true, if_false]
    have hs : sentBatches ([Event.Sleep t.randomSleepSeconds, Event.Resolve, Event.Lock,
        Event.StoreEnvs newEnvs, Event.Unlock] ++
        (applyEnvs newEnvs (some changed) t.applyOrder mainConfig).2.1 ++
        [Event.Info "main config was updated", Event.Send changed]) = [changed] := by
      rw [sentBatches_append, sentBatches_append, applyEnvs_sentBatches]
      rfl
    refine ⟨trivial, ⟨fun _ => hne, fun _ => ⟨changed, by simp⟩⟩, fun h => absurd h hne,
      fun _ => ⟨hs, ?_, by simp, trivial⟩⟩
    rw [show [Event.Sleep t.randomSleepSeconds, Event.Resolve, Event.Lock,
        Event.StoreEnvs newEnvs, Event.Unlock] ++
        (applyEnvs newEnvs (some changed) t.applyOrder mainConfig).2.1 ++
        [Event.Info "main config was updated", Event.Send changed] =
        ([Event.Sleep t.randomSleepSeconds, Event.Resolve, Event.Lock,
        Event.StoreEnvs newEnvs, Event.Unlock] ++
        (applyEnvs newEnvs (some changed) t.applyOrder mainConfig).2.1 ++
        [Event.Info "main config was updated"]) ++ [Event.Send changed] by simp]
    exact List.getLast?_concat _

/-- C16 on the stand `dev`, in a turn after the key of `SERVICE_NAME` was
deleted and the one of `REDIS_ADDR` added: exactly one batch is sent, with
these two names. -/
theorem C16_batch_sent_iff_changed_witness :
    sentBatches (watchCycle demoWorld demoTickChanged demoLoad.mainConfig demoLoad.envs).trace =
      [["REDIS_ADDR", "SERVICE_NAME"]] := by
  have h := C16_batch_sent_iff_changed demoWorld demoTickChanged demoLoad.mainConfig
    demoLoad.envs
    (((serviceOf demoLoad.mainConfig (some demoTickChanged.consulClient)
      (some demoTickChanged.vaultClient)).getDataFromConsulAndVault
        (GetConfigParams demoWorld.describe (.value demoLoad.mainConfig))
        demoTickChanged.resolveOrder).1.getD [])
    ["REDIS_ADDR", "SERVICE_NAME"] (by decide) (by decide) (by decide)
  exact (h.2.2.2 (by decide)).1

end initialconfig

namespace initialconfig

/-- The changed names are keys of the new snapshot. -/
theorem changedNames_subset (encode : Any → Except GoError Bytes) (old new : Envs)
    (names : List String) (h : changedNames encode old new = .ok names) :
    ∀ n ∈ names, n ∈ new.keys := by
  induction new generalizing names with
  | nil =>
    simp only [changedNames, Except.ok.injEq] at h
    subst h
    simp
  | cons kv rest ih =>
    simp only [changedNames] at h
    split at h
    · cases h
    · cases h
    · rename_i a b _ _
      cases hr : changedNames encode old rest with
      | error err => simp [hr] at h
      | ok names1 =>
        simp only [hr, Except.ok.injEq] at h
        subst h
        intro n hn
        have hrest := ih names1 hr
        simp only [Envs.keys, List.map_cons, List.mem_cons]
        split at hn
        · exact Or.inr (hrest n hn)
        · rcases List.mem_cons.1 hn with h1 | h1
          · exact Or.inl h1
          · exact Or.inr (hrest n h1)

/-- The names in the result of `GetChangedEnvs` are keys of the new snapshot. -/
theorem GetChangedEnvs_subset (encode : Any → Except GoError Bytes) (old new : Envs)
    (changed : List String) (h : old.GetChangedEnvs encode new = (changed, none)) :
    ∀ n ∈ changed, n ∈ new.keys := by
  unfold Envs.GetChangedEnvs at h
  cases hr : changedNames encode old new with
  | error err => simp [hr] at h
  | ok names =>
    simp only [hr, Prod.mk.injEq, and_true] at h
    subst h
    intro n hn
    exact changedNames_subset encode old new names hr n ((mem_sortStrings n names).1 hn)

/-- A key of a snapshot has a descriptor in it. -/
theorem Envs.exists_get?_of_mem_keys (e : Envs) (name : String) (h : name ∈ e.keys) :
    ∃ p, e.get? name = some p := by
  cases hg : e.get? name with
  | some p => exact ⟨p, rfl⟩
  | none =>
    exfalso
    induction e with
    | nil => simp [Envs.keys] at h
    | cons kv rest ih =>
      simp only [Envs.keys, List.map_cons, List.mem_cons] at h
      simp only [Envs.get?, List.find?_cons] at hg
      by_cases hk : kv.1 = name
      · simp [hk] at hg
      · simp only [hk, decide_False] at hg
        rcases h with h | h
        · exact hk h.symm
        · exact ih h (by simpa [Envs.get?] using hg)

/-- C17 (as stated, refuted): on the stand `dev`, in the turn after the key of
`SERVICE_NAME` was deleted from the store, the batch that is sent names
`SERVICE_NAME`, whose new effective value is nil, but the only call of the
mutator in the turn is for `REDIS_ADDR`: `SERVICE_NAME` was not applied, and
the configuration keeps the former service name. -/
theorem C17_counterexample_nil_change_is_not_applied :
    sentBatches (watchCycle demoWorld demoTickChanged demoLoad.mainConfig demoLoad.envs).trace =
      [["REDIS_ADDR", "SERVICE_NAME"]] ∧
    setCalls (watchCycle demoWorld demoTickChanged demoLoad.mainConfig demoLoad.envs).trace =
      [("REDIS_ADDR", some (GoValue.str "redis:6379"))] ∧
    ((watchCycle demoWorld demoTickChanged demoLoad.mainConfig demoLoad.envs).envs.get?
      "SERVICE_NAME").map effectiveValue = some none ∧
    (watchCycle demoWorld demoTickChanged demoLoad.mainConfig
      demoLoad.envs).mainConfig.stringField "SERVICE_NAME" = "rate-limit" := by
  decide

end initialconfig

namespace initialconfig

/-- C17 (amended): in a turn of the watcher with a changed-field set that is
not empty and whose applications succeed, the events of the turn are the
resolution, the locked replacement of the stored snapshot, then calls of
`SetStructFieldValueByJsonTag`, then the sending of the batch. Every field
named in the batch is registered in the new snapshot; if its new effective
value (`ExternalValue` if `IsSecret`, otherwise `Value`) is not nil it has
been applied with that value before the batch is sent, and if it is nil the
field is named in the batch but not applied. No field outside the
changed-field set is written. -/
theorem C17_changed_fields_are_applied_before_send (w : World) (t : Tick)
    (mainConfig : StructValue) (envs newEnvs : Envs) (changed : List String)
    (hrun : (serviceOf mainConfig (some t.consulClient)
      (some t.vaultClient)).getDataFromConsulAndVault
        (GetConfigParams w.describe (.value mainConfig)) t.resolveOrder = (some newEnvs, none))
    (hcmp : envs.GetChangedEnvs w.encode newEnvs = (changed, none))
    (hne : changed ≠ [])
    (happly : (applyEnvs newEnvs (some changed) t.applyOrder mainConfig).2.2 = false)
    (hord : t.applyOrder.Perm newEnvs.keys) :
    (watchCycle w t mainConfig envs).trace =
      [Event.Sleep t.randomSleepSeconds, Event.Resolve, Event.Lock,
        Event.StoreEnvs newEnvs, Event.Unlock] ++
      (setCalls (watchCycle w t mainConfig envs).trace).map (fun c => Event.Set c.1 c.2) ++
      [Event.Info "main config was updated", Event.Send changed] ∧
    (∀ n ∈ changed, ∃ p, newEnvs.get? n = some p ∧
      (effectiveValue p ≠ none →
        (n, effectiveValue p) ∈ setCalls (watchCycle w t mainConfig envs).trace) ∧
      (effectiveValue p = none →
        ∀ x, (n, x) ∉ setCalls (watchCycle w t mainConfig envs).trace)) ∧
    (∀ c ∈ setCalls (watchCycle w t mainConfig envs).trace,
      c.1 ∈ changed ∧ c.2 ≠ none ∧ ∃ p, newEnvs.get? c.1 = some p ∧ c.2 = effectiveValue p) := by
  have hcalls : setCalls (watchCycle w t mainConfig envs).trace =
      setCalls (applyEnvs newEnvs (some changed) t.applyOrder mainConfig).2.1 := by
    rw [watchCycle_of_changed w t mainConfig envs newEnvs changed hrun hcmp hne, happly]
    simp [setCalls_append, setCalls]
  have htrace := applyEnvs_trace newEnvs (some changed) t.applyOrder mainConfig
  rw [happly] at htrace
  simp only [Bool.false_eq_true, if_false, List.append_nil] at htrace
  rw [hcalls]
  refine ⟨?_, ?_, ?_⟩
  · rw [watchCycle_of_changed w t mainConfig envs newEnvs changed hrun hcmp hne, happly]
    simp only [Bool.false_eq_true, if_false]
    rw [← htrace]
  · intro n hn
    obtain ⟨p, hp⟩ := Envs.exists_get?_of_mem_keys newEnvs n
      (GetChangedEnvs_subset w.encode envs newEnvs changed hcmp n hn)
    refine ⟨p, hp, ?_, ?_⟩
    · intro hv
      exact applyEnvs_calls_complete newEnvs (some changed) t.applyOrder mainConfig happly n
        (hord.symm.subset (mem_keys_of_get? newEnvs n p hp)) p hp hv
        (fun names hnames => by cases hnames; exact hn)
    · intro hv x hx
      obtain ⟨_, ⟨q, hq, hxq⟩, hnn, _⟩ := applyEnvs_calls_sound newEnvs (some changed)
        t.applyOrder mainConfig (n, x) hx
      simp only at hq hxq hnn
      rw [hp] at hq
      cases hq
      exact hnn (hxq.trans hv)
  · intro c hc
    obtain ⟨_, hreg, hnn, hpass⟩ := applyEnvs_calls_sound newEnvs (some changed)
      t.applyOrder mainConfig c hc
    exact ⟨hpass changed rfl, hnn, hreg⟩

/-- C17 (amended) on the stand `dev`, in the turn after the key of
`SERVICE_NAME` was deleted and the one of `REDIS_ADDR` added. -/
theorem C17_changed_fields_are_applied_before_send_witness :
    demoTickChanged.applyOrder.Perm
      (((serviceOf demoLoad.mainConfig (some demoTickChanged.consulClient)
        (some demoTickChanged.vaultClient)).getDataFromConsulAndVault
          (GetConfigParams demoWorld.describe (.value demoLoad.mainConfig))
          demoTickChanged.resolveOrder).1.getD []).keys ∧
    ∀ c ∈ setCalls
        (watchCycle demoWorld demoTickChanged demoLoad.mainConfig demoLoad.envs).trace,
      c.1 ∈ ["REDIS_ADDR", "SERVICE_NAME"] ∧ c.2 ≠ none ∧
        ∃ p, (((serviceOf demoLoad.mainConfig (some demoTickChanged.consulClient)
          (some demoTickChanged.vaultClient)).getDataFromConsulAndVault
            (GetConfigParams demoWorld.describe (.value demoLoad.mainConfig))
            demoTickChanged.resolveOrder).1.getD []).get? c.1 = some p ∧
          c.2 = effectiveValue p :=
  ⟨by decide,
    (C17_changed_fields_are_applied_before_send demoWorld demoTickChanged demoLoad.mainConfig
      demoLoad.envs
      (((serviceOf demoLoad.mainConfig (some demoTickChanged.consulClient)
        (some demoTickChanged.vaultClient)).getDataFromConsulAndVault
          (GetConfigParams demoWorld.describe (.value demoLoad.mainConfig))
          demoTickChanged.resolveOrder).1.getD [])
      ["REDIS_ADDR", "SERVICE_NAME"] (by decide) (by decide) (by decide) (by decide)
      (by decide)).2.2⟩

end initialconfig

namespace initialconfig

/-- Setting a field leaves the fields with other tags as they are. -/
theorem StructValue.get_set_other (name m : String) (raw : GoValue) (hm : m ≠ name)
    (s s1 : StructValue) (h : s.set name raw = some (.ok s1)) : s1.get m = s.get m := by
  induction s generalizing s1 with
  | nil => simp [StructValue.set] at h
  | field tag value rest ih =>
    by_cases ht : tag = name
    · simp only [StructValue.set, ht, if_true, Option.some.injEq] at h
      cases hc : coerce value.type raw with
      | error e => simp [hc, Except.map] at h
      | ok w =>
        simp only [hc, Except.map, Except.ok.injEq] at h
        subst h
        have hne : ¬ name = m := fun e => hm e.symm
        simp [StructValue.get, ht, hne]
    · simp only [StructValue.set, ht, if_false] at h
      cases hr : StructValue.set name raw rest with
      | none => simp [hr] at h
      | some r =>
        cases r with
        | error e => simp [hr, Except.map] at h
        | ok r1 =>
          simp only [hr, Option.map_some', Except.map, Option.some.injEq,
            Except.ok.injEq] at h
          subst h
          simp only [StructValue.get]
          rw [ih r1 hr]
  | embed inner rest ih1 ih2 =>
    simp only [StructValue.set] at h
    cases hi : StructValue.set name raw inner with
    | some r =>
      cases r with
      | error e => simp [hi, Except.map] at h
      | ok i1 =>
        simp only [hi, Except.map, Option.some.injEq, Except.ok.injEq] at h
        subst h
        simp only [StructValue.get]
        rw [ih1 i1 hi]
    | none =>
      simp only [hi] at h
      cases hr : StructValue.set name raw rest with
      | none => simp [hr] at h
      | some r =>
        cases r with
        | error e => simp [hr, Except.map] at h
        | ok r1 =>
          simp only [hr, Option.map_some', Except.map, Option.some.injEq,
            Except.ok.injEq] at h
          subst h
          simp only [StructValue.get]
          rw [ih2 r1 hr]

/-- A call of the mutator that fails leaves the struct as it is. -/
theorem Set_error_unchanged (s s1 : StructValue) (envs : Envs) (name : String) (value : Any)
    (e : SetError)
    (h : SetStructFieldValueByJsonTag (.pointer s) envs name value = (s1, some e)) :
    s1 = s := by
  unfold SetStructFieldValueByJsonTag at h
  simp only at h
  repeat' split at h
  all_goals first
    | (cases h; rfl)
    | (simp only [Prod.mk.injEq] at h; first | exact h.1.symm | exact absurd h.2 (by simp))

/-- A call of the mutator that succeeds: the field with the tag had a value,
the raw value coerced to its type is what the field holds afterwards, and the
fields with other tags are as they were. -/
theorem Set_success (s s1 : StructValue) (envs : Envs) (name : String) (value : Any)
    (h : SetStructFieldValueByJsonTag (.pointer s) envs name value = (s1, none)) :
    ∃ raw old w, value = some raw ∧ s.get name = some old ∧ coerce old.type raw = .ok w ∧
      s1.get name = some w ∧ ∀ m, m ≠ name → s1.get m = s.get m := by
  cases hg : envs.get? name with
  | none => simp [SetStructFieldValueByJsonTag, hg] at h
  | some p =>
    cases value with
    | none => simp [SetStructFieldValueByJsonTag, hg] at h
    | some raw =>
      by_cases hraw : raw = GoValue.str ""
      · simp [SetStructFieldValueByJsonTag, hg, hraw] at h
      · cases hold : s.get name with
        | none =>
          simp [SetStructFieldValueByJsonTag, hg, hraw,
            StructValue.set_of_get_none name raw s hold] at h
        | some old =>
          obtain ⟨herr, hok⟩ := StructValue.set_of_get name raw s old hold
          cases hc : coerce old.type raw with
          | error e => simp [SetStructFieldValueByJsonTag, hg, hraw, herr e hc] at h
          | ok w =>
            obtain ⟨s2, hs2, hg2⟩ := hok w hc
            simp only [SetStructFieldValueByJsonTag, hg, hraw, if_false, hs2, Prod.mk.injEq,
              and_true] at h
            subst h
            exact ⟨raw, old, w, rfl, rfl, hc, hg2,
              fun m hm => StructValue.get_set_other name m raw hm s s2 hs2⟩

end initialconfig

namespace initialconfig

/-- The loop that applies a snapshot leaves a field as it is unless the field
is a key of the order that is registered, passes the filter of the changed
names and has an effective value other than nil. -/
theorem applyEnvs_get_untouched (envs : Envs) (changedEnvs : Option (List String))
    (order : List String) (cfg : StructValue) (n : String)
    (hnot : ¬ (n ∈ order ∧ ∃ p, envs.get? n = some p ∧ effectiveValue p ≠ none ∧
      ∀ names, changedEnvs = some names → n ∈ names)) :
    (applyEnvs envs changedEnvs order cfg).1.get n = cfg.get n := by
  induction order generalizing cfg with
  | nil => rfl
  | cons envName rest ih =>
    have hrest : ¬ (n ∈ rest ∧ ∃ p, envs.get? n = some p ∧ effectiveValue p ≠ none ∧
        ∀ names, changedEnvs = some names → n ∈ names) :=
      fun h => hnot ⟨List.mem_cons_of_mem _ h.1, h.2⟩
    rw [applyEnvs_cons]
    cases hg : envs.get? envName with
    | none => exact ih cfg hrest
    | some params =>
      simp only []
      split
      · exact ih cfg hrest
      · rename_i hpass
        split
        · exact ih cfg hrest
        · rename_i hval
          have hne : n ≠ envName := by
            intro e
            subst e
            apply hnot
            refine ⟨List.mem_cons_self _ _, params, hg, hval, ?_⟩
            intro names hn
            subst hn
            simp only [Bool.not_eq_true, Bool.not_eq_false_eq_eq_true] at hpass
            have hp : utils.ExistInArray names n = true := by
              cases h : utils.ExistInArray names n with
              | true => rfl
              | false => simp [h] at hpass
            exact (utils.ExistInArray_iff names n).1 hp
          cases hset : SetStructFieldValueByJsonTag (.pointer cfg) envs envName
              (effectiveValue params) with
          | mk cfg1 err =>
            cases err with
            | some e =>
              simp only []
              rw [Set_error_unchanged cfg cfg1 envs envName _ e hset]
            | none =>
              simp only []
              obtain ⟨_, _, _, _, _, _, _, hother⟩ := Set_success cfg cfg1 envs envName _ hset
              rw [ih cfg1 hrest, hother n hne]

/-- When the loop that applies a snapshot does not end in `Fatalf`, every
field that is a key of the order, is registered, passes the filter of the
changed names and has an effective value other than nil holds, after the
loop, that value coerced to its type. -/
theorem applyEnvs_get_applied (envs : Envs) (changedEnvs : Option (List String))
    (order : List String) (cfg : StructValue)
    (hok : (applyEnvs envs changedEnvs order cfg).2.2 = false)
    (n : String) (hn : n ∈ order) (p : EnvParams) (raw : GoValue)
    (hp : envs.get? n = some p) (hv : effectiveValue p = some raw)
    (hpass : ∀ names, changedEnvs = some names → n ∈ names) :
    ∃ old w, cfg.get n = some old ∧ coerce old.type raw = .ok w ∧
      (applyEnvs envs changedEnvs order cfg).1.get n = some w := by
  induction order generalizing cfg with
  | nil => simp at hn
  | cons envName rest ih =>
    rw [applyEnvs_cons] at hok ⊢
    cases hg : envs.get? envName with
    | none =>
      simp only [hg] at hok ⊢
      rcases List.mem_cons.1 hn with h | h
      · subst h; rw [hp] at hg; cases hg
      · exact ih cfg hok h
    | some params =>
      simp only [hg] at hok ⊢
      split at hok
      · rename_i hskip
        rw [if_pos hskip]
        rcases List.mem_cons.1 hn with h | h
        · subst h
          exfalso
          cases hch : changedEnvs with
          | none => simp [hch] at hskip
          | some names =>
            simp only [hch, Bool.not_eq_true, Bool.not_eq_false_eq_eq_true] at hskip
            have := (utils.ExistInArray_iff names n).2 (hpass names hch)
            simp [this] at hskip
        · exact ih cfg hok h
      · rename_i hskip
        rw [if_neg hskip]
        split at hok
        · rename_i hnil
          rw [if_pos hnil]
          rcases List.mem_cons.1 hn with h | h
          · subst h
            rw [hp] at hg
            cases hg
            rw [hv] at hnil
            cases hnil
          · exact ih cfg hok h
        · rename_i hnil
          rw [if_neg hnil]
          cases hset : SetStructFieldValueByJsonTag (.pointer cfg) envs envName
              (effectiveValue params) with
          | mk cfg1 err =>
            cases err with
            | some e => simp [hset] at hok
            | none =>
              simp only [hset] at hok ⊢
              obtain ⟨raw1, old1, w1, hraw1, hold1, hc1, hget1, hother⟩ :=
                Set_success cfg cfg1 envs envName _ hset
              by_cases hin : n ∈ rest
              · obtain ⟨old, w, hold, hc, hfin⟩ := ih cfg1 hok hin
                by_cases hne : n = envName
                · subst hne
                  rw [hp] at hg
                  cases hg
                  rw [hv] at hraw1
                  cases hraw1
                  rw [hget1] at hold
                  cases hold
                  refine ⟨old1, w, hold1, ?_, hfin⟩
                  rw [← coerce_type _ _ _ hc1]
                  exact hc
                · exact ⟨old, w, by rw [← hother n hne]; exact hold, hc, hfin⟩
              · have hne : n = envName := by
                  rcases List.mem_cons.1 hn with h | h
                  · exact h
                  · exact absurd h hin
                subst hne
                rw [hp] at hg
                cases hg
                rw [hv] at hraw1
                cases hraw1
                refine ⟨old1, w1, hold1, hc1, ?_⟩
                rw [applyEnvs_get_untouched envs changedEnvs rest cfg1 n (fun h => hin h.1)]
                exact hget1

end initialconfig

namespace initialconfig

theorem LoadConfigFromEnv_ok {α : Type} (load : Except GoError α) (Validation : Bool)
    (Validate : α → Option GoError) (cfg : α)
    (h : LoadConfigFromEnv true load Validation Validate = .ok cfg) :
    load = .ok cfg ∧ (Validation = true → Validate cfg = none) := by
  unfold LoadConfigFromEnv at h
  simp only [not_true_eq_false, if_false] at h
  cases hl : load with
  | error e => simp [hl] at h
  | ok c =>
    simp only [hl] at h
    cases hv : Validation with
    | false =>
      simp only [hv, Bool.false_eq_true, not_false_eq_true, if_true, Except.ok.injEq] at h
      subst h
      simp
    | true =>
      simp only [hv, not_true_eq_false, if_false] at h
      cases hval : Validate c with
      | some e => simp [hval] at h
      | none =>
        simp only [hval, Except.ok.injEq] at h
        subst h
        simp [hval]

/-- The loop that applies a snapshot does not start the watcher. -/
theorem applyEnvs_no_Go (envs : Envs) (changedEnvs : Option (List String))
    (order : List String) (cfg : StructValue) :
    Event.Go ∉ (applyEnvs envs changedEnvs order cfg).2.1 := by
  rw [applyEnvs_trace]
  split <;> simp

/-- The loop that applies a snapshot, when a call of the mutator fails, ends
in `Fatalf`. -/
theorem applyEnvs_last_of_fatal (envs : Envs) (changedEnvs : Option (List String))
    (order : List String) (cfg : StructValue)
    (hfatal : (applyEnvs envs changedEnvs order cfg).2.2 = true) :
    ∃ pre, (applyEnvs envs changedEnvs order cfg).2.1 =
      pre ++ [Event.Fatalf "failed to set config env \"%s\": %v"] := by
  have h := applyEnvs_trace envs changedEnvs order cfg
  rw [hfatal] at h
  simp only [if_true] at h
  exact ⟨_, h⟩

theorem getLast?_append_concat {α : Type} (a b : List α) (x : α) :
    (a ++ (b ++ [x])).getLast? = some x := by
  rw [← List.append_assoc]
  exact List.getLast?_concat _

theorem LoadConfig_cases (w : World) (resolveOrder applyOrder : List String)
    (mainConfig : StructValue) (R : LoadResult)
    (hR : LoadConfig w resolveOrder applyOrder mainConfig = R) :
    (R.returned = true →
      ∃ initConfig main1 consulClient vaultClient,
        w.loadInitial = .ok initConfig ∧ initConfig.Validate = none ∧
        w.loadMain mainConfig = .ok main1 ∧
        (initConfig.ConsulEnabled = true →
          ∃ c, consul.NewConsul w.consulNewClient (main1.stringField "SERVICE_NAME")
            (main1.stringField "CONSUL_STAND_NAME") initConfig.ConsulGeneralUrl
            initConfig.ConsulGeneralToken = .ok c ∧ consulClient = some c) ∧
        (initConfig.VaultEnabled = true →
          ∃ v, vault.NewVault w.vaultNewClient initConfig.VaultGeneralUrl
            initConfig.VaultGeneralToken initConfig.VaultMountPath = .ok v ∧
            vaultClient = some v) ∧
        (initConfig.ConsulEnabled = true ∧ initConfig.VaultEnabled = true →
          ∃ envs, (serviceOf main1 consulClient vaultClient).getDataFromConsulAndVault
              (GetConfigParams w.describe (.value main1)) resolveOrder = (some envs, none) ∧
            R.envs = envs ∧
            (applyEnvs envs none applyOrder main1).2.2 = false ∧
            R.mainConfig = (applyEnvs envs none applyOrder main1).1 ∧
            setCalls R.trace = setCalls (applyEnvs envs none applyOrder main1).2.1 ∧
            R.watcher = true) ∧
        (¬ (initConfig.ConsulEnabled = true ∧ initConfig.VaultEnabled = true) →
          R.mainConfig = main1 ∧ setCalls R.trace = [] ∧ R.watcher = false) ∧
        w.Validate R.mainConfig = none) ∧
    (R.returned = false →
      R.watcher = false ∧ Event.Go ∉ R.trace ∧
      ∃ format, R.trace.getLast? = some (Event.Fatalf format)) := by
  unfold LoadConfig at hR
  cases h1 : LoadConfigFromEnv true w.loadInitial true initialConfig.Validate with
  | error e =>
    simp only [h1] at hR
    subst hR
    simp
  | ok initConfig =>
    obtain ⟨hi1, hi2⟩ := LoadConfigFromEnv_ok _ _ _ _ h1
    simp only [h1] at hR
    cases h2 : LoadConfigFromEnv true (w.loadMain mainConfig) false w.Validate with
    | error e =>
      simp only [h2] at hR
      subst hR
      simp
    | ok main1 =>
      obtain ⟨hm1, _⟩ := LoadConfigFromEnv_ok _ _ _ _ h2
      simp only [h2] at hR
      clear h1 h2
      have hv0 := hi2 rfl
      cases hce : initConfig.ConsulEnabled with
      | false =>
        cases hve : initConfig.VaultEnabled with
        | false =>
          simp only [hce, hve, Bool.false_eq_true, if_false, false_and, not_false_eq_true,
            if_true, true_or, not_true_eq_false, List.append_nil] at hR
          cases hval : w.Validate main1 with
          | some e =>
            simp only [hval] at hR
            subst hR
            simp
          | none =>
            simp only [hval] at hR
            subst hR
            refine ⟨fun _ => ⟨initConfig, main1, none, none, hi1, hv0, hm1, ?_, ?_, ?_, ?_, hval⟩,
              fun h => by simp at h⟩ <;> simp [hce, hve, setCalls]
        | true =>
          simp only [hce, hve, Bool.false_eq_true, if_false, if_true, false_and,
            not_false_eq_true, true_or, not_true_eq_false, List.nil_append] at hR
          cases hnv : vault.NewVault w.vaultNewClient initConfig.VaultGeneralUrl
              initConfig.VaultGeneralToken initConfig.VaultMountPath with
          | error e =>
            simp only [hnv] at hR
            subst hR
            simp
          | ok v =>
            simp only [hnv] at hR
            cases hval : w.Validate main1 with
            | some e =>
              simp only [hval] at hR
              subst hR
              simp
            | none =>
              simp only [hval] at hR
              subst hR
              refine ⟨fun _ => ⟨initConfig, main1, none, some v, hi1, hv0, hm1, ?_, ?_, ?_, ?_,
                hval⟩, fun h => by simp at h⟩ <;> simp [hce, hve, hnv, setCalls]
      | true =>
        simp only [hce, if_true] at hR
        cases hnc : consul.NewConsul w.consulNewClient (main1.stringField "SERVICE_NAME")
            (main1.stringField "CONSUL_STAND_NAME") initConfig.ConsulGeneralUrl
            initConfig.ConsulGeneralToken with
        | error e =>
          simp only [hnc] at hR
          subst hR
          simp
        | ok c =>
          simp only [hnc] at hR
          cases hve : initConfig.VaultEnabled with
          | false =>
            simp only [hve, Bool.false_eq_true, if_false, and_false, not_false_eq_true,
              if_true, or_true, not_true_eq_false, List.append_nil] at hR
            cases hval : w.Validate main1 with
            | some e =>
              simp only [hval] at hR
              subst hR
              simp
            | none =>
              simp only [hval] at hR
              subst hR
              refine ⟨fun _ => ⟨initConfig, main1, some c, none, hi1, hv0, hm1, ?_, ?_, ?_, ?_,
                hval⟩, fun h => by simp at h⟩ <;> simp [hce, hve, hnc, setCalls]
          | true =>
            simp only [hve, if_true] at hR
            cases hnv : vault.NewVault w.vaultNewClient initConfig.VaultGeneralUrl
                initConfig.VaultGeneralToken initConfig.VaultMountPath with
            | error e =>
              simp only [hnv] at hR
              subst hR
              simp
            | ok v =>
              simp only [hnv, and_self, if_true, not_true_eq_false, or_self, if_false] at hR
              rcases getData_cases (serviceOf main1 (some c) (some v))
                (GetConfigParams w.describe (.value main1)) resolveOrder with ⟨e, hg⟩ | ⟨envs, hg⟩
              · simp only [hg] at hR
                subst hR
                simp
              · simp only [hg, Option.getD_some] at hR
                cases hap : (applyEnvs envs none applyOrder main1).2.2 with
                | true =>
                  simp only [hap, Bool.not_true, Bool.false_eq_true, not_false_eq_true,
                    if_true] at hR
                  subst hR
                  obtain ⟨pre, hpre⟩ := applyEnvs_last_of_fatal envs none applyOrder main1 hap
                  refine ⟨fun h => by simp at h, fun _ => ⟨rfl, ?_, ?_⟩⟩
                  · have := applyEnvs_no_Go envs none applyOrder main1
                    simp [this]
                  · rw [hpre]
                    exact ⟨_, getLast?_append_concat _ pre _⟩
                | false =>
                  simp only [hap, Bool.not_false, not_true_eq_false, if_false] at hR
                  cases hval : w.Validate (applyEnvs envs none applyOrder main1).1 with
                  | some e =>
                    simp only [hval] at hR
                    subst hR
                    refine ⟨fun h => by simp at h, fun _ => ⟨rfl, ?_, ?_⟩⟩
                    · have := applyEnvs_no_Go envs none applyOrder main1
                      simp [this]
                    · exact ⟨_, List.getLast?_concat _⟩
                  | none =>
                    simp only [hval] at hR
                    subst hR
                    refine ⟨fun _ => ⟨initConfig, main1, some c, some v, hi1, hv0, hm1, ?_, ?_,
                      ?_, ?_, hval⟩, fun h => by simp at h⟩
                    · intro _; exact ⟨c, hnc, rfl⟩
                    · intro _; exact ⟨v, hnv, rfl⟩
                    · intro _
                      refine ⟨envs, hg, rfl, hap, rfl, ?_, rfl⟩
                      simp [setCalls_append, setCalls]
                    · intro h
                      exact absurd ⟨hce, hve⟩ h

end initialconfig

namespace initialconfig

/-- C18: `LoadConfig` returns only with a resolved and valid configuration.
Whenever it returns, the initial and the local configuration were loaded, the
enabled clients were created and, when both stores are enabled, one
resolution succeeded, its snapshot is stored and every registered field of
the visit with an effective value other than nil was applied with that value:
the configuration object holds for that field the value coerced to the type
of the field, and every other field as it was loaded; the configuration
object then passes `Validate`. When it does not return, the
last event is `Fatalf` and no watcher was started. A failure of the loading
of the initial or of the local configuration, of the first resolution, of the
application of a field or of the validation makes it not return. -/
theorem C18_LoadConfig_returns_only_valid (w : World) (resolveOrder applyOrder : List String)
    (mainConfig : StructValue) :
    ((LoadConfig w resolveOrder applyOrder mainConfig).returned = true →
      w.Validate (LoadConfig w resolveOrder applyOrder mainConfig).mainConfig = none ∧
      ∃ initConfig main1 consulClient vaultClient,
        w.loadInitial = .ok initConfig ∧ initConfig.Validate = none ∧
        w.loadMain mainConfig = .ok main1 ∧
        (initConfig.ConsulEnabled = true →
          ∃ c, consul.NewConsul w.consulNewClient (main1.stringField "SERVICE_NAME")
            (main1.stringField "CONSUL_STAND_NAME") initConfig.ConsulGeneralUrl
            initConfig.ConsulGeneralToken = .ok c ∧ consulClient = some c) ∧
        (initConfig.VaultEnabled = true →
          ∃ v, vault.NewVault w.vaultNewClient initConfig.VaultGeneralUrl
            initConfig.VaultGeneralToken initConfig.VaultMountPath = .ok v ∧
            vaultClient = some v) ∧
        (initConfig.ConsulEnabled = true ∧ initConfig.VaultEnabled = true →
          ∃ envs, (serviceOf main1 consulClient vaultClient).getDataFromConsulAndVault
              (GetConfigParams w.describe (.value main1)) resolveOrder = (some envs, none) ∧
            (LoadConfig w resolveOrder applyOrder mainConfig).envs = envs ∧
            (applyEnvs envs none applyOrder main1).2.2 = false ∧
            (LoadConfig w resolveOrder applyOrder mainConfig).mainConfig =
              (applyEnvs envs none applyOrder main1).1 ∧
            (∀ n ∈ applyOrder, ∀ p, envs.get? n = some p → effectiveValue p ≠ none →
              (n, effectiveValue p) ∈
                setCalls (LoadConfig w resolveOrder applyOrder mainConfig).trace) ∧
            (∀ n ∈ applyOrder, ∀ p raw, envs.get? n = some p → effectiveValue p = some raw →
              ∃ old coerced, GetStructFieldValueByJsonTag (.pointer main1) n = some old ∧
                coerce old.type raw = .ok coerced ∧
                GetStructFieldValueByJsonTag
                  (.pointer (LoadConfig w resolveOrder applyOrder mainConfig).mainConfig) n =
                  some coerced) ∧
            (∀ n, ¬ (n ∈ applyOrder ∧ ∃ p, envs.get? n = some p ∧ effectiveValue p ≠ none) →
              GetStructFieldValueByJsonTag
                (.pointer (LoadConfig w resolveOrder applyOrder mainConfig).mainConfig) n =
                GetStructFieldValueByJsonTag (.pointer main1) n)) ∧
        (¬ (initConfig.ConsulEnabled = true ∧ initConfig.VaultEnabled = true) →
          (LoadConfig w resolveOrder applyOrder mainConfig).mainConfig = main1)) ∧
    ((LoadConfig w resolveOrder applyOrder mainConfig).returned = false →
      (LoadConfig w resolveOrder applyOrder mainConfig).watcher = false ∧
      Event.Go ∉ (LoadConfig w resolveOrder applyOrder mainConfig).trace ∧
      ∃ format, (LoadConfig w resolveOrder applyOrder mainConfig).trace.getLast? =
        some (Event.Fatalf format)) ∧
    ((∃ e, w.loadInitial = .error e) →
      (LoadConfig w resolveOrder applyOrder mainConfig).returned = false) ∧
    ((∃ e, w.loadMain mainConfig = .error e) →
      (LoadConfig w resolveOrder applyOrder mainConfig).returned = false) ∧
    (∀ initConfig main1 c v, w.loadInitial = .ok initConfig →
      initConfig.ConsulEnabled = true → initConfig.VaultEnabled = true →
      w.loadMain mainConfig = .ok main1 →
      consul.NewConsul w.consulNewClient (main1.stringField "SERVICE_NAME")
        (main1.stringField "CONSUL_STAND_NAME") initConfig.ConsulGeneralUrl
        initConfig.ConsulGeneralToken = .ok c →
      vault.NewVault w.vaultNewClient initConfig.VaultGeneralUrl
        initConfig.VaultGeneralToken initConfig.VaultMountPath = .ok v →
      (((serviceOf main1 (some c) (some v)).getDataFromConsulAndVault
          (GetConfigParams w.describe (.value main1)) resolveOrder).2 ≠ none →
        (LoadConfig w resolveOrder applyOrder mainConfig).returned = false) ∧
      (∀ envs, (serviceOf main1 (some c) (some v)).getDataFromConsulAndVault
          (GetConfigParams w.describe (.value main1)) resolveOrder = (some envs, none) →
        (applyEnvs envs none applyOrder main1).2.2 = true →
        (LoadConfig w resolveOrder applyOrder mainConfig).returned = false)) ∧
    ((∃ e, w.Validate (LoadConfig w resolveOrder applyOrder mainConfig).mainConfig = some e) →
      (LoadConfig w resolveOrder applyOrder mainConfig).returned = false) := by
  obtain ⟨hret, hfatal⟩ := LoadConfig_cases w resolveOrder applyOrder mainConfig _ rfl
  have hnot : ∀ {q : Prop}, ((LoadConfig w resolveOrder applyOrder mainConfig).returned = true →
      q → False) → q → (LoadConfig w resolveOrder applyOrder mainConfig).returned = false := by
    intro q h hq
    cases hr : (LoadConfig w resolveOrder applyOrder mainConfig).returned with
    | false => rfl
    | true => exact absurd hq (h hr)
  refine ⟨?_, hfatal, hnot ?_, hnot ?_, ?_, hnot ?_⟩
  · intro hr
    obtain ⟨initConfig, main1, cc, vc, hi, hiv, hm, hc, hv, hboth, hloc, hval⟩ := hret hr
    refine ⟨hval, initConfig, main1, cc, vc, hi, hiv, hm, hc, hv, ?_, fun h => (hloc h).1⟩
    intro hb
    obtain ⟨envs, hg, he, hap, hcfg, hcalls, _⟩ := hboth hb
    refine ⟨envs, hg, he, hap, hcfg, ?_, ?_, ?_⟩
    · intro n hn p hp hv
      rw [hcalls]
      exact applyEnvs_calls_complete envs none applyOrder main1 hap n hn p hp hv
        (fun names h => by cases h)
    · intro n hn p raw hp hv
      rw [hcfg]
      exact applyEnvs_get_applied envs none applyOrder main1 hap n hn p raw hp hv
        (fun names h => by cases h)
    · intro n hnot
      rw [hcfg]
      exact applyEnvs_get_untouched envs none applyOrder main1 n
        (fun h => hnot ⟨h.1, h.2.choose, h.2.choose_spec.1, h.2.choose_spec.2.1⟩)
  · rintro hr ⟨e, he⟩
    obtain ⟨initConfig, _, _, _, hi, _⟩ := hret hr
    rw [he] at hi
    cases hi
  · rintro hr ⟨e, he⟩
    obtain ⟨_, main1, _, _, _, _, hm, _⟩ := hret hr
    rw [he] at hm
    cases hm
  · intro initConfig main1 c v hi hce hve hm hnc hnv
    have key : (LoadConfig w resolveOrder applyOrder mainConfig).returned = true →
        ∃ envs, (serviceOf main1 (some c) (some v)).getDataFromConsulAndVault
          (GetConfigParams w.describe (.value main1)) resolveOrder = (some envs, none) ∧
          (applyEnvs envs none applyOrder main1).2.2 = false := by
      intro hr
      obtain ⟨initConfig1, main2, cc, vc, hi1, _, hm1, hc1, hv1, hboth, _, _⟩ := hret hr
      rw [hi] at hi1
      cases hi1
      rw [hm] at hm1
      cases hm1
      obtain ⟨c1, hc2, hcc⟩ := hc1 hce
      obtain ⟨v1, hv2, hvc⟩ := hv1 hve
      rw [hnc] at hc2
      cases hc2
      rw [hnv] at hv2
      cases hv2
      subst hcc
      subst hvc
      obtain ⟨envs, hg, _, hap, _⟩ := hboth ⟨hce, hve⟩
      exact ⟨envs, hg, hap⟩
    constructor
    · refine hnot ?_
      intro hr hne
      obtain ⟨envs, hg, _⟩ := key hr
      rw [hg] at hne
      exact hne rfl
    · intro envs hg
      refine hnot ?_
      intro hr hap
      obtain ⟨envs1, hg1, hap1⟩ := key hr
      rw [hg] at hg1
      cases hg1
      rw [hap] at hap1
      cases hap1
  · rintro hr ⟨e, he⟩
    obtain ⟨_, _, _, _, _, _, _, _, _, _, _, hval⟩ := hret hr
    rw [he] at hval
    cases hval

/-- C18 on the stand `dev`: `LoadConfig` returns, so the configuration it
leaves passes `Validate` and holds the resolved secret in the field
`REDIS_PASS`; and in the same process with a validation that fails it does
not return, the last event is `Fatalf` and no watcher is started. -/
theorem C18_LoadConfig_returns_only_valid_witness :
    demoLoad.returned = true ∧ demoWorld.Validate demoLoad.mainConfig = none ∧
    GetStructFieldValueByJsonTag (.pointer demoLoad.mainConfig) "REDIS_PASS" =
      some (GoValue.str "hunter2") ∧
    (LoadConfig { demoWorld with Validate := fun _ => some (GoError.message "invalid") }
      demoOrder demoOrder testConfig).returned = false ∧
    (LoadConfig { demoWorld with Validate := fun _ => some (GoError.message "invalid") }
      demoOrder demoOrder testConfig).watcher = false := by
  obtain ⟨hval, initConfig, main1, cc, vc, hi, _, hm, _, _, hboth, _⟩ :=
    (C18_LoadConfig_returns_only_valid demoWorld demoOrder demoOrder testConfig).1 (by decide)
  have hi2 : demoWorld.loadInitial = .ok demoInitialConfig := rfl
  rw [hi2] at hi
  cases hi
  obtain ⟨envs, _, he, _, _, _, happlied, _⟩ := hboth ⟨rfl, rfl⟩
  have he2 : envs = demoLoad.envs := he.symm
  subst he2
  obtain ⟨old, coerced, hold, hco, hfin⟩ := happlied "REDIS_PASS" (by decide)
    { ConfigType := .ConfigTypeLocal, IsSecret := true, IsJson := false, DiscoveryField := "",
      Value := some (GoValue.str "secret/redis"),
      ExternalValue := some (GoValue.str "hunter2") }
    (GoValue.str "hunter2") (by decide) (by decide)
  have hm2 : demoLoadMain testConfig = .ok main1 := hm
  simp only [demoLoadMain, Except.ok.injEq] at hm2
  subst hm2
  have hold2 : GetStructFieldValueByJsonTag
      (.pointer (SetStructFieldValueByJsonTag
        (.pointer (SetStructFieldValueByJsonTag (.pointer testConfig) testEnvs
          "CONSUL_STAND_NAME" (some (GoValue.str "dev"))).1) testEnvs "SERVICE_NAME"
        (some (GoValue.str "rate-limit"))).1) "REDIS_PASS" = some (GoValue.str "") := by
    decide
  rw [hold2] at hold
  cases hold
  have hco2 : coerce (GoValue.str "").type (GoValue.str "hunter2") =
      .ok (GoValue.str "hunter2") := rfl
  rw [hco2] at hco
  cases hco
  exact ⟨by decide, hval, hfin,
    (C18_LoadConfig_returns_only_valid
      { demoWorld with Validate := fun _ => some (GoError.message "invalid") }
      demoOrder demoOrder testConfig).2.2.2.2.2 ⟨GoError.message "invalid", rfl⟩,
    by decide⟩

end initialconfig

namespace initialconfig

theorem LoadConfigFromEnv_of_ok {α : Type} (cfg : α) (Validate : α → Option GoError) :
    LoadConfigFromEnv true (.ok cfg) true Validate =
      match Validate cfg with
      | some err => .error err
      | none => .ok cfg := by
  simp [LoadConfigFromEnv]

theorem LoadConfigFromEnv_no_validation {α : Type} (load : Except GoError α)
    (Validate : α → Option GoError) :
    LoadConfigFromEnv true load false Validate = load := by
  cases load <;> simp [LoadConfigFromEnv]

/-- C19: local-only mode. If the initial configuration is loaded and the
distributed store or the secret store is disabled in it, `LoadConfig` makes
no resolution, calls the mutator for no field, stores no snapshot and starts
no watcher, so that the events of the process are those of `LoadConfig` and
nothing is ever sent on the channel, whatever turns a watcher would have
found. It returns the channel exactly when the initial configuration is
valid, the local configuration is loaded, the client of the enabled store is
created and the local configuration passes `Validate`; the configuration
object is then the one that was loaded locally. -/
theorem C19_local_only_mode (w : World) (resolveOrder applyOrder : List String)
    (mainConfig : StructValue) (initConfig : initialConfig)
    (hinit : w.loadInitial = .ok initConfig)
    (hdis : initConfig.ConsulEnabled = false ∨ initConfig.VaultEnabled = false) :
    Event.Resolve ∉ (LoadConfig w resolveOrder applyOrder mainConfig).trace ∧
    setCalls (LoadConfig w resolveOrder applyOrder mainConfig).trace = [] ∧
    (LoadConfig w resolveOrder applyOrder mainConfig).envs = [] ∧
    Event.Go ∉ (LoadConfig w resolveOrder applyOrder mainConfig).trace ∧
    (LoadConfig w resolveOrder applyOrder mainConfig).watcher = false ∧
    (∀ ticks, processTrace w resolveOrder applyOrder ticks mainConfig =
        (LoadConfig w resolveOrder applyOrder mainConfig).trace ∧
      sentBatches (processTrace w resolveOrder applyOrder ticks mainConfig) = []) ∧
    ((LoadConfig w resolveOrder applyOrder mainConfig).returned = true ↔
      initConfig.Validate = none ∧
      ∃ main1, w.loadMain mainConfig = .ok main1 ∧
        (initConfig.ConsulEnabled = true →
          ∃ c, consul.NewConsul w.consulNewClient (main1.stringField "SERVICE_NAME")
            (main1.stringField "CONSUL_STAND_NAME") initConfig.ConsulGeneralUrl
            initConfig.ConsulGeneralToken = .ok c) ∧
        (initConfig.VaultEnabled = true →
          ∃ v, vault.NewVault w.vaultNewClient initConfig.VaultGeneralUrl
            initConfig.VaultGeneralToken initConfig.VaultMountPath = .ok v) ∧
        w.Validate main1 = none ∧
        (LoadConfig w resolveOrder applyOrder mainConfig).mainConfig = main1) := by
  have main : ∀ R, LoadConfig w resolveOrder applyOrder mainConfig = R →
      Event.Resolve ∉ R.trace ∧ setCalls R.trace = [] ∧ R.envs = [] ∧ Event.Go ∉ R.trace ∧
      R.watcher = false ∧ sentBatches R.trace = [] ∧
      (R.returned = true ↔
        initConfig.Validate = none ∧
        ∃ main1, w.loadMain mainConfig = .ok main1 ∧
          (initConfig.ConsulEnabled = true →
            ∃ c, consul.NewConsul w.consulNewClient (main1.stringField "SERVICE_NAME")
              (main1.stringField "CONSUL_STAND_NAME") initConfig.ConsulGeneralUrl
              initConfig.ConsulGeneralToken = .ok c) ∧
          (initConfig.VaultEnabled = true →
            ∃ v, vault.NewVault w.vaultNewClient initConfig.VaultGeneralUrl
              initConfig.VaultGeneralToken initConfig.VaultMountPath = .ok v) ∧
          w.Validate main1 = none ∧ R.mainConfig = main1) := by
    intro R hR
    unfold LoadConfig at hR
    rw [hinit, LoadConfigFromEnv_of_ok, LoadConfigFromEnv_no_validation] at hR
    cases hiv : initConfig.Validate with
    | some e =>
      simp only [hiv] at hR
      subst hR
      simp [setCalls, sentBatches]
    | none =>
      simp only [hiv] at hR
      cases hm : w.loadMain mainConfig with
      | error e =>
        simp only [hm] at hR
        subst hR
        simp [setCalls, sentBatches]
      | ok main1 =>
        simp only [hm] at hR
        cases hce : initConfig.ConsulEnabled with
        | false =>
          cases hve : initConfig.VaultEnabled with
          | false =>
            simp only [hce, hve, Bool.false_eq_true, if_false, false_and, not_false_eq_true,
              if_true, true_or, not_true_eq_false, List.append_nil] at hR
            cases hval : w.Validate main1 with
            | some e =>
              simp only [hval] at hR
              subst hR
              simp [setCalls, sentBatches, hval]
            | none =>
              simp only [hval] at hR
              subst hR
              simp [setCalls, sentBatches, hval]
          | true =>
            simp only [hce, hve, Bool.false_eq_true, if_false, if_true, false_and,
              not_false_eq_true, true_or, not_true_eq_false, List.nil_append] at hR
            cases hnv : vault.NewVault w.vaultNewClient initConfig.VaultGeneralUrl
                initConfig.VaultGeneralToken initConfig.VaultMountPath with
            | error e =>
              simp only [hnv] at hR
              subst hR
              simp [setCalls, sentBatches]
            | ok v =>
              simp only [hnv] at hR
              cases hval : w.Validate main1 with
              | some e =>
                simp only [hval] at hR
                subst hR
                simp [setCalls, sentBatches, hval]
              | none =>
                simp only [hval] at hR
                subst hR
                simp [setCalls, sentBatches, hval]
        | true =>
          have hve : initConfig.VaultEnabled = false := by
            rcases hdis with h | h
            · rw [hce] at h; cases h
            · exact h
          simp only [hce, if_true] at hR
          cases hnc : consul.NewConsul w.consulNewClient (main1.stringField "SERVICE_NAME")
              (main1.stringField "CONSUL_STAND_NAME") initConfig.ConsulGeneralUrl
              initConfig.ConsulGeneralToken with
          | error e =>
            simp only [hnc] at hR
            subst hR
            simp [setCalls, sentBatches, hnc, hve, hce]
          | ok c =>
            simp only [hnc, hve, Bool.false_eq_true, if_false, and_false, not_false_eq_true,
              if_true, or_true, not_true_eq_false, List.append_nil] at hR
            cases hval : w.Validate main1 with
            | some e =>
              simp only [hval] at hR
              subst hR
              simp [setCalls, sentBatches, hval, hnc, hve, hce]
            | none =>
              simp only [hval] at hR
              subst hR
              simp [setCalls, sentBatches, hval, hnc, hve, hce]
  obtain ⟨h1, h2, h3, h4, h5, h6, h7⟩ := main _ rfl
  refine ⟨h1, h2, h3, h4, h5, ?_, h7⟩
  intro ticks
  have hp : processTrace w resolveOrder applyOrder ticks mainConfig =
      (LoadConfig w resolveOrder applyOrder mainConfig).trace := by
    unfold processTrace
    simp only [h5, Bool.false_eq_true, if_false]
  exact ⟨hp, by rw [hp]; exact h6⟩

end initialconfig

namespace initialconfig

/-- C19 on the stand `dev` with the secret store disabled: nothing is ever
sent, whatever the turns of a watcher would have been, and the channel is
returned. -/
theorem C19_local_only_mode_witness :
    demoInitialConfig.VaultEnabled = true ∧
    (∀ ticks, processTrace
        { demoWorld with loadInitial := .ok { demoInitialConfig with VaultEnabled := false } }
        demoOrder demoOrder ticks testConfig =
        (LoadConfig
          { demoWorld with loadInitial := .ok { demoInitialConfig with VaultEnabled := false } }
          demoOrder demoOrder testConfig).trace ∧
      sentBatches (processTrace
        { demoWorld with loadInitial := .ok { demoInitialConfig with VaultEnabled := false } }
        demoOrder demoOrder ticks testConfig) = []) ∧
    (LoadConfig
      { demoWorld with loadInitial := .ok { demoInitialConfig with VaultEnabled := false } }
      demoOrder demoOrder testConfig).returned = true :=
  ⟨by decide,
    (C19_local_only_mode
      { demoWorld with loadInitial := .ok { demoInitialConfig with VaultEnabled := false } }
      demoOrder demoOrder testConfig { demoInitialConfig with VaultEnabled := false } rfl
      (Or.inr rfl)).2.2.2.2.2.1,
    by decide⟩

end initialconfig

namespace initialconfig

theorem setsInsideLock_sets_append (calls : List (String × Any)) (tail : List Event) :
    setsInsideLock false (calls.map (fun c => Event.Set c.1 c.2) ++ tail) =
      setsInsideLock false tail := by
  induction calls with
  | nil => rfl
  | cons c rest ih => simpa [setsInsideLock] using ih

/-- The calls of the loop that applies a snapshot, made while the lock is not
held, are not calls inside the lock. -/
theorem applyEnvs_setsInsideLock (envs : Envs) (changedEnvs : Option (List String))
    (order : List String) (cfg : StructValue) (tail : List Event) :
    setsInsideLock false ((applyEnvs envs changedEnvs order cfg).2.1 ++ tail) =
      setsInsideLock false tail := by
  rw [applyEnvs_trace, List.append_assoc, setsInsideLock_sets_append]
  split <;> simp [setsInsideLock]

theorem applyEnvs_setsInsideLock_nil (envs : Envs) (changedEnvs : Option (List String))
    (order : List String) (cfg : StructValue) :
    setsInsideLock false (applyEnvs envs changedEnvs order cfg).2.1 = [] := by
  have h := applyEnvs_setsInsideLock envs changedEnvs order cfg []
  simpa [setsInsideLock] using h

/-- In a turn of the watcher no call of the mutator is made while the lock is
held or before it is released. -/
theorem watchCycle_sets_follow_release (w : World) (t : Tick) (mainConfig : StructValue)
    (envs : Envs) :
    setsInsideLock false (watchCycle w t mainConfig envs).trace = [] ∧
    setsBeforeUnlock (watchCycle w t mainConfig envs).trace = [] := by
  unfold watchCycle
  simp only []
  split
  · simp [setsInsideLock, setsBeforeUnlock]
  · split
    · simp [setsInsideLock, setsBeforeUnlock]
    · split
      · simp [setsInsideLock, setsBeforeUnlock]
      · split <;>
          simp [setsInsideLock, setsBeforeUnlock, applyEnvs_setsInsideLock,
            applyEnvs_setsInsideLock_nil]

end initialconfig

namespace initialconfig

/-- In `LoadConfig` no call of the mutator is made while the lock is held or
before it is released. -/
theorem LoadConfig_sets_follow_release (w : World) (resolveOrder applyOrder : List String)
    (mainConfig : StructValue) (R : LoadResult)
    (hR : LoadConfig w resolveOrder applyOrder mainConfig = R) :
    setsInsideLock false R.trace = [] ∧ setsBeforeUnlock R.trace = [] := by
  unfold LoadConfig at hR
  cases h1 : LoadConfigFromEnv true w.loadInitial true initialConfig.Validate with
  | error e =>
    simp only [h1] at hR
    subst hR
    simp [setsInsideLock, setsBeforeUnlock]
  | ok initConfig =>
    simp only [h1] at hR
    cases h2 : LoadConfigFromEnv true (w.loadMain mainConfig) false w.Validate with
    | error e =>
      simp only [h2] at hR
      subst hR
      simp [setsInsideLock, setsBeforeUnlock]
    | ok main1 =>
      simp only [h2] at hR
      clear h1 h2
      cases hce : initConfig.ConsulEnabled with
      | false =>
        cases hve : initConfig.VaultEnabled with
        | false =>
          simp only [hce, hve, Bool.false_eq_true, if_false, false_and, not_false_eq_true,
            if_true, true_or, not_true_eq_false, List.append_nil] at hR
          cases hval : w.Validate main1 with
          | some e =>
            simp only [hval] at hR
            subst hR
            simp [setsInsideLock, setsBeforeUnlock]
          | none =>
            simp only [hval] at hR
            subst hR
            simp [setsInsideLock, setsBeforeUnlock]
        | true =>
          simp only [hce, hve, Bool.false_eq_true, if_false, if_true, false_and,
            not_false_eq_true, true_or, not_true_eq_false, List.nil_append] at hR
          cases hnv : vault.NewVault w.vaultNewClient initConfig.VaultGeneralUrl
              initConfig.VaultGeneralToken initConfig.VaultMountPath with
          | error e =>
            simp only [hnv] at hR
            subst hR
            simp [setsInsideLock, setsBeforeUnlock]
          | ok v =>
            simp only [hnv] at hR
            cases hval : w.Validate main1 with
            | some e =>
              simp only [hval] at hR
              subst hR
              simp [setsInsideLock, setsBeforeUnlock]
            | none =>
              simp only [hval] at hR
              subst hR
              simp [setsInsideLock, setsBeforeUnlock]
      | true =>
        simp only [hce, if_true] at hR
        cases hnc : consul.NewConsul w.consulNewClient (main1.stringField "SERVICE_NAME")
            (main1.stringField "CONSUL_STAND_NAME") initConfig.ConsulGeneralUrl
            initConfig.ConsulGeneralToken with
        | error e =>
          simp only [hnc] at hR
          subst hR
          simp [setsInsideLock, setsBeforeUnlock]
        | ok c =>
          simp only [hnc] at hR
          cases hve : initConfig.VaultEnabled with
          | false =>
            simp only [hve, Bool.false_eq_true, if_false, and_false, not_false_eq_true,
              if_true, or_true, not_true_eq_false, List.append_nil] at hR
            cases hval : w.Validate main1 with
            | some e =>
              simp only [hval] at hR
              subst hR
              simp [setsInsideLock, setsBeforeUnlock]
            | none =>
              simp only [hval] at hR
              subst hR
              simp [setsInsideLock, setsBeforeUnlock]
          | true =>
            simp only [hve, if_true] at hR
            cases hnv : vault.NewVault w.vaultNewClient initConfig.VaultGeneralUrl
                initConfig.VaultGeneralToken initConfig.VaultMountPath with
            | error e =>
              simp only [hnv] at hR
              subst hR
              simp [setsInsideLock, setsBeforeUnlock]
            | ok v =>
              simp only [hnv, and_self, if_true, not_true_eq_false, or_self, if_false] at hR
              rcases getData_cases (serviceOf main1 (some c) (some v))
                (GetConfigParams w.describe (.value main1)) resolveOrder with ⟨e, hg⟩ | ⟨envs, hg⟩
              · simp only [hg] at hR
                subst hR
                simp [setsInsideLock, setsBeforeUnlock]
              · simp only [hg, Option.getD_some] at hR
                cases hap : (applyEnvs envs none applyOrder main1).2.2 with
                | true =>
                  simp only [hap, Bool.not_true, Bool.false_eq_true, not_false_eq_true,
                    if_true] at hR
                  subst hR
                  simp [setsInsideLock, setsBeforeUnlock, applyEnvs_setsInsideLock_nil]
                | false =>
                  simp only [hap, Bool.not_false, not_true_eq_false, if_false] at hR
                  cases hval : w.Validate (applyEnvs envs none applyOrder main1).1 with
                  | some e =>
                    simp only [hval] at hR
                    subst hR
                    simp [setsInsideLock, setsBeforeUnlock, applyEnvs_setsInsideLock]
                  | none =>
                    simp only [hval] at hR
                    subst hR
                    simp [setsInsideLock, setsBeforeUnlock, applyEnvs_setsInsideLock]

/-- C20 (as stated, refuted): on the stand `dev`, the lock is released before
the first call of the mutator, in `LoadConfig` and in a turn of the watcher:
the sixth event of `LoadConfig` is the release and the seventh the call for
`POSTGRES_ADDRS`, the fifth event of the turn is the release and the sixth
the call for `REDIS_ADDR`. All the calls are made while the lock is not held,
none while it is. -/
theorem C20_counterexample_fields_are_set_after_unlock :
    demoLoad.trace.take 7 =
      [Event.Info "connected to consul", Event.Info "connected to vault", Event.Resolve,
        Event.Lock, Event.StoreEnvs demoLoad.envs, Event.Unlock,
        Event.Set "POSTGRES_ADDRS" (some (GoValue.addrs
          [{ Address := "10.0.0.1", Port := 5432 }, { Address := "10.0.0.2", Port := 5432 }]))] ∧
    lockHeld false (demoLoad.trace.take 6) = false ∧
    setsOutsideLock false demoLoad.trace =
      ["POSTGRES_ADDRS", "SERVICE_NAME", "REDIS_PASS", "DISCOVERY_POSTGRES_SERVICE"] ∧
    setsInsideLock false demoLoad.trace = [] ∧
    ((watchCycle demoWorld demoTickChanged demoLoad.mainConfig demoLoad.envs).trace.drop 2).take
        1 = [Event.Lock] ∧
    ((watchCycle demoWorld demoTickChanged demoLoad.mainConfig demoLoad.envs).trace.drop 4).take
        2 = [Event.Unlock, Event.Set "REDIS_ADDR" (some (GoValue.str "redis:6379"))] ∧
    setsOutsideLock false
      (watchCycle demoWorld demoTickChanged demoLoad.mainConfig demoLoad.envs).trace =
      ["REDIS_ADDR"] ∧
    setsInsideLock false
      (watchCycle demoWorld demoTickChanged demoLoad.mainConfig demoLoad.envs).trace = [] := by
  decide

/-- C20 (amended): the write lock is held only while the stored snapshot is
replaced. In the events of `LoadConfig` and in those of a turn of the
watcher, no call of `SetStructFieldValueByJsonTag` is made while the lock is
held, and none before the lock is released for the first time: every call
happens after the lock has been taken and released. -/
theorem C20_fields_are_set_after_the_locked_swap (w : World)
    (resolveOrder applyOrder : List String) (t : Tick) (mainConfig : StructValue)
    (envs : Envs) :
    setsInsideLock false (LoadConfig w resolveOrder applyOrder mainConfig).trace = [] ∧
    setsBeforeUnlock (LoadConfig w resolveOrder applyOrder mainConfig).trace = [] ∧
    setsInsideLock false (watchCycle w t mainConfig envs).trace = [] ∧
    setsBeforeUnlock (watchCycle w t mainConfig envs).trace = [] :=
  ⟨(LoadConfig_sets_follow_release w resolveOrder applyOrder mainConfig _ rfl).1,
    (LoadConfig_sets_follow_release w resolveOrder applyOrder mainConfig _ rfl).2,
    (watchCycle_sets_follow_release w t mainConfig envs).1,
    (watchCycle_sets_follow_release w t mainConfig envs).2⟩

end initialconfig

/-! ## The claims on the random numbers -/

namespace utils

theorem wrapInt_of_isInt (x : Int) (h : IsInt x) : wrapInt x = x := by
  unfold IsInt minInt maxInt at h
  unfold wrapInt
  omega

/-- When the difference overflows, `rand.Intn` gets a number that is not
positive and panics. -/
theorem GetRandomInt_of_overflow (outcome : Nat) (min max : Int) (hmin : IsInt min)
    (hmax : IsInt max) (hover : maxInt < max - min) :
    GetRandomInt outcome min max = .error (GoError.message "invalid argument to Intn") := by
  unfold IsInt minInt maxInt at hmin hmax
  unfold maxInt at hover
  have hneg : wrapInt (max - min) ≤ 0 := by
    unfold wrapInt
    omega
  simp [GetRandomInt, rand.Intn, hneg]

theorem GetRandomInt_spec (outcome : Nat) (min max : Int) (hmin : IsInt min)
    (hmax : IsInt max) (hlt : min < max) (hfit : max - min ≤ maxInt) :
    ∃ n, GetRandomInt outcome min max = .ok n ∧ min ≤ n ∧ n < max ∧
      n = (outcome : Int) % (max - min) + min := by
  unfold IsInt minInt maxInt at hmin hmax
  unfold maxInt at hfit
  have hw : wrapInt (max - min) = max - min := by
    unfold wrapInt
    omega
  have hpos : ¬ (max - min ≤ 0) := by omega
  have h0 : 0 ≤ (outcome : Int) % (max - min) := Int.emod_nonneg _ (by omega)
  have h1 : (outcome : Int) % (max - min) < max - min := Int.emod_lt_of_pos _ (by omega)
  refine ⟨(outcome : Int) % (max - min) + min, ?_, by omega, by omega, rfl⟩
  simp only [GetRandomInt, rand.Intn, hw, hpos, if_false]
  congr 1
  unfold wrapInt
  omega

end utils

namespace initialconfig

/-- A turn of the watcher begins with the sleep. -/
theorem watchCycle_head (w : World) (t : Tick) (mainConfig : StructValue) (envs : Envs) :
    (watchCycle w t mainConfig envs).trace.head? = some (Event.Sleep t.randomSleepSeconds) := by
  unfold watchCycle
  simp only []
  split
  · rfl
  · split
    · rfl
    · split
      · rfl
      · split <;> rfl

/-- C21 (as stated, refuted): for the least `int` as `min` and `0` as `max`,
two values of `int` with `min < max`, the difference `max - min` overflows
to a negative number, `rand.Intn` panics and `GetRandomInt` returns no
number; the same for `min` and `max` five quintillions below and above zero. -/
theorem C21_counterexample_difference_overflows :
    utils.IsInt utils.minInt ∧ utils.IsInt 0 ∧ utils.minInt < 0 ∧
    utils.wrapInt (0 - utils.minInt) = utils.minInt ∧
    utils.GetRandomInt 0 utils.minInt 0 =
      .error (GoError.message "invalid argument to Intn") ∧
    utils.IsInt (-5000000000000000000) ∧ utils.IsInt 5000000000000000000 ∧
    utils.GetRandomInt 7 (-5000000000000000000) 5000000000000000000 =
      .error (GoError.message "invalid argument to Intn") := by
  refine ⟨by decide, by decide, by decide, by decide, ?_, by decide, by decide, ?_⟩
  · exact utils.GetRandomInt_of_overflow 0 utils.minInt 0 (by decide) (by decide) (by decide)
  · exact utils.GetRandomInt_of_overflow 7 _ _ (by decide) (by decide) (by decide)

/-- C21 (amended): for all values `min < max` of the type `int` whose
difference `max - min` does not overflow `int`, and for every outcome of the
random source, `GetRandomInt(min, max)` returns a number `n` with
`min <= n < max`. So every turn of the watcher sleeps a whole number of
seconds that is at least 150 and less than 250: the turn begins with that
sleep, and its duration in nanoseconds is computed without overflow. -/
theorem C21_random_int_in_window (outcome : Nat) (min max : Int) (hmin : utils.IsInt min)
    (hmax : utils.IsInt max) (hlt : min < max) (hfit : max - min ≤ utils.maxInt) :
    (∃ n, utils.GetRandomInt outcome min max = .ok n ∧ min ≤ n ∧ n < max) ∧
    (∀ (consulClient : consul.Consul) (vaultClient : vault.Vault)
        (resolveOrder applyOrder : List String),
      ∃ t, randomTick outcome consulClient vaultClient resolveOrder applyOrder = .ok t ∧
        150 ≤ t.randomSleepSeconds ∧ t.randomSleepSeconds < 250 ∧
        sleepDuration t.randomSleepSeconds = 1000000000 * t.randomSleepSeconds ∧
        ∀ (w : World) (mainConfig : StructValue) (envs : Envs),
          (watchCycle w t mainConfig envs).trace.head? =
            some (Event.Sleep t.randomSleepSeconds)) := by
  constructor
  · obtain ⟨n, h, h1, h2, _⟩ := utils.GetRandomInt_spec outcome min max hmin hmax hlt hfit
    exact ⟨n, h, h1, h2⟩
  · intro consulClient vaultClient resolveOrder applyOrder
    obtain ⟨n, h, h1, h2, _⟩ := utils.GetRandomInt_spec outcome 150 250 (by decide)
      (by decide) (by decide) (by decide)
    refine ⟨{ randomSleepSeconds := n, consulClient := consulClient,
              vaultClient := vaultClient, resolveOrder := resolveOrder,
              applyOrder := applyOrder }, ?_, h1, h2, ?_, ?_⟩
    · simp [randomTick, h]
    · simp only [sleepDuration, utils.wrapInt]
      omega
    · intro w mainConfig envs
      exact watchCycle_head w _ mainConfig envs

/-- C21 (amended) for the window of the watcher and the outcome 12345 of the
random source: the number is 195. -/
theorem C21_random_int_in_window_witness :
    utils.IsInt 150 ∧ utils.IsInt 250 ∧
    utils.GetRandomInt 12345 150 250 = .ok 195 ∧
    ∃ n, utils.GetRandomInt 12345 150 250 = .ok n ∧ 150 ≤ n ∧ n < 250 :=
  ⟨by decide, by decide, by rfl,
    (C21_random_int_in_window 12345 150 250 (by decide) (by decide) (by decide)
      (by decide)).1⟩

end initialconfig

/-! ## The claims on the address getters -/

namespace config

theorem index_of_lt {α : Type} (arr : List α) (k : Nat) (h : k < arr.length) :
    index arr (k : Int) = .ok (arr.get ⟨k, h⟩) := by
  have hneg : ¬ (k : Int) < 0 := by omega
  simp only [index, hneg, if_false, Int.toNat_ofNat, List.get?_eq_getElem?,
    List.getElem?_eq_getElem h, List.get_eq_getElem]

/-- The shared body never fails: on an empty list it returns the static
address, and otherwise the element of the list at the index
`outcome % length`, which is within the bounds. -/
theorem pickAddr_spec (addr : String) (addrs : consul.GetServiceAddressResponse)
    (outcome : Nat) (hlen : (addrs.length : Int) ≤ utils.maxInt) :
    (addrs = [] → pickAddr addr addrs outcome = .ok addr) ∧
    (addrs ≠ [] →
      ∃ h : outcome % addrs.length < addrs.length,
        utils.GetRandomInt outcome 0 addrs.length = .ok ((outcome % addrs.length : Nat) : Int) ∧
        pickAddr addr addrs outcome =
          .ok ((addrs.get ⟨outcome % addrs.length, h⟩).Address ++ ":" ++
            toString (addrs.get ⟨outcome % addrs.length, h⟩).Port)) := by
  constructor
  · intro h
    subst h
    rfl
  · intro hne
    have hpos : 0 < addrs.length := List.length_pos.2 hne
    have hlt : outcome % addrs.length < addrs.length := Nat.mod_lt _ hpos
    have hmax : utils.IsInt (addrs.length : Int) := by
      unfold utils.IsInt utils.minInt
      unfold utils.maxInt at hlen
      unfold utils.maxInt
      omega
    obtain ⟨n, hn, h0, h1, hval⟩ := utils.GetRandomInt_spec outcome 0 addrs.length
      (by decide) hmax (by omega) (by simpa using hlen)
    have hn2 : n = ((outcome % addrs.length : Nat) : Int) := by
      rw [hval]
      simp
    subst hn2
    refine ⟨hlt, hn, ?_⟩
    have hz : ¬ addrs.length = 0 := by omega
    simp only [pickAddr, hz, if_false, hn, index_of_lt addrs (outcome % addrs.length) hlt]

end config

namespace config

theorem GetRabbitAddr_eq (c : Config) (outcome : Nat) :
    c.GetRabbitAddr outcome = pickAddr c.Rabbit.Addr c.RabbitAddrs outcome := rfl

theorem GetPostgresAddr_eq (c : Config) (outcome : Nat) :
    c.GetPostgresAddr outcome = pickAddr c.Postgres.Addr c.PostgresAddrs outcome := rfl

theorem GetRedisAddr_eq (c : Config) (outcome : Nat) :
    c.GetRedisAddr outcome = pickAddr c.Redis.Addr c.RedisAddrs outcome := rfl

/-- C22: `GetRabbitAddr`, `GetPostgresAddr` and `GetRedisAddr` return the
static address (`Rabbit.Addr`, `Postgres.Addr`, `Redis.Addr`) when the list
of endpoints of the service is empty. Otherwise the index that
`GetRandomInt(0, len)` returns is within the bounds of the list, the
selection does not fail, and the result is the address, a colon and the port
of the element of the list at that index. The lengths of the lists are
values of `int`, as the lengths of slices are. -/
theorem C22_address_getters_never_fail (c : Config) (outcome : Nat)
    (hrabbit : (c.RabbitAddrs.length : Int) ≤ utils.maxInt)
    (hpostgres : (c.PostgresAddrs.length : Int) ≤ utils.maxInt)
    (hredis : (c.RedisAddrs.length : Int) ≤ utils.maxInt) :
    ((c.RabbitAddrs = [] → c.GetRabbitAddr outcome = .ok c.Rabbit.Addr) ∧
      (c.RabbitAddrs ≠ [] →
        ∃ h : outcome % c.RabbitAddrs.length < c.RabbitAddrs.length,
          utils.GetRandomInt outcome 0 c.RabbitAddrs.length =
            .ok ((outcome % c.RabbitAddrs.length : Nat) : Int) ∧
          c.GetRabbitAddr outcome =
            .ok ((c.RabbitAddrs.get ⟨outcome % c.RabbitAddrs.length, h⟩).Address ++ ":" ++
              toString (c.RabbitAddrs.get ⟨outcome % c.RabbitAddrs.length, h⟩).Port))) ∧
    ((c.PostgresAddrs = [] → c.GetPostgresAddr outcome = .ok c.Postgres.Addr) ∧
      (c.PostgresAddrs ≠ [] →
        ∃ h : outcome % c.PostgresAddrs.length < c.PostgresAddrs.length,
          utils.GetRandomInt outcome 0 c.PostgresAddrs.length =
            .ok ((outcome % c.PostgresAddrs.length : Nat) : Int) ∧
          c.GetPostgresAddr outcome =
            .ok ((c.PostgresAddrs.get ⟨outcome % c.PostgresAddrs.length, h⟩).Address ++ ":" ++
              toString (c.PostgresAddrs.get ⟨outcome % c.PostgresAddrs.length, h⟩).Port))) ∧
    ((c.RedisAddrs = [] → c.GetRedisAddr outcome = .ok c.Redis.Addr) ∧
      (c.RedisAddrs ≠ [] →
        ∃ h : outcome % c.RedisAddrs.length < c.RedisAddrs.length,
          utils.GetRandomInt outcome 0 c.RedisAddrs.length =
            .ok ((outcome % c.RedisAddrs.length : Nat) : Int) ∧
          c.GetRedisAddr outcome =
            .ok ((c.RedisAddrs.get ⟨outcome % c.RedisAddrs.length, h⟩).Address ++ ":" ++
              toString (c.RedisAddrs.get ⟨outcome % c.RedisAddrs.length, h⟩).Port))) := by
  refine ⟨?_, ?_, ?_⟩
  · rw [GetRabbitAddr_eq]
    exact pickAddr_spec c.Rabbit.Addr c.RabbitAddrs outcome hrabbit
  · rw [GetPostgresAddr_eq]
    exact pickAddr_spec c.Postgres.Addr c.PostgresAddrs outcome hpostgres
  · rw [GetRedisAddr_eq]
    exact pickAddr_spec c.Redis.Addr c.RedisAddrs outcome hredis

/-- C22 on a configuration with two endpoints of the message bus and none of
the cache, for the outcome 7 of the random source: the address of the
message bus is the second endpoint, the one of the cache is the static
address. -/
theorem C22_address_getters_never_fail_witness :
    demoConfig.GetRabbitAddr 7 = .ok "10.0.1.2:5673" ∧
    demoConfig.GetPostgresAddr 7 = .ok "10.0.0.1:5432" ∧
    demoConfig.GetRedisAddr 7 = .ok "localhost:6379" := by
  have h := C22_address_getters_never_fail demoConfig 7 (by decide) (by decide) (by decide)
  obtain ⟨_, _, h1⟩ := h.1.2 (by decide)
  obtain ⟨_, _, h2⟩ := h.2.1.2 (by decide)
  exact ⟨h1.trans rfl, h2.trans rfl, h.2.2.1 rfl⟩

end config

/-! ## The claims on `Encrypt` -/

namespace base64

theorem charOf_spec (i : Nat) :
    charOf i ≠ '=' ∧ charOf i ≠ '\r' ∧ charOf i ≠ '\n' ∧ json.safe (charOf i) = true ∧
      indexOf? (charOf i) = some (i % 64) := by
  have h : ∀ j, j < 64 → encodeStd.getD j 'A' ≠ '=' ∧ encodeStd.getD j 'A' ≠ '\r' ∧
      encodeStd.getD j 'A' ≠ '\n' ∧ json.safe (encodeStd.getD j 'A') = true ∧
      indexOf? (encodeStd.getD j 'A') = some j := by
    decide
  exact h (i % 64) (Nat.mod_lt i (by decide))

end base64

namespace base64

theorem byteOf_val (a : Fin 256) (x : Nat) (h : x = a.val) : byteOf x = a := by
  apply Fin.ext
  have := a.isLt
  simp only [byteOf]
  omega

/-- The characters of an encoding are written by `json.Marshal` as they are,
and none of them is skipped by the decoder. -/
theorem encode_chars (data : List (Fin 256)) :
    ∀ c ∈ encode data, json.safe c = true ∧ c ≠ '\r' ∧ c ≠ '\n' := by
  have hc : ∀ i, json.safe (charOf i) = true ∧ charOf i ≠ '\r' ∧ charOf i ≠ '\n' :=
    fun i => ⟨(charOf_spec i).2.2.2.1, (charOf_spec i).2.1, (charOf_spec i).2.2.1⟩
  have he : json.safe '=' = true ∧ '=' ≠ '\r' ∧ '=' ≠ '\n' := by decide
  induction data using encode.induct with
  | case1 a b c rest ih =>
    intro x hx
    simp only [encode, List.mem_cons] at hx
    rcases hx with h | h | h | h | h
    · rw [h]; exact hc _
    · rw [h]; exact hc _
    · rw [h]; exact hc _
    · rw [h]; exact hc _
    · exact ih x h
  | case2 a b =>
    intro x hx
    simp only [encode, List.mem_cons, List.mem_singleton, List.not_mem_nil, or_false] at hx
    rcases hx with h | h | h | h
    · rw [h]; exact hc _
    · rw [h]; exact hc _
    · rw [h]; exact hc _
    · rw [h]; exact he
  | case3 a =>
    intro x hx
    simp only [encode, List.mem_cons, List.mem_singleton, List.not_mem_nil, or_false] at hx
    rcases hx with h | h | h | h
    · rw [h]; exact hc _
    · rw [h]; exact hc _
    · rw [h]; exact he
    · rw [h]; exact he
  | case4 =>
    intro x hx
    simp [encode] at hx

/-- Decoding the groups of an encoding gives the bytes back. -/
theorem decodeQuanta_encode (data : List (Fin 256)) :
    decodeQuanta (encode data) = .ok data := by
  induction data using encode.induct with
  | case1 a b c rest ih =>
    have ha := a.isLt
    have hb := b.isLt
    have hcl := c.isLt
    have h3 : charOf (b.val % 16 * 4 + c.val / 64) ≠ '=' := (charOf_spec _).1
    have h4 : charOf (c.val % 64) ≠ '=' := (charOf_spec _).1
    simp only [encode, decodeQuanta, (charOf_spec _).2.2.2.2, h3, h4, if_false, ih]
    congr 1
    rw [byteOf_val a _ (by omega), byteOf_val b _ (by omega), byteOf_val c _ (by omega)]
  | case2 a b =>
    have ha := a.isLt
    have hb := b.isLt
    have h3 : charOf (b.val % 16 * 4) ≠ '=' := (charOf_spec _).1
    simp only [encode, decodeQuanta, (charOf_spec _).2.2.2.2, h3, if_false, if_true]
    congr 1
    rw [byteOf_val a _ (by omega), byteOf_val b _ (by omega)]
  | case3 a =>
    have ha := a.isLt
    simp only [encode, decodeQuanta, (charOf_spec _).2.2.2.2, and_self, if_true]
    congr 1
    rw [byteOf_val a _ (by omega)]
  | case4 => rfl

/-- The decoder gives back the bytes of an encoded string. -/
theorem DecodeString_EncodeToString (data : List (Fin 256)) :
    StdEncoding.DecodeString (StdEncoding.EncodeToString data) = .ok data := by
  unfold StdEncoding.DecodeString StdEncoding.EncodeToString
  have hf : (encode data).filter (fun c => decide (c ≠ '\r' ∧ c ≠ '\n')) = encode data := by
    apply List.filter_eq_self.2
    intro c hc
    have := encode_chars data c hc
    simp [this.2.1, this.2.2]
  simp only [hf]
  exact decodeQuanta_encode data

end base64

namespace json

theorem escapeAll_of_safe (escape : Char → List Char) (l : List Char)
    (h : ∀ c ∈ l, safe c = true) : escapeAll escape l = l := by
  induction l with
  | nil => rfl
  | cons c rest ih =>
    simp only [escapeAll, h c (List.mem_cons_self _ _), if_true, List.singleton_append]
    rw [ih (fun x hx => h x (List.mem_cons_of_mem _ hx))]

end json

namespace cryptography

/-- C24: `gpgService.Encrypt` does not use its key argument. For every data
and every two keys the results are the same bytes and no error, also for two
services with different private keys: the bytes are the JSON object whose
only member `data` is the standard base64 encoding of the data, without a
member `signatures`, whatever escape sequences the encoder of JSON has; and
decoding that base64 string gives the data back. -/
theorem C24_Encrypt_ignores_the_key (escape escape2 : Char → List Char) (s s2 : gpgService)
    (data : List (Fin 256)) (k1 k2 : String) :
    s.Encrypt escape data k1 = s.Encrypt escape data k2 ∧
    s.Encrypt escape data k1 = s2.Encrypt escape2 data k2 ∧
    s.Encrypt escape data k1 =
      ("\x7b\"data\":\"".toList ++ (base64.StdEncoding.EncodeToString data).data ++
        "\"\x7d".toList, none) ∧
    base64.StdEncoding.DecodeString (base64.StdEncoding.EncodeToString data) = .ok data := by
  have hform : ∀ (esc : Char → List Char) (t : gpgService) (k : String),
      t.Encrypt esc data k =
        ("\x7b\"data\":\"".toList ++ (base64.StdEncoding.EncodeToString data).data ++
          "\"\x7d".toList, none) := by
    intro esc t k
    have hsafe : json.escapeAll esc (base64.encode data) = base64.encode data :=
      json.escapeAll_of_safe esc _ (fun c hc => (base64.encode_chars data c hc).1)
    simp only [gpgService.Encrypt, Marshal, json.quote, base64.StdEncoding.EncodeToString,
      hsafe, List.length_nil, if_true]
    simp
  refine ⟨rfl, ?_, hform escape s k1, base64.DecodeString_EncodeToString data⟩
  rw [hform escape s k1, hform escape2 s2 k2]

/-- C24 on the two bytes of the text `hi`, with two keys and two services:
the result is the object with the member `data` and the value `aGk=`. -/
theorem C24_Encrypt_ignores_the_key_witness :
    gpgService.Encrypt (fun _ => []) { privateKey := "a", privateKeyPassword := [] } demoData
        "key one" =
      gpgService.Encrypt (fun c => [c, c]) { privateKey := "b", privateKeyPassword := [] }
        demoData "key two" ∧
    gpgService.Encrypt (fun _ => []) { privateKey := "a", privateKeyPassword := [] } demoData
        "key one" = ("\x7b\"data\":\"aGk=\"\x7d".toList, none) ∧
    base64.StdEncoding.DecodeString "aGk=" = .ok demoData :=
  ⟨(C24_Encrypt_ignores_the_key (fun _ => []) (fun c => [c, c])
      { privateKey := "a", privateKeyPassword := [] }
      { privateKey := "b", privateKeyPassword := [] } demoData "key one" "key two").2.1,
    by decide, by rfl⟩

end cryptography

/-! ## The claims on the rate limiter -/

namespace server

/-- Less than a second after `t`, the saturated difference is less than a
second too. -/
theorem Since_lt_of_lt (now t : Int) (h : now - t < Second) : Since now t < Second := by
  unfold Second at h
  unfold Since Second utils.minInt utils.maxInt
  split
  · omega
  · split <;> omega

/-- A saturated difference of a second or more is a difference of a second or
more. -/
theorem le_of_not_Since_lt (now t : Int) (h : ¬ Since now t < Second) : t + Second ≤ now := by
  unfold Since Second utils.minInt utils.maxInt at h
  unfold Second
  split at h
  · omega
  · split at h <;> omega

/-- A request that arrives less than a second after the stored instant of
its client is answered 429 and leaves the server as it is. -/
theorem HandleRequest_limited (SplitHostPort : String → Except GoError (String × String))
    (s : Server) (r : Request) (sinceNow storeNow : Int) (ip port : String) (t : Int)
    (hsplit : SplitHostPort r.RemoteAddr = .ok (ip, port))
    (hstored : s.requestersList ip = some t) (hsoon : sinceNow - t < Second) :
    s.HandleRequest SplitHostPort r sinceNow storeNow =
      (s, Response.Error "Too many requests" StatusTooManyRequests) := by
  have h := Since_lt_of_lt sinceNow t hsoon
  simp [Server.HandleRequest, hsplit, hstored, h]

/-- The response OK is the one of a request `POST` that is not limited: it
stores the reading of the clock for the client, and the stored instant of the
client, if any, is a second or more before the arrival. Any other response
leaves the server as it is. -/
theorem HandleRequest_cases (SplitHostPort : String → Except GoError (String × String))
    (s : Server) (r : Request) (sinceNow storeNow : Int) :
    ((s.HandleRequest SplitHostPort r sinceNow storeNow).2 = Response.OK ∧
      r.Method = "POST" ∧
      ∃ ip port, SplitHostPort r.RemoteAddr = .ok (ip, port) ∧
        (∀ t, s.requestersList ip = some t → t + Second ≤ sinceNow) ∧
        (s.HandleRequest SplitHostPort r sinceNow storeNow).1.requestersList =
          fun k => if k = ip then some storeNow else s.requestersList k) ∨
    ((s.HandleRequest SplitHostPort r sinceNow storeNow).2 ≠ Response.OK ∧
      (s.HandleRequest SplitHostPort r sinceNow storeNow).1 = s) := by
  unfold Server.HandleRequest
  cases hsplit : SplitHostPort r.RemoteAddr with
  | error e => right; simp
  | ok hp =>
    obtain ⟨ip, port⟩ := hp
    simp only []
    split
    · right; simp
    · rename_i hlim
      split
      · rename_i hpost
        left
        refine ⟨rfl, hpost, ip, port, rfl, ?_, rfl⟩
        intro t ht
        simp only [ht, decide_eq_true_eq] at hlim
        exact le_of_not_Since_lt sinceNow t hlim
      · right; simp

end server

namespace server

theorem accepted_cons_OK (SplitHostPort : String → Except GoError (String × String))
    (s : Server) (a : Arrival) (rest : List Arrival) (ip port : String)
    (hOK : (s.HandleRequest SplitHostPort a.r a.sinceNow a.storeNow).2 = Response.OK)
    (hsplit : SplitHostPort a.r.RemoteAddr = .ok (ip, port)) :
    s.accepted SplitHostPort (a :: rest) =
      (ip, a.storeNow) ::
        (s.HandleRequest SplitHostPort a.r a.sinceNow a.storeNow).1.accepted SplitHostPort
          rest := by
  simp only [Server.accepted, hOK, hsplit]

theorem accepted_cons_other (SplitHostPort : String → Except GoError (String × String))
    (s : Server) (a : Arrival) (rest : List Arrival)
    (hne : (s.HandleRequest SplitHostPort a.r a.sinceNow a.storeNow).2 ≠ Response.OK)
    (hs : (s.HandleRequest SplitHostPort a.r a.sinceNow a.storeNow).1 = s) :
    s.accepted SplitHostPort (a :: rest) = s.accepted SplitHostPort rest := by
  simp only [Server.accepted, hs]
  split
  · rename_i h _
    exact absurd h hne
  · rfl

theorem Second_pos : 0 < Second := by decide

/-- Every request accepted in a run is accepted a second or more after the
instant that the server had stored for its client before the run. -/
theorem accepted_after_stored (SplitHostPort : String → Except GoError (String × String))
    (arrivals : List Arrival) (s : Server)
    (hclock : ∀ a ∈ arrivals, a.sinceNow ≤ a.storeNow) :
    ∀ x ∈ s.accepted SplitHostPort arrivals, ∀ t, s.requestersList x.1 = some t →
      t + Second ≤ x.2 := by
  induction arrivals generalizing s with
  | nil => intro x hx; simp [Server.accepted] at hx
  | cons a rest ih =>
    have ha := hclock a (List.mem_cons_self _ _)
    have hrest : ∀ b ∈ rest, b.sinceNow ≤ b.storeNow :=
      fun b hb => hclock b (List.mem_cons_of_mem _ hb)
    have hpos := Second_pos
    rcases HandleRequest_cases SplitHostPort s a.r a.sinceNow a.storeNow with
      ⟨hOK, _, ip, port, hsplit, hold, hmap⟩ | ⟨hne, hs⟩
    · rw [accepted_cons_OK SplitHostPort s a rest ip port hOK hsplit]
      intro x hx t ht
      rcases List.mem_cons.1 hx with h | h
      · subst h
        have := hold t ht
        simp only
        omega
      · have hnext := ih _ hrest x h
        rw [hmap] at hnext
        by_cases hip : x.1 = ip
        · have h1 := hnext a.storeNow (by simp [hip])
          have h2 := hold t (by rw [← hip]; exact ht)
          omega
        · exact hnext t (by simp [hip, ht])
    · rw [accepted_cons_other SplitHostPort s a rest hne hs]
      exact ih s hrest

/-- Any two requests of one client accepted in a run are a second or more
apart. -/
theorem accepted_pairwise (SplitHostPort : String → Except GoError (String × String))
    (arrivals : List Arrival) (s : Server)
    (hclock : ∀ a ∈ arrivals, a.sinceNow ≤ a.storeNow) :
    (s.accepted SplitHostPort arrivals).Pairwise
      (fun x y => x.1 = y.1 → x.2 + Second ≤ y.2) := by
  induction arrivals generalizing s with
  | nil => simp [Server.accepted]
  | cons a rest ih =>
    have hrest : ∀ b ∈ rest, b.sinceNow ≤ b.storeNow :=
      fun b hb => hclock b (List.mem_cons_of_mem _ hb)
    rcases HandleRequest_cases SplitHostPort s a.r a.sinceNow a.storeNow with
      ⟨hOK, _, ip, port, hsplit, _, hmap⟩ | ⟨hne, hs⟩
    · rw [accepted_cons_OK SplitHostPort s a rest ip port hOK hsplit]
      refine List.Pairwise.cons ?_ (ih _ hrest)
      intro y hy hip
      have h := accepted_after_stored SplitHostPort rest _ hrest y hy a.storeNow
      rw [hmap] at h
      exact h (by simp [← hip])
    · rw [accepted_cons_other SplitHostPort s a rest hne hs]
      exact ih s hrest

theorem serve_cons (SplitHostPort : String → Except GoError (String × String))
    (s : Server) (a : Arrival) (rest : List Arrival) :
    s.serve SplitHostPort (a :: rest) =
      (((s.HandleRequest SplitHostPort a.r a.sinceNow a.storeNow).1.serve SplitHostPort
          rest).1,
        (s.HandleRequest SplitHostPort a.r a.sinceNow a.storeNow).2 ::
          ((s.HandleRequest SplitHostPort a.r a.sinceNow a.storeNow).1.serve SplitHostPort
            rest).2) := rfl

/-- After a run, the instant stored for a client is the one of its last
accepted request in the run, or the one stored before when it has none: only
an accepted request records an instant. -/
theorem serve_requestersList (SplitHostPort : String → Except GoError (String × String))
    (arrivals : List Arrival) (s : Server) (ip : String) :
    (s.serve SplitHostPort arrivals).1.requestersList ip =
      lastStamp ip (s.requestersList ip) (s.accepted SplitHostPort arrivals) := by
  induction arrivals generalizing s with
  | nil => rfl
  | cons a rest ih =>
    rw [serve_cons]
    rcases HandleRequest_cases SplitHostPort s a.r a.sinceNow a.storeNow with
      ⟨hOK, _, ip1, port, hsplit, _, hmap⟩ | ⟨hne, hs⟩
    · rw [accepted_cons_OK SplitHostPort s a rest ip1 port hOK hsplit]
      simp only [lastStamp]
      rw [ih, hmap]
      by_cases h : ip1 = ip
      · simp [h]
      · have h2 : ¬ ip = ip1 := fun e => h e.symm
        simp [h, h2]
    · rw [accepted_cons_other SplitHostPort s a rest hne hs, ih, hs]

end server

namespace server

theorem le_of_nonDecreasing (arrivals : List Arrival) (h : NonDecreasing arrivals) :
    ∀ a ∈ arrivals, a.sinceNow ≤ a.storeNow := by
  induction arrivals with
  | nil => intro a ha; simp at ha
  | cons b rest ih =>
    unfold NonDecreasing at h
    simp only [readings, List.pairwise_cons] at h
    intro a ha
    rcases List.mem_cons.1 ha with e | e
    · subst e
      exact h.1 _ (List.mem_cons_self _ _)
    · exact ih h.2.2 a e

/-- Requests of one client that all arrive less than a second after its
stored instant are all answered 429, and the server stays as it is. -/
theorem serve_limited (SplitHostPort : String → Except GoError (String × String))
    (s : Server) (ip : String) (t : Int) (hstored : s.requestersList ip = some t)
    (rest : List Arrival)
    (hrest : ∀ a ∈ rest, (∃ port, SplitHostPort a.r.RemoteAddr = .ok (ip, port)) ∧
      a.sinceNow - t < Second) :
    s.serve SplitHostPort rest =
      (s, List.replicate rest.length
        (Response.Error "Too many requests" StatusTooManyRequests)) := by
  induction rest with
  | nil => rfl
  | cons a rest ih =>
    obtain ⟨⟨port, hsplit⟩, hsoon⟩ := hrest a (List.mem_cons_self _ _)
    rw [serve_cons, HandleRequest_limited SplitHostPort s a.r a.sinceNow a.storeNow ip port t
      hsplit hstored hsoon]
    simp only []
    rw [ih (fun b hb => hrest b (List.mem_cons_of_mem _ hb))]
    rfl

/-- Back-to-back requests `POST` of one client that the server does not know
yet, all within a second of the first: only the first is accepted. -/
theorem serve_burst (SplitHostPort : String → Except GoError (String × String))
    (s : Server) (a0 : Arrival) (rest : List Arrival) (ip port : String)
    (hpost : a0.r.Method = "POST")
    (hsplit : SplitHostPort a0.r.RemoteAddr = .ok (ip, port))
    (hnew : s.requestersList ip = none)
    (hrest : ∀ a ∈ rest, (∃ port, SplitHostPort a.r.RemoteAddr = .ok (ip, port)) ∧
      a.sinceNow - a0.storeNow < Second) :
    (s.serve SplitHostPort (a0 :: rest)).2 =
      Response.OK :: List.replicate rest.length
        (Response.Error "Too many requests" StatusTooManyRequests) ∧
    (s.serve SplitHostPort (a0 :: rest)).1.requestersList ip = some a0.storeNow := by
  have hstep : s.HandleRequest SplitHostPort a0.r a0.sinceNow a0.storeNow =
      ({ requestersList := fun k => if k = ip then some a0.storeNow else s.requestersList k },
        Response.OK) := by
    simp [Server.HandleRequest, hsplit, hnew, hpost]
  rw [serve_cons, hstep]
  simp only []
  rw [serve_limited SplitHostPort _ ip a0.storeNow (by simp) rest hrest]
  simp

end server

namespace server

/-- C23: the rate limit per IP of `HandleRequest`, for requests handled one
after another while the clock does not go back. The instant stored for a
client is the one of its last accepted request `POST`. A request of any
method that arrives less than one second after that instant is answered 429
and leaves the stored instants as they are. A call changes the server only
when it accepts a request `POST`, and it then stores the reading of the clock
for the IP of that request. So any two accepted requests of one IP are a
second or more apart, and of back-to-back requests `POST` of one IP that all
arrive within a second of the first only the first is accepted. -/
theorem C23_rate_limit_per_ip (SplitHostPort : String → Except GoError (String × String))
    (s : Server) (arrivals : List Arrival) (hclock : NonDecreasing arrivals) :
    (∀ ip, (s.serve SplitHostPort arrivals).1.requestersList ip =
      lastStamp ip (s.requestersList ip) (s.accepted SplitHostPort arrivals)) ∧
    (∀ (r : Request) (sinceNow storeNow : Int) (ip port : String) (t : Int),
      SplitHostPort r.RemoteAddr = .ok (ip, port) →
      lastStamp ip (s.requestersList ip) (s.accepted SplitHostPort arrivals) = some t →
      sinceNow - t < Second →
      (s.serve SplitHostPort arrivals).1.HandleRequest SplitHostPort r sinceNow storeNow =
        ((s.serve SplitHostPort arrivals).1,
          Response.Error "Too many requests" StatusTooManyRequests)) ∧
    (∀ (s1 : Server) (r : Request) (sinceNow storeNow : Int),
      (s1.HandleRequest SplitHostPort r sinceNow storeNow).1 ≠ s1 →
      (s1.HandleRequest SplitHostPort r sinceNow storeNow).2 = Response.OK ∧
      r.Method = "POST" ∧
      ∃ ip port, SplitHostPort r.RemoteAddr = .ok (ip, port) ∧
        (s1.HandleRequest SplitHostPort r sinceNow storeNow).1.requestersList =
          fun k => if k = ip then some storeNow else s1.requestersList k) ∧
    (s.accepted SplitHostPort arrivals).Pairwise
      (fun x y => x.1 = y.1 → x.2 + Second ≤ y.2) ∧
    (∀ (a0 : Arrival) (rest : List Arrival) (ip port : String),
      arrivals = a0 :: rest → a0.r.Method = "POST" →
      SplitHostPort a0.r.RemoteAddr = .ok (ip, port) →
      s.requestersList ip = none →
      (∀ a ∈ rest, (∃ port, SplitHostPort a.r.RemoteAddr = .ok (ip, port)) ∧
        a.sinceNow - a0.storeNow < Second) →
      (s.serve SplitHostPort arrivals).2 =
        Response.OK :: List.replicate rest.length
          (Response.Error "Too many requests" StatusTooManyRequests)) := by
  have hstep := le_of_nonDecreasing arrivals hclock
  refine ⟨serve_requestersList SplitHostPort arrivals s, ?_, ?_,
    accepted_pairwise SplitHostPort arrivals s hstep, ?_⟩
  · intro r sinceNow storeNow ip port t hsplit hlast hsoon
    exact HandleRequest_limited SplitHostPort _ r sinceNow storeNow ip port t hsplit
      (by rw [serve_requestersList]; exact hlast) hsoon
  · intro s1 r sinceNow storeNow hchange
    rcases HandleRequest_cases SplitHostPort s1 r sinceNow storeNow with
      ⟨hOK, hpost, ip, port, hsplit, _, hmap⟩ | ⟨_, hs⟩
    · exact ⟨hOK, hpost, ip, port, hsplit, hmap⟩
    · exact absurd hs hchange
  · intro a0 rest ip port harr hpost hsplit hnew hrest
    subst harr
    exact (serve_burst SplitHostPort s a0 rest ip port hpost hsplit hnew hrest).1

theorem demoSplitHostPort_demo :
    demoSplitHostPort "192.0.2.1:1234" = .ok ("192.0.2.1", "1234") := by
  rfl

theorem demoBurst_within_a_second :
    ∀ a ∈ demoBurst.tail,
      (∃ port, demoSplitHostPort a.r.RemoteAddr = .ok ("192.0.2.1", port)) ∧
        a.sinceNow - 500 < Second := by
  intro a ha
  have hmem : a ∈ demoBurst := List.mem_of_mem_tail ha
  simp only [demoBurst, List.mem_map, List.mem_range] at hmem
  obtain ⟨i, hi, rfl⟩ := hmem
  refine ⟨⟨"1234", demoSplitHostPort_demo⟩, ?_⟩
  simp only [Second]
  omega

set_option maxRecDepth 100000 in
/-- C23 on the requests of `Test_Limiter`, 100 requests `POST` from one
address within a millisecond, on a new server: the first is accepted and the
99 others are answered 429. -/
theorem C23_rate_limit_per_ip_witness :
    NonDecreasing demoBurst ∧
    (New.serve demoSplitHostPort demoBurst).2 =
      Response.OK :: List.replicate 99
        (Response.Error "Too many requests" StatusTooManyRequests) := by
  have h := (C23_rate_limit_per_ip demoSplitHostPort New demoBurst (by decide)).2.2.2.2
    { r := { RemoteAddr := "192.0.2.1:1234", Method := "POST" }, sinceNow := 0,
      storeNow := 500 }
    demoBurst.tail "192.0.2.1" "1234" (by decide) (by decide) demoSplitHostPort_demo
    (by rfl) demoBurst_within_a_second
  exact ⟨by decide, h⟩

end server

